import Mathlib

/-!
The ndnrtc frame buffer: a shallow embedding of `cpp/src/frame-buffer.cpp`

The receiver-side frame reassembly buffer: a pool of fixed-size slots, a map
from frame number to slot, a per-slot assembly state machine and a queue of
pending events.

Conventions of the embedding.

* A `shared_ptr<Slot>` is the index of the slot in `FrameBuffer.slots`, the
  list of all `Slot` objects allocated so far (allocation order).  Slots are
  never deallocated while they are referenced, so an index stays valid.
* `std::vector<shared_ptr<Slot>> freeSlots_` is a list whose back is its last
  element; `std::map<unsigned int, shared_ptr<Slot>> frameSlotMapping_` is a
  list of (key, slot) pairs kept in key order.
* `unsigned int` values are natural numbers.  The counters of a slot are
  declared in `frame-buffer.h`, which is not among the sources; arithmetic on
  them is done on naturals, that is, below the wrap-around point of their type.
* The inline methods of `Slot` (`getState`, `markNew`, `markAssembling`,
  `markLocked`, `markUnlocked`, `markFree`, `assembledSegmentsNumber`) are
  declared in `frame-buffer.h` as well.  They follow the transition table of
  the specification: a method acts from the states the table lists for it and
  leaves the slot alone from any other state.
* Locks and the signalling of `bufferEvent_` have no counterpart: operations
  are atomic steps on the state.
* `flush` erases a map entry under its iterator and then increments that
  iterator, which the language leaves undefined.  A call whose behaviour is
  undefined has no result (`none`), and a sequence of calls that contains one
  has none either.  The calls of `Op` are defined in every state; `Call` adds
  `flush` to them.
-/

namespace ndnrtc

/-! ## Result codes, slot states, events -/

/-- Result codes of the buffer calls (`FrameBuffer::CallResult`). -/
inductive CallResult
  | CallResultOk
  | CallResultNew
  | CallResultBooked
  | CallResultFull
  | CallResultNotFound
  | CallResultAssembling
  | CallResultLocked
  | CallResultError
  deriving DecidableEq

/-- States of a slot (`FrameBuffer::Slot::State`), as listed by `stateToString`. -/
inductive SlotState
  | StateFree
  | StateNew
  | StateAssembling
  | StateReady
  | StateLocked
  deriving DecidableEq

/-- Types of buffer events (`FrameBuffer::Event::EventType`). -/
inductive EventType
  | EventTypeReady
  | EventTypeFirstSegment
  | EventTypeFreeSlot
  | EventTypeTimeout
  | EventTypeError
  deriving DecidableEq

/-- Modelled from the spec: the enumerator values of `Event::EventType` are
declared in `frame-buffer.h` (absent); each type is one bit of an event mask. -/
def EventType.bits : EventType → Nat
  | .EventTypeReady => 1
  | .EventTypeFirstSegment => 2
  | .EventTypeFreeSlot => 4
  | .EventTypeTimeout => 8
  | .EventTypeError => 16

/-- A buffer event (`FrameBuffer::Event`); `slot_` is a raw slot pointer, `none` when null. -/
structure Event where
  type_ : EventType
  segmentNo_ : Nat
  frameNo_ : Nat
  slot_ : Option Nat
  deriving DecidableEq

/-! ## Slot -/

/-- A slot (`FrameBuffer::Slot`): `data_` is the byte array of `dataLength_` bytes. -/
structure Slot where
  dataLength_ : Nat
  state_ : SlotState
  stashedState_ : SlotState
  segmentSize_ : Nat
  storedSegments_ : Nat
  segmentsNum_ : Nat
  assembledDataSize_ : Nat
  frameNumber_ : Int
  data_ : List Nat
  deriving DecidableEq

namespace Slot

/-- The constructor `Slot::Slot(slotSize)`.  `stashedState_` is left
uninitialised by the source and is written by `markLocked` before it is read;
the bytes of the fresh array are taken to be zero. -/
def new (slotSize : Nat) : Slot :=
  { dataLength_ := slotSize
    state_ := .StateFree
    stashedState_ := .StateFree
    segmentSize_ := 0
    storedSegments_ := 0
    segmentsNum_ := 0
    assembledDataSize_ := 0
    frameNumber_ := -1
    data_ := List.replicate slotSize 0 }

/-- Modelled from the spec: `Slot::getState` (frame-buffer.h, absent) reads the state. -/
def getState (s : Slot) : SlotState := s.state_

/-- Modelled from the spec: `Slot::assembledSegmentsNumber` (frame-buffer.h, absent)
reads the count of stored segments. -/
def assembledSegmentsNumber (s : Slot) : Nat := s.storedSegments_

/-- Modelled from the spec: `Slot::markFree` (frame-buffer.h, absent).  Table row
"any non-Locked, mark_free, Free, clear counters"; the frame number of a Free
slot is unset. -/
def markFree (s : Slot) : Slot :=
  if s.state_ = .StateLocked then s
  else { s with state_ := .StateFree, storedSegments_ := 0, assembledDataSize_ := 0,
                frameNumber_ := -1 }

/-- Modelled from the spec: `Slot::markNew` (frame-buffer.h, absent).  Table row
"Free, mark_new(frame_no), New, record frame_no, zero counters". -/
def markNew (s : Slot) (frameNumber : Nat) : Slot :=
  if s.state_ = .StateFree then
    { s with state_ := .StateNew, frameNumber_ := (frameNumber : Int),
             storedSegments_ := 0, assembledDataSize_ := 0 }
  else s

/-- Modelled from the spec: `Slot::markAssembling` (frame-buffer.h, absent).  Table
row "New, mark_assembling(n_seg, seg_size), Assembling, record geometry". -/
def markAssembling (s : Slot) (segmentsNum segmentSize : Nat) : Slot :=
  if s.state_ = .StateNew then
    { s with state_ := .StateAssembling, segmentsNum_ := segmentsNum,
             segmentSize_ := segmentSize }
  else s

/-- Modelled from the spec: `Slot::markLocked` (frame-buffer.h, absent).  Table row
"Ready, Assembling, New, mark_locked, Locked, stashed_state := prior". -/
def markLocked (s : Slot) : Slot :=
  if s.state_ = .StateReady ∨ s.state_ = .StateAssembling ∨ s.state_ = .StateNew then
    { s with stashedState_ := s.state_, state_ := .StateLocked }
  else s

/-- Modelled from the spec: `Slot::markUnlocked` (frame-buffer.h, absent).  Table
row "Locked, mark_unlocked, stashed_state". -/
def markUnlocked (s : Slot) : Slot :=
  if s.state_ = .StateLocked then { s with state_ := s.stashedState_ } else s

/-- The effect of `memcpy(data_ + pos, src, n)` on the `data_` array of a slot:
bytes `pos .. pos + n` are replaced by the first `n` bytes of `src`.  What the
call writes past the end of the array is outside the slot and is not recorded. -/
def memcpy (dst : List Nat) (pos : Nat) (src : List Nat) (n : Nat) : List Nat :=
  dst.take pos ++ (src.take n).take (dst.length - pos) ++ dst.drop (pos + n)

/-- The method `Slot::getFrame`; `unpackFrame` is the external codec
`NdnFrameData::unpackFrame`, giving the frame it stores through its out
parameter (`none` when it stores nothing). -/
def getFrame (unpackFrame : Nat → List Nat → Option (List Nat)) (s : Slot) :
    Option (List Nat) :=
  if s.state_ = .StateReady ∨ (s.state_ = .StateLocked ∧ s.stashedState_ = .StateReady) then
    unpackFrame s.assembledDataSize_ s.data_
  else none

/-- The method `Slot::appendSegment`: the slot after the call and the returned state. -/
def appendSegment (s : Slot) (segmentNo dataLength : Nat) (data : List Nat) :
    Slot × SlotState :=
  if ¬ (s.state_ = .StateAssembling) then (s, s.state_)
  else
    let pos := segmentNo * s.segmentSize_
    let s1 := { s with data_ := memcpy s.data_ pos data dataLength
                       assembledDataSize_ := s.assembledDataSize_ + dataLength
                       storedSegments_ := s.storedSegments_ + 1 }
    let s2 := if s1.storedSegments_ = s1.segmentsNum_ then
        { s1 with state_ := .StateReady }
      else { s1 with state_ := .StateAssembling }
    (s2, s2.state_)

end Slot

/-! ## The frame-to-slot map -/

/-- Lookup in the map (`std::map::find`). -/
def mapFind : List (Nat × Nat) → Nat → Option Nat
  | [], _ => none
  | (k, v) :: m, key => if k = key then some v else mapFind m key

/-- Insert-or-assign in key order (`frameSlotMapping_[key] = v`). -/
def mapInsert : List (Nat × Nat) → Nat → Nat → List (Nat × Nat)
  | [], key, v => [(key, v)]
  | (k, w) :: m, key, v =>
    if key < k then (key, v) :: (k, w) :: m
    else if key = k then (key, v) :: m
    else (k, w) :: mapInsert m key v

/-- Removal of a key (`std::map::erase`); the keys of a `std::map` are unique. -/
def mapErase : List (Nat × Nat) → Nat → List (Nat × Nat)
  | [], _ => []
  | (k, v) :: m, key => if k = key then mapErase m key else (k, v) :: mapErase m key

/-! ## FrameBuffer -/

/-- The state of a `FrameBuffer`. -/
structure FrameBuffer where
  bufferSize_ : Nat
  slotSize_ : Nat
  slots : List Slot
  freeSlots_ : List Nat
  frameSlotMapping_ : List (Nat × Nat)
  pendingEvents_ : List Event
  forcedRelease_ : Bool
  deriving DecidableEq

namespace FrameBuffer

/-- The constructor `FrameBuffer::FrameBuffer()`.  `forcedRelease_` is not
initialised by the source; it is written by `waitForEvents` before it is read. -/
def new : FrameBuffer :=
  { bufferSize_ := 0
    slotSize_ := 0
    slots := []
    freeSlots_ := []
    frameSlotMapping_ := []
    pendingEvents_ := []
    forcedRelease_ := false }

/-- The slot a pointer refers to. -/
def deref (fb : FrameBuffer) (slot : Nat) : Slot :=
  fb.slots.getD slot (Slot.new 0)

/-- A call of a mutating method `g` through a slot pointer. -/
def withSlot (fb : FrameBuffer) (slot : Nat) (g : Slot → Slot) : FrameBuffer :=
  { fb with slots := fb.slots.set slot (g (fb.deref slot)) }

/-- The private method `notifyBufferEventOccurred`: push an event at the back of the queue. -/
def notifyBufferEventOccurred (fb : FrameBuffer) (frameNo segmentNo : Nat)
    (eType : EventType) (slot : Option Nat) : FrameBuffer :=
  { fb with pendingEvents_ := fb.pendingEvents_ ++
      [{ type_ := eType, segmentNo_ := segmentNo, frameNo_ := frameNo, slot_ := slot }] }

/-- The private method `getFrameSlot`: the buffer after the call, the result code
and the slot stored through the out parameter.  Every call in the source leaves
out `remove`; its default value is declared in `frame-buffer.h` and is taken to
be `false` (a lookup does not unmap the frame), which is how the calls below
pass it. -/
def getFrameSlot (fb : FrameBuffer) (frameNo : Nat) (remove : Bool) :
    FrameBuffer × CallResult × Option Nat :=
  match mapFind fb.frameSlotMapping_ frameNo with
  | some slot =>
    (if remove then { fb with frameSlotMapping_ := mapErase fb.frameSlotMapping_ frameNo }
      else fb, .CallResultOk, some slot)
  | none => (fb, .CallResultNotFound, none)

/-- The body of the slot-creating loop of `init`, run `k` times. -/
def initLoop : Nat → FrameBuffer → FrameBuffer
  | 0, fb => fb
  | k + 1, fb =>
    let slot := fb.slots.length
    let fb1 := { fb with slots := fb.slots ++ [Slot.new fb.slotSize_] }
    let fb2 := { fb1 with freeSlots_ := fb1.freeSlots_ ++ [slot] }
    initLoop k (fb2.notifyBufferEventOccurred 0 0 .EventTypeFreeSlot (some slot))

/-- The method `FrameBuffer::init`. -/
def init (fb : FrameBuffer) (bufferSize slotSize : Nat) : FrameBuffer × Int :=
  if bufferSize = 0 ∨ slotSize = 0 then (fb, -1)
  else
    let fb1 := { fb with bufferSize_ := bufferSize, slotSize_ := slotSize }
    (initLoop fb1.bufferSize_ fb1, 0)

/-- The method `FrameBuffer::bookSlot`. -/
def bookSlot (fb : FrameBuffer) (frameNumber : Nat) : FrameBuffer × CallResult :=
  match fb.getFrameSlot frameNumber false with
  | (fb1, .CallResultOk, _) => (fb1, .CallResultBooked)
  | (fb1, _, _) =>
    match fb1.freeSlots_.getLast? with
    | none => (fb1, .CallResultFull)
    | some freeSlot =>
      let fb2 := { fb1 with freeSlots_ := fb1.freeSlots_.dropLast }
      let fb3 := { fb2 with
        frameSlotMapping_ := mapInsert fb2.frameSlotMapping_ frameNumber freeSlot }
      (fb3.withSlot freeSlot (fun s => s.markNew frameNumber), .CallResultNew)

/-- The body of the loop of `flush` at the map entry `entry`. -/
def flushVisit (fb : FrameBuffer) (entry : Nat × Nat) : FrameBuffer :=
  let slot := entry.2
  if (fb.deref slot).getState ≠ .StateLocked then
    let fb1 := { fb with freeSlots_ := fb.freeSlots_ ++ [slot] }
    let fb2 := fb1.withSlot slot Slot.markFree
    let fb3 := { fb2 with frameSlotMapping_ := mapErase fb2.frameSlotMapping_ entry.1 }
    fb3.notifyBufferEventOccurred 0 0 .EventTypeFreeSlot (some slot)
  else fb

/-- The loop of `flush` as far as the language defines it.  `erase(it)` invalidates
`it`, and the `++it` of the loop header then reads the erased node, so the
loop is followed up to its first `erase`: the result is the buffer at that
point, and `true` when the loop reached the end of the map without erasing
(every mapped slot Locked), `false` when an entry was erased under the
iterator and the entries after it are left to an invalid iterator. -/
def flushUntilErase (fb : FrameBuffer) : List (Nat × Nat) → FrameBuffer × Bool
  | [] => (fb, true)
  | entry :: rest =>
    if (fb.deref entry.2).getState ≠ .StateLocked then (fb.flushVisit entry, false)
    else flushUntilErase fb rest

/-- The method `FrameBuffer::flush`: the buffer after the call and the returned
value, `none` when the behaviour of the call is undefined.  The loop visits the
entries of the map in key order; at an entry whose slot is not Locked it calls
`frameSlotMapping_.erase(it)` and the loop header then runs `++it` on the
erased iterator, which the language leaves undefined.  The call therefore has
a result only when the loop reaches the end of the map without erasing, that
is when every mapped slot is Locked; the buffer is then as it was. -/
def flush (fb : FrameBuffer) : Option (FrameBuffer × Int) :=
  match fb.flushUntilErase fb.frameSlotMapping_ with
  | (fb1, true) => some (fb1, 0)
  | (_, false) => none

/-- The method `FrameBuffer::release`. -/
def release (fb : FrameBuffer) : FrameBuffer :=
  { fb with forcedRelease_ := true }

/-- The method `FrameBuffer::markSlotFree`. -/
def markSlotFree (fb : FrameBuffer) (frameNumber : Nat) : FrameBuffer :=
  match fb.getFrameSlot frameNumber false with
  | (fb1, .CallResultOk, some slot) =>
    if (fb1.deref slot).getState ≠ .StateLocked then
      let fb2 := fb1.withSlot slot Slot.markFree
      let fb3 := { fb2 with freeSlots_ := fb2.freeSlots_ ++ [slot] }
      let fb4 := { fb3 with frameSlotMapping_ := mapErase fb3.frameSlotMapping_ frameNumber }
      fb4.notifyBufferEventOccurred frameNumber 0 .EventTypeFreeSlot (some slot)
    else fb1
  | (fb1, _, _) => fb1

/-- The method `FrameBuffer::lockSlot`. -/
def lockSlot (fb : FrameBuffer) (frameNumber : Nat) : FrameBuffer :=
  match fb.getFrameSlot frameNumber false with
  | (fb1, .CallResultOk, some slot) => fb1.withSlot slot Slot.markLocked
  | (fb1, _, _) => fb1

/-- The method `FrameBuffer::unlockSlot`. -/
def unlockSlot (fb : FrameBuffer) (frameNumber : Nat) : FrameBuffer :=
  match fb.getFrameSlot frameNumber false with
  | (fb1, .CallResultOk, some slot) => fb1.withSlot slot Slot.markUnlocked
  | (fb1, _, _) => fb1

/-- The method `FrameBuffer::markSlotAssembling`. -/
def markSlotAssembling (fb : FrameBuffer) (frameNumber totalSegments segmentSize : Nat) :
    FrameBuffer :=
  match fb.getFrameSlot frameNumber false with
  | (fb1, .CallResultOk, some slot) =>
    fb1.withSlot slot (fun s => s.markAssembling totalSegments segmentSize)
  | (fb1, _, _) => fb1

/-- The method `FrameBuffer::appendSegment`. -/
def appendSegment (fb : FrameBuffer) (frameNumber segmentNumber dataLength : Nat)
    (data : List Nat) : FrameBuffer × CallResult :=
  match fb.getFrameSlot frameNumber false with
  | (fb1, .CallResultOk, some slot) =>
    if (fb1.deref slot).getState = .StateAssembling then
      let r := (fb1.deref slot).appendSegment segmentNumber dataLength data
      let fb2 := fb1.withSlot slot (fun _ => r.1)
      match r.2 with
      | .StateAssembling =>
        if (fb2.deref slot).assembledSegmentsNumber = 1 then
          (fb2.notifyBufferEventOccurred frameNumber segmentNumber
            .EventTypeFirstSegment (some slot), .CallResultAssembling)
        else (fb2, .CallResultAssembling)
      | .StateReady =>
        (fb2.notifyBufferEventOccurred frameNumber segmentNumber
          .EventTypeReady (some slot), .CallResultAssembling)
      | slotState =>
        (fb2, if slotState = .StateLocked then .CallResultLocked else .CallResultError)
    else (fb1, .CallResultOk)
  | (fb1, res, _) => (fb1, res)

/-- The method `FrameBuffer::notifySegmentTimeout`. -/
def notifySegmentTimeout (fb : FrameBuffer) (frameNumber segmentNumber : Nat) : FrameBuffer :=
  match fb.getFrameSlot frameNumber false with
  | (fb1, .CallResultOk, some slot) =>
    fb1.notifyBufferEventOccurred frameNumber segmentNumber .EventTypeTimeout (some slot)
  | (fb1, _, _) => fb1

/-- The method `FrameBuffer::getState`. -/
def getState (fb : FrameBuffer) (frameNo : Nat) : FrameBuffer × SlotState :=
  match fb.getFrameSlot frameNo false with
  | (fb1, .CallResultOk, some slot) => (fb1, (fb1.deref slot).getState)
  | (fb1, _, _) => (fb1, .StateFree)

/-- The method `FrameBuffer::getEncodedImage`; `none` is the null pointer. -/
def getEncodedImage (unpackFrame : Nat → List Nat → Option (List Nat)) (fb : FrameBuffer)
    (frameNo : Nat) : FrameBuffer × Option (List Nat) :=
  match fb.getFrameSlot frameNo false with
  | (fb1, .CallResultOk, some slot) =>
    if (fb1.deref slot).getState = .StateReady then
      (fb1, (fb1.deref slot).getFrame unpackFrame)
    else (fb1, none)
  | (fb1, _, _) => (fb1, none)

/-- The scan of the pending events in `waitForEvents`: position of the first event
whose type meets the mask. -/
def scanEvents (eventsMask : Nat) : List Event → Option Nat
  | [] => none
  | ev :: evs =>
    if ev.type_.bits &&& eventsMask ≠ 0 then some 0
    else (scanEvents eventsMask evs).map Nat.succ

/-- The event `waitForEvents` returns when none was popped: all fields zero, type Error. -/
def errorEvent : Event :=
  { type_ := .EventTypeError, segmentNo_ := 0, frameNo_ := 0, slot_ := none }

/-- The outer loop of `waitForEvents`; `signals` is the number of times
`bufferEvent_.Wait` returns signaled before it returns otherwise. -/
def waitLoop (eventsMask : Nat) (fb : FrameBuffer) : Nat → FrameBuffer × Event
  | 0 =>
    match scanEvents eventsMask fb.pendingEvents_ with
    | some i =>
      ({ fb with pendingEvents_ := fb.pendingEvents_.eraseIdx i },
        fb.pendingEvents_.getD i errorEvent)
    | none => (fb, errorEvent)
  | signals + 1 =>
    match scanEvents eventsMask fb.pendingEvents_ with
    | some i =>
      ({ fb with pendingEvents_ := fb.pendingEvents_.eraseIdx i },
        fb.pendingEvents_.getD i errorEvent)
    | none => waitLoop eventsMask fb signals

/-- The method `FrameBuffer::waitForEvents`, run by a single thread. -/
def waitForEvents (fb : FrameBuffer) (eventsMask : Nat) (signals : Nat) :
    FrameBuffer × Event :=
  waitLoop eventsMask { fb with forcedRelease_ := false } signals

end FrameBuffer

/-! ## Sequences of calls -/

/-- A call of a method whose behaviour is defined in every state of the buffer, with
its arguments: every public method used after `init`, except `flush`. -/
inductive Op
  | bookSlot (frameNumber : Nat)
  | markSlotAssembling (frameNumber totalSegments segmentSize : Nat)
  | appendSegment (frameNumber segmentNumber dataLength : Nat) (data : List Nat)
  | notifySegmentTimeout (frameNumber segmentNumber : Nat)
  | lockSlot (frameNumber : Nat)
  | unlockSlot (frameNumber : Nat)
  | markSlotFree (frameNumber : Nat)
  | getState (frameNo : Nat)
  | getEncodedImage (frameNo : Nat)
  | waitForEvents (eventsMask signals : Nat)
  | release
  deriving DecidableEq

namespace FrameBuffer

/-- The buffer after one call. -/
def step (unpackFrame : Nat → List Nat → Option (List Nat)) (fb : FrameBuffer) :
    Op → FrameBuffer
  | .bookSlot f => (fb.bookSlot f).1
  | .markSlotAssembling f n sz => fb.markSlotAssembling f n sz
  | .appendSegment f k len data => (fb.appendSegment f k len data).1
  | .notifySegmentTimeout f k => fb.notifySegmentTimeout f k
  | .lockSlot f => fb.lockSlot f
  | .unlockSlot f => fb.unlockSlot f
  | .markSlotFree f => fb.markSlotFree f
  | .getState f => (fb.getState f).1
  | .getEncodedImage f => (fb.getEncodedImage unpackFrame f).1
  | .waitForEvents mask signals => (fb.waitForEvents mask signals).1
  | .release => fb.release

/-- The buffer after a sequence of calls. -/
def run (unpackFrame : Nat → List Nat → Option (List Nat)) (fb : FrameBuffer)
    (ops : List Op) : FrameBuffer :=
  ops.foldl (step unpackFrame) fb

/-- Book the frames of a list one after the other: the buffer at the end and the
result codes in call order. -/
def bookAll (fb : FrameBuffer) : List Nat → FrameBuffer × List CallResult
  | [] => (fb, [])
  | f :: fs =>
    let r := fb.bookSlot f
    let rest := bookAll r.1 fs
    (rest.1, r.2 :: rest.2)

end FrameBuffer

/-! ## Invariants -/

/-- The pool partition: the free list followed by the mapped slots lists every
allocated slot exactly once, and the keys of the map are strictly increasing. -/
def PoolInv (fb : FrameBuffer) : Prop :=
  (fb.freeSlots_ ++ fb.frameSlotMapping_.map Prod.snd).Perm (List.range fb.slots.length) ∧
  (fb.frameSlotMapping_.map Prod.fst).Pairwise (fun a b => a < b)

/-- The buffer reached from a freshly constructed one by `init n s` followed by
the calls `ops`. -/
def FrameBuffer.afterInit (unpackFrame : Nat → List Nat → Option (List Nat)) (n s : Nat)
    (ops : List Op) : FrameBuffer :=
  (FrameBuffer.new.init n s).1.run unpackFrame ops

/-- The state a slot is in, looking through a lock: the stashed state when Locked. -/
def Slot.effState (s : Slot) : SlotState :=
  if s.state_ = .StateLocked then s.stashedState_ else s.state_

/-- A slot that has not left New (locked or not) has stored no segment. -/
def Slot.Good (s : Slot) : Prop :=
  s.effState = .StateNew → s.storedSegments_ = 0

/-- The state invariant of the buffer: the pool partition, Free slots on the free
list, and every slot `Good`. -/
def Inv (fb : FrameBuffer) : Prop :=
  PoolInv fb ∧ (∀ slot ∈ fb.freeSlots_, (fb.deref slot).state_ = .StateFree) ∧
  ∀ slot, (fb.deref slot).Good

/-- An event of type `t` about frame `f`. -/
def Event.isOf (t : EventType) (f : Nat) (ev : Event) : Bool :=
  decide (ev.type_ = t ∧ ev.frameNo_ = f)

/-- The events `Slot`-level `appendSegment` makes the buffer queue for frame `f`: Ready
when the slot completes, FirstSegment when it holds one segment and is not
complete. -/
def appendEvents (s : Slot) (f k slot : Nat) : List Event :=
  if s.storedSegments_ + 1 = s.segmentsNum_ then
    [{ type_ := .EventTypeReady, segmentNo_ := k, frameNo_ := f, slot_ := some slot }]
  else if s.storedSegments_ + 1 = 1 then
    [{ type_ := .EventTypeFirstSegment, segmentNo_ := k, frameNo_ := f, slot_ := some slot }]
  else []

/-- What one call `op` does to the slot `slot` of a frame `f` that is mapped before
and after the call: `s` and `s1` are the slot before and after, `evs` the
events the call queued. -/
def SlotStep (f slot : Nat) (op : Op) (s s1 : Slot) (evs : List Event) : Prop :=
  (s1 = s ∧ ∀ ev ∈ evs, ¬ (ev.frameNo_ = f ∧
    (ev.type_ = .EventTypeReady ∨ ev.type_ = .EventTypeFirstSegment))) ∨
  (∃ n sz, op = .markSlotAssembling f n sz ∧ s1 = s.markAssembling n sz ∧ evs = []) ∨
  (op = .lockSlot f ∧ s1 = s.markLocked ∧ evs = []) ∨
  (op = .unlockSlot f ∧ s1 = s.markUnlocked ∧ evs = []) ∨
  (∃ k len data, op = .appendSegment f k len data ∧ s.state_ = .StateAssembling ∧
    s1 = (s.appendSegment k len data).1 ∧ evs = appendEvents s f k slot)

namespace FrameBuffer

/-- The slot a frame is mapped to (a fresh empty slot when it is not mapped). -/
def slotOf (fb : FrameBuffer) (f : Nat) : Slot :=
  match mapFind fb.frameSlotMapping_ f with
  | some slot => fb.deref slot
  | none => Slot.new 0

/-- The events a call pushes on the queue. -/
def emitted (unpackFrame : Nat → List Nat → Option (List Nat)) (fb : FrameBuffer)
    (op : Op) : List Event :=
  match op with
  | .waitForEvents _ _ => []
  | _ => (fb.step unpackFrame op).pendingEvents_.drop fb.pendingEvents_.length

/-- The events a sequence of calls pushes on the queue, in order. -/
def runEmitted (unpackFrame : Nat → List Nat → Option (List Nat)) :
    FrameBuffer → List Op → List Event
  | _, [] => []
  | fb, op :: ops =>
    fb.emitted unpackFrame op ++ runEmitted unpackFrame (fb.step unpackFrame op) ops

/-- Frame `f` is mapped after each call of the sequence. -/
def staysMapped (unpackFrame : Nat → List Nat → Option (List Nat)) (f : Nat) :
    FrameBuffer → List Op → Bool
  | _, [] => true
  | fb, op :: ops =>
    (mapFind (fb.step unpackFrame op).frameSlotMapping_ f).isSome &&
      staysMapped unpackFrame f (fb.step unpackFrame op) ops

end FrameBuffer

/-- A slot in use: New, Assembling or Ready, locked or not. -/
def Slot.Live (s : Slot) : Prop :=
  s.effState = .StateNew ∨ s.effState = .StateAssembling ∨ s.effState = .StateReady

/-- Every mapped slot is in use. -/
def MappedLive (fb : FrameBuffer) : Prop :=
  ∀ f a, mapFind fb.frameSlotMapping_ f = some a → (fb.deref a).Live

/-- A call on the buffer: `flush`, or a call of `Op`. -/
inductive Call
  | flush
  | op (o : Op)
  deriving DecidableEq

/-- The calls of a sequence other than `flush`, in order. -/
def opsOf : List Call → List Op
  | [] => []
  | .flush :: cs => opsOf cs
  | .op o :: cs => o :: opsOf cs

namespace FrameBuffer

/-- One call: the buffer after it and the events it pushed on the queue; `none` when
the behaviour of the call is undefined. -/
def stepCall (unpackFrame : Nat → List Nat → Option (List Nat)) (fb : FrameBuffer) :
    Call → Option (FrameBuffer × List Event)
  | .flush =>
    match fb.flush with
    | some r => some (r.1, r.1.pendingEvents_.drop fb.pendingEvents_.length)
    | none => none
  | .op o => some (fb.step unpackFrame o, fb.emitted unpackFrame o)

/-- A sequence of calls: the buffer at the end and the events pushed, in order; `none`
when the behaviour of one of the calls is undefined. -/
def runCalls (unpackFrame : Nat → List Nat → Option (List Nat)) :
    FrameBuffer → List Call → Option (FrameBuffer × List Event)
  | fb, [] => some (fb, [])
  | fb, c :: cs =>
    match fb.stepCall unpackFrame c with
    | none => none
    | some r =>
      match runCalls unpackFrame r.1 cs with
      | none => none
      | some r2 => some (r2.1, r.2 ++ r2.2)

/-- Every call of the sequence is defined and leaves frame `f` mapped. -/
def callsStayMapped (unpackFrame : Nat → List Nat → Option (List Nat)) (f : Nat) :
    FrameBuffer → List Call → Bool
  | _, [] => true
  | fb, c :: cs =>
    match fb.stepCall unpackFrame c with
    | none => false
    | some r =>
      (mapFind r.1.frameSlotMapping_ f).isSome && callsStayMapped unpackFrame f r.1 cs

/-- The arguments of a call fit the geometry of a slot of `slotSize` bytes:
`markSlotAssembling` announces at least one segment and segments that fit the
slot together, and `appendSegment` for a frame whose slot is Assembling is
given no more bytes than the segment size recorded for that slot. -/
def validArgs (fb : FrameBuffer) (slotSize : Nat) : Op → Bool
  | .markSlotAssembling _ totalSegments segmentSize =>
    decide (1 ≤ totalSegments ∧ totalSegments * segmentSize ≤ slotSize)
  | .appendSegment f _ dataLength _ =>
    decide ((fb.slotOf f).state_ = .StateAssembling →
      dataLength ≤ (fb.slotOf f).segmentSize_)
  | _ => true

/-- Every call of the sequence is given arguments that fit the geometry of the slots,
each call being judged on the buffer it is made on. -/
def validCalls (unpackFrame : Nat → List Nat → Option (List Nat)) (slotSize : Nat) :
    FrameBuffer → List Call → Bool
  | _, [] => true
  | fb, c :: cs =>
    (match c with
      | .flush => true
      | .op o => fb.validArgs slotSize o) &&
    (match fb.stepCall unpackFrame c with
      | none => true
      | some r => validCalls unpackFrame slotSize r.1 cs)

end FrameBuffer

/-- The counters of a slot of a buffer whose slots have `slotSize` bytes: no more
segments stored than expected, fewer while Assembling, none unless the slot is
Assembling or Ready, at most `segmentSize_` bytes counted per stored segment,
and a recorded geometry that fits the slot once the slot is Assembling or
Ready. -/
def Slot.Counted (slotSize : Nat) (s : Slot) : Prop :=
  s.storedSegments_ ≤ s.segmentsNum_ ∧
  (s.effState = .StateAssembling → s.storedSegments_ < s.segmentsNum_) ∧
  (¬ (s.effState = .StateAssembling ∨ s.effState = .StateReady) → s.storedSegments_ = 0) ∧
  s.assembledDataSize_ ≤ s.storedSegments_ * s.segmentSize_ ∧
  (s.effState = .StateAssembling ∨ s.effState = .StateReady →
    s.segmentsNum_ * s.segmentSize_ ≤ slotSize)

/-! ## Properties of the map -/

theorem mapFind_mapInsert_self (m : List (Nat × Nat)) (key v : Nat) :
    mapFind (mapInsert m key v) key = some v := by
  induction m with
  | nil => simp [mapInsert, mapFind]
  | cons p m ih =>
    obtain ⟨k, w⟩ := p
    unfold mapInsert
    split_ifs with h1 h2
    · simp [mapFind]
    · simp [mapFind]
    · have hk : k ≠ key := fun h => h2 h.symm
      simp [mapFind, hk, ih]

theorem mapFind_mapInsert_ne (m : List (Nat × Nat)) (key v g : Nat) (hg : g ≠ key) :
    mapFind (mapInsert m key v) g = mapFind m g := by
  induction m with
  | nil => simp [mapInsert, mapFind, Ne.symm hg]
  | cons p m ih =>
    obtain ⟨k, w⟩ := p
    unfold mapInsert
    split_ifs with h1 h2
    · simp [mapFind, Ne.symm hg]
    · subst h2
      simp [mapFind, Ne.symm hg]
    · simp [mapFind, ih]

theorem mapFind_mapErase_self (m : List (Nat × Nat)) (key : Nat) :
    mapFind (mapErase m key) key = none := by
  induction m with
  | nil => simp [mapErase, mapFind]
  | cons p m ih =>
    obtain ⟨k, w⟩ := p
    unfold mapErase
    split_ifs with h1
    · exact ih
    · simp [mapFind, h1, ih]

theorem mapFind_mapErase_ne (m : List (Nat × Nat)) (key g : Nat) (hg : g ≠ key) :
    mapFind (mapErase m key) g = mapFind m g := by
  induction m with
  | nil => simp [mapErase, mapFind]
  | cons p m ih =>
    obtain ⟨k, w⟩ := p
    unfold mapErase
    split_ifs with h1
    · subst h1
      simp [mapFind, Ne.symm hg, ih]
    · simp [mapFind, ih]

/-! ## Properties of the calls -/

namespace FrameBuffer

theorem getFrameSlot_some (fb : FrameBuffer) (f slot : Nat)
    (h : mapFind fb.frameSlotMapping_ f = some slot) :
    fb.getFrameSlot f false = (fb, .CallResultOk, some slot) := by
  simp [getFrameSlot, h]

theorem getFrameSlot_none (fb : FrameBuffer) (f : Nat)
    (h : mapFind fb.frameSlotMapping_ f = none) :
    fb.getFrameSlot f false = (fb, .CallResultNotFound, none) := by
  simp [getFrameSlot, h]

theorem bookSlot_mapped (fb : FrameBuffer) (f slot : Nat)
    (h : mapFind fb.frameSlotMapping_ f = some slot) :
    fb.bookSlot f = (fb, .CallResultBooked) := by
  simp [bookSlot, getFrameSlot_some fb f slot h]

theorem bookSlot_full (fb : FrameBuffer) (f : Nat)
    (h : mapFind fb.frameSlotMapping_ f = none) (hfree : fb.freeSlots_ = []) :
    fb.bookSlot f = (fb, .CallResultFull) := by
  simp [bookSlot, getFrameSlot_none fb f h, hfree]

theorem bookSlot_new (fb : FrameBuffer) (f slot : Nat) (rest : List Nat)
    (h : mapFind fb.frameSlotMapping_ f = none) (hfree : fb.freeSlots_ = rest ++ [slot]) :
    fb.bookSlot f =
      (({ fb with freeSlots_ := rest
                  frameSlotMapping_ := mapInsert fb.frameSlotMapping_ f slot } :
          FrameBuffer).withSlot slot (fun s => s.markNew f), .CallResultNew) := by
  simp [bookSlot, getFrameSlot_none fb f h, hfree]

theorem deref_withSlot_self (fb : FrameBuffer) (slot : Nat) (g : Slot → Slot)
    (h : slot < fb.slots.length) : (fb.withSlot slot g).deref slot = g (fb.deref slot) := by
  simp [withSlot, deref, List.getD_eq_getElem?_getD, List.getElem?_set, h]

theorem deref_withSlot_ne (fb : FrameBuffer) (slot other : Nat) (g : Slot → Slot)
    (h : other ≠ slot) : (fb.withSlot slot g).deref other = fb.deref other := by
  simp [withSlot, deref, List.getD_eq_getElem?_getD, List.getElem?_set, Ne.symm h]

/-- C1: `bookSlot f` returns Booked exactly when `f` is already mapped; for an
unmapped `f` it returns Full exactly when `freeSlots_` is empty, and otherwise
New, and then the slot at the back of `freeSlots_` is the one slot removed from
it, it is what `f` maps to, its state is New, the other frames keep their
mapping and the event queue is as before.  The free list holds live slots in
state Free, as the data model says. -/
theorem bookSlot_contract (fb : FrameBuffer) (f : Nat)
    (hfree : ∀ slot ∈ fb.freeSlots_,
      slot < fb.slots.length ∧ (fb.deref slot).state_ = .StateFree) :
    ((fb.bookSlot f).2 = .CallResultBooked ↔ mapFind fb.frameSlotMapping_ f ≠ none) ∧
    (mapFind fb.frameSlotMapping_ f = none →
      ((fb.bookSlot f).2 = .CallResultFull ↔ fb.freeSlots_ = []) ∧
      (fb.freeSlots_ ≠ [] →
        (fb.bookSlot f).2 = .CallResultNew ∧
        ∃ slot, fb.freeSlots_ = (fb.bookSlot f).1.freeSlots_ ++ [slot] ∧
          mapFind (fb.bookSlot f).1.frameSlotMapping_ f = some slot ∧
          ((fb.bookSlot f).1.deref slot).state_ = .StateNew ∧
          (∀ g, g ≠ f → mapFind (fb.bookSlot f).1.frameSlotMapping_ g =
            mapFind fb.frameSlotMapping_ g) ∧
          (fb.bookSlot f).1.pendingEvents_ = fb.pendingEvents_)) := by
  have hcases : ∀ l : List Nat, l = [] ∨ ∃ rest slot, l = rest ++ [slot] := by
    intro l
    rcases List.eq_nil_or_concat l with h | ⟨rest, slot, h⟩
    · exact Or.inl h
    · exact Or.inr ⟨rest, slot, by simpa using h⟩
  cases hm : mapFind fb.frameSlotMapping_ f with
  | some slot =>
    rw [bookSlot_mapped fb f slot hm]
    simp
  | none =>
    rcases hcases fb.freeSlots_ with he | ⟨rest, slot, he⟩
    · rw [bookSlot_full fb f hm he]
      simp [he]
    · rw [bookSlot_new fb f slot rest hm he]
      obtain ⟨hlt, hst⟩ := hfree slot (by simp [he])
      refine ⟨by simp, fun _ => ⟨by simp [he], fun _ => ⟨rfl, slot, ?_, ?_, ?_, ?_, ?_⟩⟩⟩
      · simp [withSlot, he]
      · simp [withSlot, mapFind_mapInsert_self]
      · have hd : (({ fb with freeSlots_ := rest
                              frameSlotMapping_ := mapInsert fb.frameSlotMapping_ f slot } :
            FrameBuffer).withSlot slot (fun s => s.markNew f)).deref slot
            = (fb.deref slot).markNew f := by
          simp [withSlot, deref, List.getD_eq_getElem?_getD, List.getElem?_set, hlt]
        simp only [hd]
        simp [Slot.markNew, hst]
      · intro g hg
        simp [withSlot, mapFind_mapInsert_ne _ _ _ _ hg]
      · simp [withSlot]

/-- C1, at the buffer of one slot: booking frame 1 gives New and empties the free list. -/
theorem bookSlot_contract_witness :
    ((FrameBuffer.new.init 1 4).1.bookSlot 1).2 = .CallResultNew ∧
    ∃ slot, (FrameBuffer.new.init 1 4).1.freeSlots_ =
        ((FrameBuffer.new.init 1 4).1.bookSlot 1).1.freeSlots_ ++ [slot] ∧
      mapFind ((FrameBuffer.new.init 1 4).1.bookSlot 1).1.frameSlotMapping_ 1 = some slot ∧
      (((FrameBuffer.new.init 1 4).1.bookSlot 1).1.deref slot).state_ = .StateNew :=
  have h := ((bookSlot_contract (FrameBuffer.new.init 1 4).1 1 (by decide)).2 (by decide)).2
    (by decide)
  ⟨h.1, h.2.imp fun _ hs => ⟨hs.1, hs.2.1, hs.2.2.1⟩⟩

/-- C4: when `bookSlot f` returned New, or Booked because `f` was mapped already, a
further `bookSlot f` returns Booked and the buffer is the very same state. -/
theorem bookSlot_idempotent (fb : FrameBuffer) (f : Nat)
    (h : (fb.bookSlot f).2 = .CallResultNew ∨ (fb.bookSlot f).2 = .CallResultBooked) :
    (fb.bookSlot f).1.bookSlot f = ((fb.bookSlot f).1, .CallResultBooked) := by
  cases hm : mapFind fb.frameSlotMapping_ f with
  | some slot =>
    rw [bookSlot_mapped fb f slot hm]
    exact bookSlot_mapped fb f slot hm
  | none =>
    rcases List.eq_nil_or_concat fb.freeSlots_ with he | ⟨rest, slot, he⟩
    · rw [bookSlot_full fb f hm he] at h
      simp at h
    · have he2 : fb.freeSlots_ = rest ++ [slot] := by simpa using he
      rw [bookSlot_new fb f slot rest hm he2]
      apply bookSlot_mapped _ f slot
      simp [withSlot, mapFind_mapInsert_self]

/-- C4, scenario 3 of the spec: with two slots, booking frame 7 twice gives New and
then Booked, with one slot left on the free list. -/
theorem bookSlot_idempotent_witness :
    ((FrameBuffer.new.init 2 4).1.bookSlot 7).2 = .CallResultNew ∧
    (((FrameBuffer.new.init 2 4).1.bookSlot 7).1.bookSlot 7).2 = .CallResultBooked ∧
    (((FrameBuffer.new.init 2 4).1.bookSlot 7).1.bookSlot 7).1.freeSlots_.length = 1 :=
  have h := bookSlot_idempotent (FrameBuffer.new.init 2 4).1 7 (Or.inl (by decide))
  ⟨by decide, by rw [h], by rw [h]; decide⟩

/-- C3: `init` returns -1 exactly when one of its arguments is zero, and then the
buffer is untouched: no slot, no event, same sizes, same free list, same map. -/
theorem init_bad_args (fb : FrameBuffer) (bufferSize slotSize : Nat) :
    ((fb.init bufferSize slotSize).2 = -1 ↔ bufferSize = 0 ∨ slotSize = 0) ∧
    ((fb.init bufferSize slotSize).2 = -1 → (fb.init bufferSize slotSize).1 = fb) := by
  unfold init
  split_ifs with h
  · simp [h]
  · simp [h]

/-- C3, at `init(0, 4)` and `init(3, 0)` after a successful `init(2, 4)`. -/
theorem init_bad_args_witness :
    ((FrameBuffer.new.init 2 4).1.init 0 4) = ((FrameBuffer.new.init 2 4).1, -1) ∧
    ((FrameBuffer.new.init 2 4).1.init 3 0) = ((FrameBuffer.new.init 2 4).1, -1) :=
  have h0 := init_bad_args (FrameBuffer.new.init 2 4).1 0 4
  have h1 := init_bad_args (FrameBuffer.new.init 2 4).1 3 0
  ⟨Prod.ext (h0.2 (h0.1.2 (Or.inl rfl))) (h0.1.2 (Or.inl rfl)),
   Prod.ext (h1.2 (h1.1.2 (Or.inr rfl))) (h1.1.2 (Or.inr rfl))⟩

theorem initLoop_eq (k : Nat) : ∀ fb : FrameBuffer,
    initLoop k fb =
      { fb with
        slots := fb.slots ++ List.replicate k (Slot.new fb.slotSize_)
        freeSlots_ := fb.freeSlots_ ++ List.range' fb.slots.length k
        pendingEvents_ := fb.pendingEvents_ ++ (List.range' fb.slots.length k).map
          (fun i => ({ type_ := .EventTypeFreeSlot, segmentNo_ := 0, frameNo_ := 0,
                       slot_ := some i } : Event)) } := by
  induction k with
  | zero => intro fb; simp [initLoop]
  | succ k ih =>
    intro fb
    simp only [initLoop, notifyBufferEventOccurred]
    rw [ih]
    simp [List.replicate_succ, List.range'_succ]

theorem bookAll_fresh (fs : List Nat) : ∀ fb : FrameBuffer, fs.Nodup →
    (∀ f ∈ fs, mapFind fb.frameSlotMapping_ f = none) →
    fs.length ≤ fb.freeSlots_.length →
    (fb.bookAll fs).2 = List.replicate fs.length .CallResultNew ∧
    (fb.bookAll fs).1.freeSlots_.length = fb.freeSlots_.length - fs.length ∧
    ∀ g, g ∉ fs → mapFind (fb.bookAll fs).1.frameSlotMapping_ g =
      mapFind fb.frameSlotMapping_ g := by
  induction fs with
  | nil => intro fb _ _ _; simp [bookAll]
  | cons f fs ih =>
    intro fb hnd hun hlen
    have hf : mapFind fb.frameSlotMapping_ f = none := hun f (by simp)
    have hne : fb.freeSlots_ ≠ [] := by
      intro h
      simp [h] at hlen
    rcases List.eq_nil_or_concat fb.freeSlots_ with he | ⟨rest, slot, he⟩
    · exact absurd he hne
    · have he2 : fb.freeSlots_ = rest ++ [slot] := by simpa using he
      have hb := bookSlot_new fb f slot rest hf he2
      have hnd2 : fs.Nodup := (List.nodup_cons.mp hnd).2
      have hfnot : f ∉ fs := (List.nodup_cons.mp hnd).1
      have hlen2 : rest.length + 1 = fb.freeSlots_.length := by simp [he2]
      have hstep := ih (fb.bookSlot f).1 hnd2
        (by
          intro g hg
          have hgf : g ≠ f := fun h => hfnot (h ▸ hg)
          rw [hb]
          simp only [withSlot]
          rw [mapFind_mapInsert_ne _ _ _ _ hgf]
          exact hun g (by simp [hg]))
        (by
          rw [hb]
          simp only [withSlot]
          simp only [List.length_cons] at hlen
          omega)
      obtain ⟨h1, h2, h3⟩ := hstep
      refine ⟨?_, ?_, ?_⟩
      · simp only [bookAll, h1, List.length_cons, List.replicate_succ]
        rw [hb]
      · simp only [bookAll, h2, List.length_cons]
        rw [hb]
        simp only [withSlot]
        omega
      · intro g hg
        have hgf : g ≠ f := fun h => hg (by simp [h])
        have hgfs : g ∉ fs := fun h => hg (by simp [h])
        simp only [bookAll]
        rw [h3 g hgfs, hb]
        simp only [withSlot]
        exact mapFind_mapInsert_ne _ _ _ _ hgf

/-- C2: on a freshly constructed buffer `init n s` with `n, s > 0` returns 0 and
queues exactly `n` FreeSlot events, with frame and segment number 0, slot 0
first; afterwards booking any `n` pairwise distinct frames returns New each
time, and booking one more distinct frame returns Full. -/
theorem init_then_book (n s : Nat) (hn : 0 < n) (hs : 0 < s) :
    (FrameBuffer.new.init n s).2 = 0 ∧
    (FrameBuffer.new.init n s).1.pendingEvents_ = (List.range n).map
      (fun i => ({ type_ := .EventTypeFreeSlot, segmentNo_ := 0, frameNo_ := 0,
                   slot_ := some i } : Event)) ∧
    ∀ (fs : List Nat) (g : Nat), fs.Nodup → fs.length = n → g ∉ fs →
      ((FrameBuffer.new.init n s).1.bookAll fs).2 = List.replicate n .CallResultNew ∧
      (((FrameBuffer.new.init n s).1.bookAll fs).1.bookSlot g).2 = .CallResultFull := by
  have hinit : FrameBuffer.new.init n s =
      (initLoop n { FrameBuffer.new with bufferSize_ := n, slotSize_ := s }, 0) := by
    unfold init
    rw [if_neg (by omega)]
  rw [hinit, initLoop_eq]
  refine ⟨rfl, ?_, ?_⟩
  · simp [FrameBuffer.new, List.range_eq_range']
  · intro fs g hnd hlen hg
    have h := bookAll_fresh fs
      ({ ({ FrameBuffer.new with bufferSize_ := n, slotSize_ := s } : FrameBuffer) with
        slots := ({ FrameBuffer.new with bufferSize_ := n, slotSize_ := s } :
          FrameBuffer).slots ++ List.replicate n (Slot.new s)
        freeSlots_ := List.range' 0 n
        pendingEvents_ := (List.range' 0 n).map
          (fun i => ({ type_ := .EventTypeFreeSlot, segmentNo_ := 0, frameNo_ := 0,
                       slot_ := some i } : Event)) }) hnd
      (by intro f _; simp [FrameBuffer.new, mapFind])
      (by simp [hlen])
    simp only [FrameBuffer.new, List.nil_append, List.length_nil] at h ⊢
    obtain ⟨h1, h2, h3⟩ := h
    refine ⟨by rw [h1, hlen], ?_⟩
    apply congrArg Prod.snd (bookSlot_full _ g ?_ ?_)
    · rw [h3 g hg]
      simp [mapFind]
    · apply List.eq_nil_of_length_eq_zero
      rw [h2]
      simp [hlen]

/-- C2, at `init(2, 4)`: two FreeSlot events, frames 5 and 9 are booked New, frame 1 finds
the buffer Full. -/
theorem init_then_book_witness :
    (FrameBuffer.new.init 2 4).1.pendingEvents_.length = 2 ∧
    ((FrameBuffer.new.init 2 4).1.bookAll [5, 9]).2 = [.CallResultNew, .CallResultNew] ∧
    (((FrameBuffer.new.init 2 4).1.bookAll [5, 9]).1.bookSlot 1).2 = .CallResultFull :=
  have h := init_then_book 2 4 (by decide) (by decide)
  ⟨by rw [h.2.1]; rfl, (h.2.2 [5, 9] 1 (by decide) rfl (by decide)).1,
   (h.2.2 [5, 9] 1 (by decide) rfl (by decide)).2⟩

end FrameBuffer

/-! ## The pool partition -/

theorem mapInsert_keys_mem (m : List (Nat × Nat)) (key v x : Nat)
    (hx : x ∈ (mapInsert m key v).map Prod.fst) : x = key ∨ x ∈ m.map Prod.fst := by
  induction m with
  | nil => simpa [mapInsert] using hx
  | cons p m ih =>
    obtain ⟨k, w⟩ := p
    unfold mapInsert at hx
    split_ifs at hx with h1 h2
    · simp only [List.map_cons, List.mem_cons] at hx ⊢
      tauto
    · simp only [List.map_cons, List.mem_cons] at hx ⊢
      tauto
    · simp only [List.map_cons, List.mem_cons] at hx ⊢
      rcases hx with hx | hx
      · tauto
      · rcases ih hx with h | h
        · exact Or.inl h
        · exact Or.inr (Or.inr h)

theorem mapInsert_sorted (m : List (Nat × Nat)) (key v : Nat)
    (hs : (m.map Prod.fst).Pairwise (fun a b => a < b)) :
    ((mapInsert m key v).map Prod.fst).Pairwise (fun a b => a < b) := by
  induction m with
  | nil => simp [mapInsert]
  | cons p m ih =>
    obtain ⟨k, w⟩ := p
    simp only [List.map_cons, List.pairwise_cons] at hs
    unfold mapInsert
    split_ifs with h1 h2
    · simp only [List.map_cons, List.pairwise_cons, List.mem_cons]
      refine ⟨?_, hs.1, hs.2⟩
      intro x hx
      rcases hx with hx | hx
      · omega
      · exact lt_trans h1 (hs.1 x hx)
    · subst h2
      simp only [List.map_cons, List.pairwise_cons]
      exact ⟨hs.1, hs.2⟩
    · simp only [List.map_cons, List.pairwise_cons]
      refine ⟨?_, ih hs.2⟩
      intro x hx
      rcases mapInsert_keys_mem m key v x hx with h | h
      · omega
      · exact hs.1 x h

theorem mapFind_none_iff (m : List (Nat × Nat)) (key : Nat) :
    mapFind m key = none ↔ key ∉ m.map Prod.fst := by
  induction m with
  | nil => simp [mapFind]
  | cons p m ih =>
    obtain ⟨k, w⟩ := p
    by_cases h : k = key
    · simp [mapFind, h]
    · simp [mapFind, h, ih, Ne.symm h]

theorem mapInsert_values_perm (m : List (Nat × Nat)) (key v : Nat)
    (h : mapFind m key = none) :
    ((mapInsert m key v).map Prod.snd).Perm (v :: m.map Prod.snd) := by
  induction m with
  | nil => simp [mapInsert]
  | cons p m ih =>
    obtain ⟨k, w⟩ := p
    have hk : k ≠ key := by
      intro hk
      simp [mapFind, hk] at h
    have hm : mapFind m key = none := by simpa [mapFind, hk] using h
    unfold mapInsert
    split_ifs with h1 h2
    · simp
    · exact absurd h2.symm hk
    · simp only [List.map_cons]
      exact ((ih hm).cons w).trans (List.Perm.swap v w _)

theorem mapErase_absent (m : List (Nat × Nat)) (key : Nat)
    (h : key ∉ m.map Prod.fst) : mapErase m key = m := by
  induction m with
  | nil => simp [mapErase]
  | cons p m ih =>
    obtain ⟨k, w⟩ := p
    simp only [List.map_cons, List.mem_cons, not_or] at h
    simp [mapErase, Ne.symm h.1, ih h.2]

theorem mapErase_values_perm (m : List (Nat × Nat)) (key v : Nat)
    (hs : (m.map Prod.fst).Pairwise (fun a b => a < b)) (h : mapFind m key = some v) :
    (m.map Prod.snd).Perm (v :: (mapErase m key).map Prod.snd) := by
  induction m with
  | nil => simp [mapFind] at h
  | cons p m ih =>
    obtain ⟨k, w⟩ := p
    simp only [List.map_cons, List.pairwise_cons] at hs
    by_cases hk : k = key
    · have hw : w = v := by simpa [mapFind, hk] using h
      have habs : key ∉ m.map Prod.fst := by
        intro hmem
        have := hs.1 key hmem
        omega
      simp [mapErase, hk, mapErase_absent m key habs, hw]
    · have hm : mapFind m key = some v := by simpa [mapFind, hk] using h
      simp only [mapErase, hk, if_false, List.map_cons]
      exact ((ih hs.2 hm).cons w).trans (List.Perm.swap v w _)

theorem mapErase_sorted (m : List (Nat × Nat)) (key : Nat)
    (hs : (m.map Prod.fst).Pairwise (fun a b => a < b)) :
    ((mapErase m key).map Prod.fst).Pairwise (fun a b => a < b) := by
  have hsub : ∀ m : List (Nat × Nat), (mapErase m key).Sublist m := by
    intro m
    induction m with
    | nil => simp [mapErase]
    | cons p m ih =>
      obtain ⟨k, w⟩ := p
      unfold mapErase
      split_ifs
      · exact ih.trans (List.sublist_cons_self _ _)
      · exact ih.cons₂ _
  exact hs.sublist ((hsub m).map Prod.fst)

theorem mapFind_of_mem (m : List (Nat × Nat)) (e : Nat × Nat)
    (hs : (m.map Prod.fst).Pairwise (fun a b => a < b)) (he : e ∈ m) :
    mapFind m e.1 = some e.2 := by
  induction m with
  | nil => simp at he
  | cons p m ih =>
    obtain ⟨k, w⟩ := p
    simp only [List.map_cons, List.pairwise_cons] at hs
    rcases List.mem_cons.mp he with h | h
    · simp [mapFind, h]
    · have hlt : k < e.1 := hs.1 e.1 (List.mem_map_of_mem Prod.fst h)
      have hk : k ≠ e.1 := by omega
      simp [mapFind, hk, ih hs.2 h]

theorem mem_mapErase_of_ne (m : List (Nat × Nat)) (key : Nat) (e : Nat × Nat)
    (he : e ∈ m) (hne : e.1 ≠ key) : e ∈ mapErase m key := by
  induction m with
  | nil => simp at he
  | cons p m ih =>
    obtain ⟨k, w⟩ := p
    unfold mapErase
    rcases List.mem_cons.mp he with h | h
    · subst h
      simp [hne]
    · split_ifs
      · exact ih h
      · exact List.mem_cons_of_mem _ (ih h)

/-! ## Closed forms of the calls -/

theorem Slot.appendSegment_assembling (s : Slot) (k len : Nat) (data : List Nat)
    (h : s.state_ = .StateAssembling) :
    s.appendSegment k len data =
      ({ s with
          data_ := Slot.memcpy s.data_ (k * s.segmentSize_) data len
          assembledDataSize_ := s.assembledDataSize_ + len
          storedSegments_ := s.storedSegments_ + 1
          state_ := if s.storedSegments_ + 1 = s.segmentsNum_ then .StateReady
            else .StateAssembling },
        if s.storedSegments_ + 1 = s.segmentsNum_ then .StateReady else .StateAssembling) := by
  unfold Slot.appendSegment
  simp only [h, not_true_eq_false, if_false]
  split_ifs <;> rfl

namespace FrameBuffer

theorem deref_state_valid (fb : FrameBuffer) (slot : Nat)
    (h : (fb.deref slot).state_ ≠ .StateFree) : slot < fb.slots.length := by
  by_contra hlt
  apply h
  have : fb.slots[slot]? = none := List.getElem?_eq_none (by omega)
  simp [deref, List.getD_eq_getElem?_getD, this, Slot.new]

theorem markSlotAssembling_mapped (fb : FrameBuffer) (f slot n sz : Nat)
    (h : mapFind fb.frameSlotMapping_ f = some slot) :
    fb.markSlotAssembling f n sz = fb.withSlot slot (fun s => s.markAssembling n sz) := by
  simp [markSlotAssembling, getFrameSlot_some fb f slot h]

theorem markSlotAssembling_unmapped (fb : FrameBuffer) (f n sz : Nat)
    (h : mapFind fb.frameSlotMapping_ f = none) : fb.markSlotAssembling f n sz = fb := by
  simp [markSlotAssembling, getFrameSlot_none fb f h]

theorem lockSlot_mapped (fb : FrameBuffer) (f slot : Nat)
    (h : mapFind fb.frameSlotMapping_ f = some slot) :
    fb.lockSlot f = fb.withSlot slot Slot.markLocked := by
  simp [lockSlot, getFrameSlot_some fb f slot h]

theorem lockSlot_unmapped (fb : FrameBuffer) (f : Nat)
    (h : mapFind fb.frameSlotMapping_ f = none) : fb.lockSlot f = fb := by
  simp [lockSlot, getFrameSlot_none fb f h]

theorem unlockSlot_mapped (fb : FrameBuffer) (f slot : Nat)
    (h : mapFind fb.frameSlotMapping_ f = some slot) :
    fb.unlockSlot f = fb.withSlot slot Slot.markUnlocked := by
  simp [unlockSlot, getFrameSlot_some fb f slot h]

theorem unlockSlot_unmapped (fb : FrameBuffer) (f : Nat)
    (h : mapFind fb.frameSlotMapping_ f = none) : fb.unlockSlot f = fb := by
  simp [unlockSlot, getFrameSlot_none fb f h]

theorem notifySegmentTimeout_mapped (fb : FrameBuffer) (f k slot : Nat)
    (h : mapFind fb.frameSlotMapping_ f = some slot) :
    fb.notifySegmentTimeout f k =
      fb.notifyBufferEventOccurred f k .EventTypeTimeout (some slot) := by
  simp [notifySegmentTimeout, getFrameSlot_some fb f slot h]

theorem notifySegmentTimeout_unmapped (fb : FrameBuffer) (f k : Nat)
    (h : mapFind fb.frameSlotMapping_ f = none) : fb.notifySegmentTimeout f k = fb := by
  simp [notifySegmentTimeout, getFrameSlot_none fb f h]

theorem markSlotFree_unmapped (fb : FrameBuffer) (f : Nat)
    (h : mapFind fb.frameSlotMapping_ f = none) : fb.markSlotFree f = fb := by
  simp [markSlotFree, getFrameSlot_none fb f h]

theorem markSlotFree_locked (fb : FrameBuffer) (f slot : Nat)
    (h : mapFind fb.frameSlotMapping_ f = some slot)
    (hl : (fb.deref slot).state_ = .StateLocked) : fb.markSlotFree f = fb := by
  simp [markSlotFree, getFrameSlot_some fb f slot h, Slot.getState, hl]

theorem markSlotFree_mapped (fb : FrameBuffer) (f slot : Nat)
    (h : mapFind fb.frameSlotMapping_ f = some slot)
    (hl : (fb.deref slot).state_ ≠ .StateLocked) :
    fb.markSlotFree f =
      { fb with
        slots := fb.slots.set slot (fb.deref slot).markFree
        freeSlots_ := fb.freeSlots_ ++ [slot]
        frameSlotMapping_ := mapErase fb.frameSlotMapping_ f
        pendingEvents_ := fb.pendingEvents_ ++
          [{ type_ := .EventTypeFreeSlot, segmentNo_ := 0, frameNo_ := f,
             slot_ := some slot }] } := by
  simp [markSlotFree, getFrameSlot_some fb f slot h, Slot.getState, hl, withSlot,
    notifyBufferEventOccurred]

theorem flushVisit_locked (fb : FrameBuffer) (e : Nat × Nat)
    (hl : (fb.deref e.2).state_ = .StateLocked) : fb.flushVisit e = fb := by
  simp [flushVisit, Slot.getState, hl]

theorem flushVisit_unlocked (fb : FrameBuffer) (e : Nat × Nat)
    (hl : (fb.deref e.2).state_ ≠ .StateLocked) :
    fb.flushVisit e =
      { fb with
        slots := fb.slots.set e.2 (fb.deref e.2).markFree
        freeSlots_ := fb.freeSlots_ ++ [e.2]
        frameSlotMapping_ := mapErase fb.frameSlotMapping_ e.1
        pendingEvents_ := fb.pendingEvents_ ++
          [{ type_ := .EventTypeFreeSlot, segmentNo_ := 0, frameNo_ := 0,
             slot_ := some e.2 }] } := by
  simp only [flushVisit, Slot.getState, ne_eq, hl, not_false_eq_true, if_true, withSlot,
    notifyBufferEventOccurred]
  rfl

theorem appendSegment_unmapped (fb : FrameBuffer) (f k len : Nat) (data : List Nat)
    (h : mapFind fb.frameSlotMapping_ f = none) :
    fb.appendSegment f k len data = (fb, .CallResultNotFound) := by
  simp [appendSegment, getFrameSlot_none fb f h]

theorem appendSegment_refused (fb : FrameBuffer) (f slot k len : Nat) (data : List Nat)
    (h : mapFind fb.frameSlotMapping_ f = some slot)
    (hst : (fb.deref slot).state_ ≠ .StateAssembling) :
    fb.appendSegment f k len data = (fb, .CallResultOk) := by
  simp [appendSegment, getFrameSlot_some fb f slot h, Slot.getState, hst]

theorem appendSegment_stored (fb : FrameBuffer) (f slot k len : Nat) (data : List Nat)
    (h : mapFind fb.frameSlotMapping_ f = some slot)
    (hst : (fb.deref slot).state_ = .StateAssembling) :
    fb.appendSegment f k len data =
      ({ fb with
          slots := fb.slots.set slot ((fb.deref slot).appendSegment k len data).1
          pendingEvents_ := fb.pendingEvents_ ++
            (if (fb.deref slot).storedSegments_ + 1 = (fb.deref slot).segmentsNum_ then
              [{ type_ := .EventTypeReady, segmentNo_ := k, frameNo_ := f, slot_ := some slot }]
            else if (fb.deref slot).storedSegments_ + 1 = 1 then
              [{ type_ := .EventTypeFirstSegment, segmentNo_ := k, frameNo_ := f,
                 slot_ := some slot }]
            else []) },
        .CallResultAssembling) := by
  have hv : slot < fb.slots.length := deref_state_valid fb slot (by rw [hst]; decide)
  have hd : (fb.withSlot slot
      (fun _ => ((fb.deref slot).appendSegment k len data).1)).deref slot =
      ((fb.deref slot).appendSegment k len data).1 := deref_withSlot_self fb slot _ hv
  simp only [appendSegment, getFrameSlot_some fb f slot h, Slot.getState, hst, if_true, hd]
  rw [Slot.appendSegment_assembling _ _ _ _ hst]
  by_cases h1 : (fb.deref slot).storedSegments_ + 1 = (fb.deref slot).segmentsNum_
  · simp [h1, withSlot, notifyBufferEventOccurred]
  · simp only [h1, if_false]
    by_cases h2 : (fb.deref slot).storedSegments_ + 1 = 1
    · simp [h2, withSlot, notifyBufferEventOccurred, Slot.assembledSegmentsNumber]
    · simp [h2, withSlot, notifyBufferEventOccurred, Slot.assembledSegmentsNumber]

theorem getState_fst (fb : FrameBuffer) (f : Nat) : (fb.getState f).1 = fb := by
  simp only [getState, getFrameSlot]
  cases mapFind fb.frameSlotMapping_ f <;> simp

theorem getEncodedImage_fst (unpackFrame : Nat → List Nat → Option (List Nat))
    (fb : FrameBuffer) (f : Nat) : (fb.getEncodedImage unpackFrame f).1 = fb := by
  simp only [getEncodedImage, getFrameSlot]
  cases mapFind fb.frameSlotMapping_ f with
  | none => simp
  | some slot =>
    simp only [Bool.false_eq_true, if_false]
    split_ifs <;> rfl

end FrameBuffer

/-! ## The pool partition is an invariant -/

namespace FrameBuffer

theorem poolInv_of_eq (fb fb1 : FrameBuffer) (h : PoolInv fb)
    (hlen : fb1.slots.length = fb.slots.length) (hfree : fb1.freeSlots_ = fb.freeSlots_)
    (hmap : fb1.frameSlotMapping_ = fb.frameSlotMapping_) : PoolInv fb1 := by
  unfold PoolInv
  rw [hlen, hfree, hmap]
  exact h

theorem poolInv_withSlot (fb : FrameBuffer) (slot : Nat) (g : Slot → Slot)
    (h : PoolInv fb) : PoolInv (fb.withSlot slot g) :=
  poolInv_of_eq fb _ h (by simp [withSlot]) rfl rfl

theorem poolInv_notify (fb : FrameBuffer) (f k : Nat) (t : EventType) (slot : Option Nat)
    (h : PoolInv fb) : PoolInv (fb.notifyBufferEventOccurred f k t slot) :=
  poolInv_of_eq fb _ h rfl rfl rfl

theorem poolInv_initLoop (k : Nat) : ∀ fb : FrameBuffer, PoolInv fb →
    PoolInv (initLoop k fb) := by
  induction k with
  | zero => intro fb h; simpa [initLoop] using h
  | succ k ih =>
    intro fb h
    simp only [initLoop]
    apply ih
    apply poolInv_notify
    obtain ⟨hp, hk⟩ := h
    refine ⟨?_, hk⟩
    simp only [List.length_append, List.length_singleton, List.range_succ]
    have h1 : (fb.freeSlots_ ++ [fb.slots.length] ++ fb.frameSlotMapping_.map Prod.snd).Perm
        (fb.freeSlots_ ++ fb.frameSlotMapping_.map Prod.snd ++ [fb.slots.length]) := by
      rw [List.append_assoc, List.append_assoc]
      exact List.Perm.append_left _ List.perm_append_comm
    exact h1.trans (hp.append_right _)

theorem poolInv_bookSlot (fb : FrameBuffer) (f : Nat) (h : PoolInv fb) :
    PoolInv (fb.bookSlot f).1 := by
  cases hm : mapFind fb.frameSlotMapping_ f with
  | some slot => rw [bookSlot_mapped fb f slot hm]; exact h
  | none =>
    rcases List.eq_nil_or_concat fb.freeSlots_ with he | ⟨rest, slot, he⟩
    · rw [bookSlot_full fb f hm he]; exact h
    · have he2 : fb.freeSlots_ = rest ++ [slot] := by simpa using he
      rw [bookSlot_new fb f slot rest hm he2]
      apply poolInv_withSlot
      obtain ⟨hp, hk⟩ := h
      refine ⟨?_, mapInsert_sorted _ _ _ hk⟩
      rw [he2] at hp
      have h1 : (rest ++ (mapInsert fb.frameSlotMapping_ f slot).map Prod.snd).Perm
          (rest ++ [slot] ++ fb.frameSlotMapping_.map Prod.snd) := by
        rw [List.append_assoc]
        exact List.Perm.append_left _ (mapInsert_values_perm _ _ _ hm)
      exact h1.trans hp

/-- Returning the slot of a mapped frame to the free list keeps the partition. -/
theorem poolInv_freeEntry (fb fb1 : FrameBuffer) (key slot : Nat) (h : PoolInv fb)
    (hm : mapFind fb.frameSlotMapping_ key = some slot)
    (hlen : fb1.slots.length = fb.slots.length)
    (hfree : fb1.freeSlots_ = fb.freeSlots_ ++ [slot])
    (hmap : fb1.frameSlotMapping_ = mapErase fb.frameSlotMapping_ key) : PoolInv fb1 := by
  obtain ⟨hp, hk⟩ := h
  refine ⟨?_, ?_⟩
  · rw [hlen, hfree, hmap]
    have h1 : (fb.freeSlots_ ++ [slot] ++ (mapErase fb.frameSlotMapping_ key).map Prod.snd).Perm
        (fb.freeSlots_ ++ fb.frameSlotMapping_.map Prod.snd) := by
      rw [List.append_assoc]
      exact List.Perm.append_left _ (mapErase_values_perm _ _ _ hk hm).symm
    exact h1.trans hp
  · rw [hmap]
    exact mapErase_sorted _ _ hk

theorem poolInv_markSlotFree (fb : FrameBuffer) (f : Nat) (h : PoolInv fb) :
    PoolInv (fb.markSlotFree f) := by
  cases hm : mapFind fb.frameSlotMapping_ f with
  | none => rw [markSlotFree_unmapped fb f hm]; exact h
  | some slot =>
    by_cases hl : (fb.deref slot).state_ = .StateLocked
    · rw [markSlotFree_locked fb f slot hm hl]; exact h
    · rw [markSlotFree_mapped fb f slot hm hl]
      exact poolInv_freeEntry fb _ f slot h hm (by simp) rfl rfl

theorem poolInv_flushVisit (fb : FrameBuffer) (e : Nat × Nat) (h : PoolInv fb)
    (he : e ∈ fb.frameSlotMapping_) : PoolInv (fb.flushVisit e) := by
  by_cases hl : (fb.deref e.2).state_ = .StateLocked
  · rw [flushVisit_locked fb e hl]; exact h
  · rw [flushVisit_unlocked fb e hl]
    exact poolInv_freeEntry fb _ e.1 e.2 h (mapFind_of_mem _ e h.2 he) (by simp) rfl rfl

theorem waitLoop_pool (signals mask : Nat) (fb : FrameBuffer) :
    (waitLoop mask fb signals).1.slots = fb.slots ∧
    (waitLoop mask fb signals).1.freeSlots_ = fb.freeSlots_ ∧
    (waitLoop mask fb signals).1.frameSlotMapping_ = fb.frameSlotMapping_ := by
  induction signals with
  | zero =>
    unfold waitLoop
    cases scanEvents mask fb.pendingEvents_ <;> simp
  | succ k ih =>
    unfold waitLoop
    cases scanEvents mask fb.pendingEvents_ with
    | none => simpa using ih
    | some i => simp

theorem poolInv_appendSegment (fb : FrameBuffer) (f k len : Nat) (data : List Nat)
    (h : PoolInv fb) : PoolInv (fb.appendSegment f k len data).1 := by
  cases hm : mapFind fb.frameSlotMapping_ f with
  | none => rw [appendSegment_unmapped fb f k len data hm]; exact h
  | some slot =>
    by_cases hst : (fb.deref slot).state_ = .StateAssembling
    · rw [appendSegment_stored fb f slot k len data hm hst]
      exact poolInv_of_eq fb _ h (by simp) rfl rfl
    · rw [appendSegment_refused fb f slot k len data hm hst]; exact h

theorem poolInv_step (unpackFrame : Nat → List Nat → Option (List Nat)) (fb : FrameBuffer)
    (op : Op) (h : PoolInv fb) : PoolInv (fb.step unpackFrame op) := by
  cases op with
  | bookSlot f => exact poolInv_bookSlot fb f h
  | markSlotAssembling f n sz =>
    simp only [step]
    cases hm : mapFind fb.frameSlotMapping_ f with
    | none => rw [markSlotAssembling_unmapped fb f n sz hm]; exact h
    | some slot =>
      rw [markSlotAssembling_mapped fb f slot n sz hm]; exact poolInv_withSlot _ _ _ h
  | appendSegment f k len data => exact poolInv_appendSegment fb f k len data h
  | notifySegmentTimeout f k =>
    simp only [step]
    cases hm : mapFind fb.frameSlotMapping_ f with
    | none => rw [notifySegmentTimeout_unmapped fb f k hm]; exact h
    | some slot =>
      rw [notifySegmentTimeout_mapped fb f k slot hm]; exact poolInv_notify _ _ _ _ _ h
  | lockSlot f =>
    simp only [step]
    cases hm : mapFind fb.frameSlotMapping_ f with
    | none => rw [lockSlot_unmapped fb f hm]; exact h
    | some slot => rw [lockSlot_mapped fb f slot hm]; exact poolInv_withSlot _ _ _ h
  | unlockSlot f =>
    simp only [step]
    cases hm : mapFind fb.frameSlotMapping_ f with
    | none => rw [unlockSlot_unmapped fb f hm]; exact h
    | some slot => rw [unlockSlot_mapped fb f slot hm]; exact poolInv_withSlot _ _ _ h
  | markSlotFree f => exact poolInv_markSlotFree fb f h
  | getState f => simp only [step, getState_fst]; exact h
  | getEncodedImage f => simp only [step, getEncodedImage_fst]; exact h
  | waitForEvents mask signals =>
    obtain ⟨h1, h2, h3⟩ := waitLoop_pool signals mask { fb with forcedRelease_ := false }
    exact poolInv_of_eq fb _ h (by simp only [step, waitForEvents]; rw [h1])
      (by simp only [step, waitForEvents]; rw [h2]) (by simp only [step, waitForEvents]; rw [h3])
  | release => exact poolInv_of_eq fb _ h rfl rfl rfl

theorem poolInv_run (unpackFrame : Nat → List Nat → Option (List Nat)) (ops : List Op) :
    ∀ fb : FrameBuffer, PoolInv fb → PoolInv (fb.run unpackFrame ops) := by
  induction ops with
  | nil => intro fb h; exact h
  | cons op ops ih =>
    intro fb h
    exact ih _ (poolInv_step unpackFrame fb op h)

theorem poolInv_init (n s : Nat) : PoolInv (FrameBuffer.new.init n s).1 := by
  have h0 : PoolInv FrameBuffer.new := by simp [PoolInv, FrameBuffer.new]
  unfold init
  split_ifs
  · exact h0
  · exact poolInv_initLoop _ _ (poolInv_of_eq _ _ h0 rfl rfl rfl)

theorem step_length (unpackFrame : Nat → List Nat → Option (List Nat)) (fb : FrameBuffer)
    (op : Op) : (fb.step unpackFrame op).slots.length = fb.slots.length := by
  cases op with
  | bookSlot f =>
    simp only [step]
    cases hm : mapFind fb.frameSlotMapping_ f with
    | some slot => rw [bookSlot_mapped fb f slot hm]
    | none =>
      rcases List.eq_nil_or_concat fb.freeSlots_ with he | ⟨rest, slot, he⟩
      · rw [bookSlot_full fb f hm he]
      · rw [bookSlot_new fb f slot rest hm (by simpa using he)]
        simp [withSlot]
  | markSlotAssembling f n sz =>
    simp only [step]
    cases hm : mapFind fb.frameSlotMapping_ f with
    | none => rw [markSlotAssembling_unmapped fb f n sz hm]
    | some slot => rw [markSlotAssembling_mapped fb f slot n sz hm]; simp [withSlot]
  | appendSegment f k len data =>
    simp only [step]
    cases hm : mapFind fb.frameSlotMapping_ f with
    | none => rw [appendSegment_unmapped fb f k len data hm]
    | some slot =>
      by_cases hst : (fb.deref slot).state_ = .StateAssembling
      · rw [appendSegment_stored fb f slot k len data hm hst]; simp
      · rw [appendSegment_refused fb f slot k len data hm hst]
  | notifySegmentTimeout f k =>
    simp only [step]
    cases hm : mapFind fb.frameSlotMapping_ f with
    | none => rw [notifySegmentTimeout_unmapped fb f k hm]
    | some slot => rw [notifySegmentTimeout_mapped fb f k slot hm]; rfl
  | lockSlot f =>
    simp only [step]
    cases hm : mapFind fb.frameSlotMapping_ f with
    | none => rw [lockSlot_unmapped fb f hm]
    | some slot => rw [lockSlot_mapped fb f slot hm]; simp [withSlot]
  | unlockSlot f =>
    simp only [step]
    cases hm : mapFind fb.frameSlotMapping_ f with
    | none => rw [unlockSlot_unmapped fb f hm]
    | some slot => rw [unlockSlot_mapped fb f slot hm]; simp [withSlot]
  | markSlotFree f =>
    simp only [step]
    cases hm : mapFind fb.frameSlotMapping_ f with
    | none => rw [markSlotFree_unmapped fb f hm]
    | some slot =>
      by_cases hl : (fb.deref slot).state_ = .StateLocked
      · rw [markSlotFree_locked fb f slot hm hl]
      · rw [markSlotFree_mapped fb f slot hm hl]; simp
  | getState f => simp only [step, getState_fst]
  | getEncodedImage f => simp only [step, getEncodedImage_fst]
  | waitForEvents mask signals =>
    simp only [step, waitForEvents]
    rw [(waitLoop_pool signals mask { fb with forcedRelease_ := false }).1]
  | release => rfl

theorem run_length (unpackFrame : Nat → List Nat → Option (List Nat)) (ops : List Op) :
    ∀ fb : FrameBuffer, (fb.run unpackFrame ops).slots.length = fb.slots.length := by
  induction ops with
  | nil => intro fb; rfl
  | cons op ops ih =>
    intro fb
    exact (ih _).trans (step_length unpackFrame fb op)

theorem init_length (n s : Nat) (hn : 0 < n) (hs : 0 < s) :
    (FrameBuffer.new.init n s).1.slots.length = n := by
  unfold init
  rw [if_neg (by omega)]
  simp only []
  rw [initLoop_eq]
  simp [FrameBuffer.new]

/-- What the pool partition says of a buffer with `n` slots: no slot occurs twice on
the free list, no slot is mapped by two frames, the keys of the map are
distinct, each of the `n` slots is on the free list or mapped and never both,
nothing else is, and the two sizes add up to `n`. -/
theorem partition_of_poolInv (fb : FrameBuffer) (n : Nat) (hinv : PoolInv fb)
    (hlen : fb.slots.length = n) :
    fb.freeSlots_.Nodup ∧
    (fb.frameSlotMapping_.map Prod.snd).Nodup ∧
    (fb.frameSlotMapping_.map Prod.fst).Nodup ∧
    (∀ slot, slot < n →
      (slot ∈ fb.freeSlots_ ∧ slot ∉ fb.frameSlotMapping_.map Prod.snd) ∨
      (slot ∉ fb.freeSlots_ ∧ slot ∈ fb.frameSlotMapping_.map Prod.snd)) ∧
    (∀ slot, slot ∈ fb.freeSlots_ ∨ slot ∈ fb.frameSlotMapping_.map Prod.snd → slot < n) ∧
    fb.freeSlots_.length + fb.frameSlotMapping_.length = n := by
  obtain ⟨hp, hk⟩ := hinv
  rw [hlen] at hp
  have hnd : (fb.freeSlots_ ++ fb.frameSlotMapping_.map Prod.snd).Nodup :=
    hp.nodup_iff.mpr (List.nodup_range n)
  have hmem : ∀ slot, slot ∈ (fb.freeSlots_ ++ fb.frameSlotMapping_.map Prod.snd) ↔
      slot < n := by
    intro slot
    rw [hp.mem_iff, List.mem_range]
  have hdis := List.disjoint_of_nodup_append hnd
  refine ⟨(List.nodup_append.mp hnd).1, (List.nodup_append.mp hnd).2.1, ?_, ?_, ?_, ?_⟩
  · exact (hk.imp (fun h => Nat.ne_of_lt h))
  · intro slot hslot
    rcases List.mem_append.mp ((hmem slot).mpr hslot) with h | h
    · exact Or.inl ⟨h, fun h2 => hdis h h2⟩
    · exact Or.inr ⟨fun h2 => hdis h2 h, h⟩
  · intro slot hslot
    exact (hmem slot).mp (List.mem_append.mpr hslot)
  · have := hp.length_eq
    simpa using this

end FrameBuffer

/-! ## Sequences of calls with `flush` -/

namespace FrameBuffer

/-- The loop of `flush` runs to the end of the map without touching its iterator
exactly when every mapped slot is Locked, and then nothing has changed. -/
theorem flushUntilErase_true_iff (fb : FrameBuffer) (es : List (Nat × Nat)) :
    ((fb.flushUntilErase es).2 = true ↔ ∀ e ∈ es, (fb.deref e.2).state_ = .StateLocked) ∧
    ((fb.flushUntilErase es).2 = true → (fb.flushUntilErase es).1 = fb) := by
  induction es with
  | nil => simp [flushUntilErase]
  | cons e es ih =>
    unfold flushUntilErase
    by_cases hl : (fb.deref e.2).state_ = .StateLocked
    · simp only [Slot.getState, hl, ne_eq, not_true_eq_false, if_false, List.mem_cons,
        forall_eq_or_imp, true_and]
      exact ih
    · simp [Slot.getState, hl]

/-- The call `flush` has a result exactly when every mapped slot is Locked; the result
is then the buffer as it was, and the value 0. -/
theorem flush_eq_some_iff (fb : FrameBuffer) (r : FrameBuffer × Int) :
    fb.flush = some r ↔
      (∀ e ∈ fb.frameSlotMapping_, (fb.deref e.2).state_ = .StateLocked) ∧ r = (fb, 0) := by
  have h := flushUntilErase_true_iff fb fb.frameSlotMapping_
  unfold flush
  rcases hr : fb.flushUntilErase fb.frameSlotMapping_ with ⟨fb1, b⟩
  rw [hr] at h
  cases b
  · simp only [Bool.false_eq_true, false_iff, false_implies, and_true] at h
    constructor
    · intro hr2
      simp at hr2
    · intro hr2
      exact absurd hr2.1 h
  · simp only [true_iff, forall_true_left] at h
    simp only [Option.some.injEq]
    constructor
    · intro hr2
      refine ⟨h.1, ?_⟩
      rw [← hr2, h.2]
    · intro hr2
      rw [hr2.2, h.2]

theorem flush_eq_none_iff (fb : FrameBuffer) :
    fb.flush = none ↔ (fb.flushUntilErase fb.frameSlotMapping_).2 = false := by
  unfold flush
  rcases fb.flushUntilErase fb.frameSlotMapping_ with ⟨fb1, b⟩
  cases b <;> simp

/-- A `flush` that is defined leaves the buffer as it is and pushes no event. -/
theorem stepCall_flush (u : Nat → List Nat → Option (List Nat)) (fb : FrameBuffer)
    (r : FrameBuffer × List Event) (h : fb.stepCall u .flush = some r) : r = (fb, []) := by
  unfold stepCall at h
  cases hf : fb.flush with
  | none => rw [hf] at h; simp at h
  | some q =>
    rw [hf] at h
    have hq := ((flush_eq_some_iff fb q).mp hf).2
    rw [hq] at h
    simp only [List.drop_length, Option.some.injEq] at h
    exact h.symm

theorem stepCall_flush_none (u : Nat → List Nat → Option (List Nat)) (fb : FrameBuffer)
    (h : fb.stepCall u .flush = none) :
    (fb.flushUntilErase fb.frameSlotMapping_).2 = false := by
  unfold stepCall at h
  cases hf : fb.flush with
  | none => exact (flush_eq_none_iff fb).mp hf
  | some q => rw [hf] at h; simp at h

theorem stepCall_op (u : Nat → List Nat → Option (List Nat)) (fb : FrameBuffer) (o : Op) :
    fb.stepCall u (.op o) = some (fb.step u o, fb.emitted u o) := rfl

theorem runCalls_nil (u : Nat → List Nat → Option (List Nat)) (fb : FrameBuffer) :
    fb.runCalls u [] = some (fb, []) := rfl

theorem runCalls_op (u : Nat → List Nat → Option (List Nat)) (fb : FrameBuffer) (o : Op)
    (cs : List Call) :
    fb.runCalls u (.op o :: cs) =
      match (fb.step u o).runCalls u cs with
      | none => none
      | some r2 => some (r2.1, fb.emitted u o ++ r2.2) := rfl

/-- In a sequence with a result, a `flush` can be left out. -/
theorem runCalls_flush (u : Nat → List Nat → Option (List Nat)) (fb : FrameBuffer)
    (cs : List Call) (r : FrameBuffer × List Event)
    (h : fb.runCalls u (.flush :: cs) = some r) :
    fb.stepCall u .flush = some (fb, []) ∧ fb.runCalls u cs = some r := by
  simp only [runCalls] at h
  cases hs : fb.stepCall u .flush with
  | none => rw [hs] at h; simp at h
  | some q =>
    have hq := stepCall_flush u fb q hs
    rw [hs] at h
    subst hq
    refine ⟨rfl, ?_⟩
    simp only [List.nil_append] at h
    cases hr : fb.runCalls u cs with
    | none => rw [hr] at h; simp at h
    | some r2 => rw [hr] at h; simpa using h

/-- A sequence of calls with a result ends in the buffer its calls other than `flush`
lead to, and has pushed their events. -/
theorem runCalls_ops (u : Nat → List Nat → Option (List Nat)) (calls : List Call) :
    ∀ (fb : FrameBuffer) (r : FrameBuffer × List Event), fb.runCalls u calls = some r →
      r.1 = fb.run u (opsOf calls) ∧ r.2 = fb.runEmitted u (opsOf calls) := by
  induction calls with
  | nil =>
    intro fb r h
    rw [runCalls_nil] at h
    rw [← Option.some.inj h]
    exact ⟨rfl, rfl⟩
  | cons c cs ih =>
    intro fb r h
    cases c with
    | flush => exact ih fb r (runCalls_flush u fb cs r h).2
    | op o =>
      rw [runCalls_op] at h
      cases hr : (fb.step u o).runCalls u cs with
      | none => rw [hr] at h; simp at h
      | some r2 =>
        rw [hr] at h
        obtain ⟨h1, h2⟩ := ih _ r2 hr
        rw [← Option.some.inj h]
        exact ⟨h1, by simp only [opsOf, runEmitted]; rw [h2]⟩

/-- A sequence of calls has no result only if one of its `flush` calls, made on a
buffer the calls before it lead to, erases an entry under its iterator. -/
theorem runCalls_none (u : Nat → List Nat → Option (List Nat)) (calls : List Call) :
    ∀ fb : FrameBuffer, fb.runCalls u calls = none →
      ∃ before after r, calls = before ++ Call.flush :: after ∧
        fb.runCalls u before = some r ∧
        (r.1.flushUntilErase r.1.frameSlotMapping_).2 = false := by
  induction calls with
  | nil => intro fb h; rw [runCalls_nil] at h; simp at h
  | cons c cs ih =>
    intro fb h
    cases c with
    | flush =>
      cases hs : fb.stepCall u .flush with
      | none => exact ⟨[], cs, (fb, []), rfl, rfl, stepCall_flush_none u fb hs⟩
      | some q =>
        have hq := stepCall_flush u fb q hs
        subst hq
        simp only [runCalls, hs, List.nil_append] at h
        cases hr : fb.runCalls u cs with
        | some r2 => rw [hr] at h; simp at h
        | none =>
          obtain ⟨before, after, r, h1, h2, h3⟩ := ih fb hr
          refine ⟨.flush :: before, after, r, by rw [h1]; rfl, ?_, h3⟩
          simp only [runCalls, hs, h2, List.nil_append]
    | op o =>
      rw [runCalls_op] at h
      cases hr : (fb.step u o).runCalls u cs with
      | some r2 => rw [hr] at h; simp at h
      | none =>
        obtain ⟨before, after, r, h1, h2, h3⟩ := ih _ hr
        refine ⟨.op o :: before, after, (r.1, fb.emitted u o ++ r.2), by rw [h1]; rfl, ?_, h3⟩
        rw [runCalls_op, h2]

/-- C5: after a successful `init n s` on a fresh buffer and a sequence of calls, `flush`
included.  Whenever the calls have a result, no slot occurs twice on the free
list, no slot is mapped by two frames, the keys of the map are distinct, every
slot created by `init` (the slots below `n`) is on the free list or mapped and
never both, nothing else is, and the two sizes add up to `n`.  The calls have
no result only when a `flush` among them meets a mapped slot that is not
Locked: it erases the entry under its iterator and then increments that
iterator, so that nothing is defined from there on, the partition included. -/
theorem pool_partition (unpackFrame : Nat → List Nat → Option (List Nat)) (n s : Nat)
    (hn : 0 < n) (hs : 0 < s) (calls : List Call) :
    (FrameBuffer.new.init n s).2 = 0 ∧
    (∀ r, (FrameBuffer.new.init n s).1.runCalls unpackFrame calls = some r →
      r.1.freeSlots_.Nodup ∧
      (r.1.frameSlotMapping_.map Prod.snd).Nodup ∧
      (r.1.frameSlotMapping_.map Prod.fst).Nodup ∧
      (∀ slot, slot < n →
        (slot ∈ r.1.freeSlots_ ∧ slot ∉ r.1.frameSlotMapping_.map Prod.snd) ∨
        (slot ∉ r.1.freeSlots_ ∧ slot ∈ r.1.frameSlotMapping_.map Prod.snd)) ∧
      (∀ slot, slot ∈ r.1.freeSlots_ ∨ slot ∈ r.1.frameSlotMapping_.map Prod.snd →
        slot < n) ∧
      r.1.freeSlots_.length + r.1.frameSlotMapping_.length = n) ∧
    ((FrameBuffer.new.init n s).1.runCalls unpackFrame calls = none →
      ∃ before after r, calls = before ++ Call.flush :: after ∧
        (FrameBuffer.new.init n s).1.runCalls unpackFrame before = some r ∧
        (r.1.flushUntilErase r.1.frameSlotMapping_).2 = false) := by
  refine ⟨?_, ?_, runCalls_none unpackFrame calls _⟩
  · unfold init
    rw [if_neg (by omega)]
  · intro r hr
    rw [(runCalls_ops unpackFrame calls _ r hr).1]
    exact partition_of_poolInv _ n (poolInv_run unpackFrame _ _ (poolInv_init n s))
      ((run_length unpackFrame _ _).trans (init_length n s hn hs))

/-- C5, at `init(2, 4)` followed by booking frames 7 and 8, freeing 7, `flush` and
booking 9: the calls have no result, because the `flush` finds frame 8 mapped
to a slot that is New and erases its entry under the iterator. -/
theorem pool_partition_witness :
    (FrameBuffer.new.init 2 4).1.runCalls (fun _ _ => none)
      [.op (.bookSlot 7), .op (.bookSlot 8), .op (.markSlotFree 7), .flush,
       .op (.bookSlot 9)] = none ∧
    ∃ before after r,
      [Call.op (.bookSlot 7), .op (.bookSlot 8), .op (.markSlotFree 7), .flush,
       .op (.bookSlot 9)] = before ++ Call.flush :: after ∧
      (FrameBuffer.new.init 2 4).1.runCalls (fun _ _ => none) before = some r ∧
      (r.1.flushUntilErase r.1.frameSlotMapping_).2 = false :=
  ⟨by decide,
   (pool_partition (fun _ _ => none) 2 4 (by decide) (by decide)
    [.op (.bookSlot 7), .op (.bookSlot 8), .op (.markSlotFree 7), .flush,
     .op (.bookSlot 9)]).2.2 (by decide)⟩

/-- C6: for a mapped frame whose slot is Assembling and a segment in range,
`appendSegment` returns CallResultAssembling (also when the frame completes), the
`len` bytes land at offset `seg_no * segment_size`, `storedSegments_` grows by 1
and `assembledDataSize_` by `len`, the slot is Ready exactly when the new count
equals `segmentsNum_` and Assembling otherwise, and the queue gains the Ready
event if the slot became Ready, else the FirstSegment event if the new count is
1, else nothing; the pool and the other slots are untouched. -/
theorem appendSegment_in_range (fb : FrameBuffer) (f slot k len : Nat) (data : List Nat)
    (hm : mapFind fb.frameSlotMapping_ f = some slot)
    (hst : (fb.deref slot).state_ = .StateAssembling)
    (hbuf : (fb.deref slot).data_.length = (fb.deref slot).dataLength_)
    (hrange : k * (fb.deref slot).segmentSize_ + len ≤ (fb.deref slot).dataLength_)
    (hdata : len ≤ data.length) :
    (fb.appendSegment f k len data).2 = .CallResultAssembling ∧
    ((fb.appendSegment f k len data).1.deref slot).data_ =
      (fb.deref slot).data_.take (k * (fb.deref slot).segmentSize_) ++ data.take len ++
        (fb.deref slot).data_.drop (k * (fb.deref slot).segmentSize_ + len) ∧
    ((fb.appendSegment f k len data).1.deref slot).storedSegments_ =
      (fb.deref slot).storedSegments_ + 1 ∧
    ((fb.appendSegment f k len data).1.deref slot).assembledDataSize_ =
      (fb.deref slot).assembledDataSize_ + len ∧
    (((fb.appendSegment f k len data).1.deref slot).state_ = .StateReady ↔
      (fb.deref slot).storedSegments_ + 1 = (fb.deref slot).segmentsNum_) ∧
    (((fb.appendSegment f k len data).1.deref slot).state_ = .StateAssembling ↔
      (fb.deref slot).storedSegments_ + 1 ≠ (fb.deref slot).segmentsNum_) ∧
    (fb.appendSegment f k len data).1.pendingEvents_ = fb.pendingEvents_ ++
      (if (fb.deref slot).storedSegments_ + 1 = (fb.deref slot).segmentsNum_ then
        [{ type_ := .EventTypeReady, segmentNo_ := k, frameNo_ := f, slot_ := some slot }]
      else if (fb.deref slot).storedSegments_ + 1 = 1 then
        [{ type_ := .EventTypeFirstSegment, segmentNo_ := k, frameNo_ := f,
           slot_ := some slot }]
      else []) ∧
    (fb.appendSegment f k len data).1.freeSlots_ = fb.freeSlots_ ∧
    (fb.appendSegment f k len data).1.frameSlotMapping_ = fb.frameSlotMapping_ ∧
    (∀ other, other ≠ slot →
      (fb.appendSegment f k len data).1.deref other = fb.deref other) := by
  have hv : slot < fb.slots.length := deref_state_valid fb slot (by rw [hst]; decide)
  rw [appendSegment_stored fb f slot k len data hm hst]
  have hd : ∀ ev : List Event, (({ fb with
      slots := fb.slots.set slot ((fb.deref slot).appendSegment k len data).1
      pendingEvents_ := ev } : FrameBuffer).deref slot) =
      ((fb.deref slot).appendSegment k len data).1 := by
    intro ev
    simp [deref, List.getD_eq_getElem?_getD, List.getElem?_set, hv]
  have ho : ∀ (ev : List Event) (other : Nat), other ≠ slot → (({ fb with
      slots := fb.slots.set slot ((fb.deref slot).appendSegment k len data).1
      pendingEvents_ := ev } : FrameBuffer).deref other) = fb.deref other := by
    intro ev other hne
    simp [deref, List.getD_eq_getElem?_getD, List.getElem?_set, Ne.symm hne]
  refine ⟨rfl, ?_, ?_, ?_, ?_, ?_, rfl, rfl, rfl, fun other hne => ho _ other hne⟩
  · simp only [hd]
    rw [Slot.appendSegment_assembling _ _ _ _ hst]
    have h3 : (List.take len data).take
        ((fb.deref slot).data_.length - k * (fb.deref slot).segmentSize_) =
        List.take len data := by
      apply List.take_of_length_le
      rw [List.length_take]
      omega
    simp only [Slot.memcpy, h3]
  · simp only [hd]
    rw [Slot.appendSegment_assembling _ _ _ _ hst]
  · simp only [hd]
    rw [Slot.appendSegment_assembling _ _ _ _ hst]
  · simp only [hd]
    rw [Slot.appendSegment_assembling _ _ _ _ hst]
    by_cases h : (fb.deref slot).storedSegments_ + 1 = (fb.deref slot).segmentsNum_ <;>
      simp [h]
  · simp only [hd]
    rw [Slot.appendSegment_assembling _ _ _ _ hst]
    by_cases h : (fb.deref slot).storedSegments_ + 1 = (fb.deref slot).segmentsNum_ <;>
      simp [h]

/-- C6, on scenario 1 of the spec cut down to a slot of 12 bytes: the first segment of
three gives Assembling and a FirstSegment event, the third gives Assembling
and a Ready event. -/
theorem appendSegment_in_range_witness :
    ((afterInit (fun _ _ => none) 1 12
      [.bookSlot 42, .markSlotAssembling 42 3 4]).appendSegment 42 0 4 [1, 2, 3, 4]).2
      = .CallResultAssembling ∧
    (((afterInit (fun _ _ => none) 1 12
      [.bookSlot 42, .markSlotAssembling 42 3 4]).appendSegment 42 0 4 [1, 2, 3, 4]).1.deref
        0).data_ = [1, 2, 3, 4, 0, 0, 0, 0, 0, 0, 0, 0] ∧
    ((afterInit (fun _ _ => none) 1 12
      [.bookSlot 42, .markSlotAssembling 42 3 4, .appendSegment 42 0 4 [1, 2, 3, 4],
       .appendSegment 42 1 4 [5, 6, 7, 8]]).appendSegment 42 2 3 [9, 9, 9]).1.pendingEvents_
      = [{ type_ := .EventTypeFreeSlot, segmentNo_ := 0, frameNo_ := 0, slot_ := some 0 },
         { type_ := .EventTypeFirstSegment, segmentNo_ := 0, frameNo_ := 42, slot_ := some 0 },
         { type_ := .EventTypeReady, segmentNo_ := 2, frameNo_ := 42, slot_ := some 0 }] :=
  have h1 := appendSegment_in_range (afterInit (fun _ _ => none) 1 12
      [.bookSlot 42, .markSlotAssembling 42 3 4]) 42 0 0 4 [1, 2, 3, 4]
      (by decide) (by decide) (by decide) (by decide) (by decide)
  have h2 := appendSegment_in_range (afterInit (fun _ _ => none) 1 12
      [.bookSlot 42, .markSlotAssembling 42 3 4, .appendSegment 42 0 4 [1, 2, 3, 4],
       .appendSegment 42 1 4 [5, 6, 7, 8]]) 42 0 2 3 [9, 9, 9]
      (by decide) (by decide) (by decide) (by decide) (by decide)
  ⟨h1.1, h1.2.1.trans (by decide), h2.2.2.2.2.2.2.1.trans (by decide)⟩

/-- C7: what the code does for a mapped frame whose slot is not Assembling (New,
Ready or Locked): `appendSegment` leaves the whole buffer as it is, and the
result code it returns is the CallResultOk left in `res` by `getFrameSlot`,
for a Locked slot as for any other. -/
theorem appendSegment_not_assembling (fb : FrameBuffer) (f slot k len : Nat) (data : List Nat)
    (hm : mapFind fb.frameSlotMapping_ f = some slot)
    (hst : (fb.deref slot).state_ ≠ .StateAssembling) :
    (fb.appendSegment f k len data).1 = fb ∧
    (fb.appendSegment f k len data).2 = .CallResultOk := by
  rw [appendSegment_refused fb f slot k len data hm hst]
  exact ⟨rfl, rfl⟩

/-- C7, at a frame just booked (slot New) and at the same frame once locked: both
appends return CallResultOk. -/
theorem appendSegment_not_assembling_witness :
    ((afterInit (fun _ _ => none) 1 4 [.bookSlot 1]).appendSegment 1 0 2 [7, 7]).2
      = .CallResultOk ∧
    ((afterInit (fun _ _ => none) 1 4 [.bookSlot 1, .lockSlot 1]).getState 1).2
      = .StateLocked ∧
    ((afterInit (fun _ _ => none) 1 4 [.bookSlot 1, .lockSlot 1]).appendSegment 1 0 2 [7, 7]).2
      = .CallResultOk :=
  ⟨(appendSegment_not_assembling (afterInit (fun _ _ => none) 1 4 [.bookSlot 1]) 1 0 0 2 [7, 7]
      (by decide) (by decide)).2,
   by decide,
   (appendSegment_not_assembling (afterInit (fun _ _ => none) 1 4 [.bookSlot 1, .lockSlot 1])
      1 0 0 2 [7, 7] (by decide) (by decide)).2⟩

/-- C8: what the code does for a mapped frame in state Assembling and a segment
that does not fit the slot: there is no range test, the call returns
CallResultAssembling, both counters are bumped and the usual event is queued. -/
theorem appendSegment_out_of_range (fb : FrameBuffer) (f slot k len : Nat) (data : List Nat)
    (hm : mapFind fb.frameSlotMapping_ f = some slot)
    (hst : (fb.deref slot).state_ = .StateAssembling)
    (_hrange : (fb.deref slot).dataLength_ < k * (fb.deref slot).segmentSize_ + len) :
    (fb.appendSegment f k len data).2 = .CallResultAssembling ∧
    ((fb.appendSegment f k len data).1.deref slot).storedSegments_ =
      (fb.deref slot).storedSegments_ + 1 ∧
    ((fb.appendSegment f k len data).1.deref slot).assembledDataSize_ =
      (fb.deref slot).assembledDataSize_ + len ∧
    (fb.appendSegment f k len data).1.pendingEvents_ = fb.pendingEvents_ ++
      (if (fb.deref slot).storedSegments_ + 1 = (fb.deref slot).segmentsNum_ then
        [{ type_ := .EventTypeReady, segmentNo_ := k, frameNo_ := f, slot_ := some slot }]
      else if (fb.deref slot).storedSegments_ + 1 = 1 then
        [{ type_ := .EventTypeFirstSegment, segmentNo_ := k, frameNo_ := f,
           slot_ := some slot }]
      else []) := by
  have hv : slot < fb.slots.length := deref_state_valid fb slot (by rw [hst]; decide)
  rw [appendSegment_stored fb f slot k len data hm hst]
  have hd : ∀ ev : List Event, (({ fb with
      slots := fb.slots.set slot ((fb.deref slot).appendSegment k len data).1
      pendingEvents_ := ev } : FrameBuffer).deref slot) =
      ((fb.deref slot).appendSegment k len data).1 := by
    intro ev
    simp [deref, List.getD_eq_getElem?_getD, List.getElem?_set, hv]
  refine ⟨rfl, ?_, ?_, rfl⟩
  · simp only [hd]
    rw [Slot.appendSegment_assembling _ _ _ _ hst]
  · simp only [hd]
    rw [Slot.appendSegment_assembling _ _ _ _ hst]

/-- C8, at a slot of 4 bytes and a segment of 8 bytes at offset 0: the call returns
CallResultAssembling, the 4 bytes of the slot are overwritten, 8 bytes are
counted as assembled and a FirstSegment event is queued. -/
theorem appendSegment_out_of_range_witness :
    ((afterInit (fun _ _ => none) 1 4
      [.bookSlot 1, .markSlotAssembling 1 3 4]).appendSegment 1 0 8 [1, 2, 3, 4, 5, 6, 7, 8]).2
      = .CallResultAssembling ∧
    (((afterInit (fun _ _ => none) 1 4
      [.bookSlot 1, .markSlotAssembling 1 3 4]).appendSegment 1 0 8
        [1, 2, 3, 4, 5, 6, 7, 8]).1.deref 0).data_ = [1, 2, 3, 4] ∧
    (((afterInit (fun _ _ => none) 1 4
      [.bookSlot 1, .markSlotAssembling 1 3 4]).appendSegment 1 0 8
        [1, 2, 3, 4, 5, 6, 7, 8]).1.deref 0).assembledDataSize_ = 8 ∧
    ((afterInit (fun _ _ => none) 1 4
      [.bookSlot 1, .markSlotAssembling 1 3 4]).appendSegment 1 0 8
        [1, 2, 3, 4, 5, 6, 7, 8]).1.pendingEvents_ =
      [{ type_ := .EventTypeFreeSlot, segmentNo_ := 0, frameNo_ := 0, slot_ := some 0 },
       { type_ := .EventTypeFirstSegment, segmentNo_ := 0, frameNo_ := 1, slot_ := some 0 }] :=
  have h := appendSegment_out_of_range (afterInit (fun _ _ => none) 1 4
      [.bookSlot 1, .markSlotAssembling 1 3 4]) 1 0 0 8 [1, 2, 3, 4, 5, 6, 7, 8]
      (by decide) (by decide) (by decide)
  ⟨h.1, by decide, h.2.2.1.trans (by decide), h.2.2.2.trans (by decide)⟩

end FrameBuffer

/-! ## The state invariant -/

theorem Slot.effState_markLocked (s : Slot) : s.markLocked.effState = s.effState := by
  unfold Slot.markLocked Slot.effState
  split_ifs with h1 h2 h3 <;> simp_all

theorem Slot.effState_markUnlocked (s : Slot) : s.markUnlocked.effState = s.effState := by
  unfold Slot.markUnlocked Slot.effState
  split_ifs <;> simp_all

theorem Slot.good_markNew (s : Slot) (f : Nat) (h : s.Good) : (s.markNew f).Good := by
  unfold Slot.markNew
  split_ifs
  · intro _; rfl
  · exact h

theorem Slot.good_markFree (s : Slot) (h : s.Good) : s.markFree.Good := by
  unfold Slot.markFree
  split_ifs
  · exact h
  · intro _; rfl

theorem Slot.good_markAssembling (s : Slot) (n sz : Nat) (h : s.Good) :
    (s.markAssembling n sz).Good := by
  unfold Slot.markAssembling
  split_ifs
  · intro h2
    simp [Slot.effState] at h2
  · exact h

theorem Slot.good_markLocked (s : Slot) (h : s.Good) : s.markLocked.Good := by
  intro h2
  rw [Slot.effState_markLocked] at h2
  have := h h2
  unfold Slot.markLocked
  split_ifs <;> simpa using this

theorem Slot.good_markUnlocked (s : Slot) (h : s.Good) : s.markUnlocked.Good := by
  intro h2
  rw [Slot.effState_markUnlocked] at h2
  have := h h2
  unfold Slot.markUnlocked
  split_ifs <;> simpa using this

theorem Slot.good_appendSegment (s : Slot) (k len : Nat) (data : List Nat) (h : s.Good) :
    (s.appendSegment k len data).1.Good := by
  by_cases hst : s.state_ = .StateAssembling
  · rw [Slot.appendSegment_assembling s k len data hst]
    intro h2
    exfalso
    revert h2
    simp only [Slot.effState]
    split_ifs <;> simp_all
  · unfold Slot.appendSegment
    simp only [hst, not_false_eq_true, if_true]
    exact h

theorem Slot.good_new (n : Nat) : (Slot.new n).Good := by
  intro _; rfl

theorem mapFind_mem (m : List (Nat × Nat)) (key v : Nat) (h : mapFind m key = some v) :
    (key, v) ∈ m := by
  induction m with
  | nil => simp [mapFind] at h
  | cons p m ih =>
    obtain ⟨k, w⟩ := p
    by_cases hk : k = key
    · simp only [mapFind, hk, if_true, Option.some.injEq] at h
      simp [hk, h]
    · simp only [mapFind, hk, if_false] at h
      exact List.mem_cons_of_mem _ (ih h)

theorem mem_mapInsert (m : List (Nat × Nat)) (key v : Nat) (e : Nat × Nat)
    (he : e ∈ mapInsert m key v) : e = (key, v) ∨ e ∈ m := by
  induction m with
  | nil => simpa [mapInsert] using he
  | cons p m ih =>
    obtain ⟨k, w⟩ := p
    unfold mapInsert at he
    split_ifs at he with h1 h2
    · simpa using he
    · simp only [List.mem_cons] at he ⊢
      tauto
    · simp only [List.mem_cons] at he ⊢
      rcases he with he | he
      · tauto
      · rcases ih he with h | h <;> tauto

namespace FrameBuffer

theorem deref_set_self (fb fb1 : FrameBuffer) (a : Nat) (x : Slot)
    (h : fb1.slots = fb.slots.set a x) (ha : a < fb.slots.length) : fb1.deref a = x := by
  simp [deref, h, List.getD_eq_getElem?_getD, List.getElem?_set, ha]

theorem deref_set_ne (fb fb1 : FrameBuffer) (a b : Nat) (x : Slot)
    (h : fb1.slots = fb.slots.set a x) (hb : b ≠ a) : fb1.deref b = fb.deref b := by
  simp [deref, h, List.getD_eq_getElem?_getD, List.getElem?_set, Ne.symm hb]

theorem deref_set_invalid (fb fb1 : FrameBuffer) (a b : Nat) (x : Slot)
    (h : fb1.slots = fb.slots.set a x) (ha : ¬ a < fb.slots.length) :
    fb1.deref b = fb.deref b := by
  have : fb.slots.set a x = fb.slots := List.set_eq_of_length_le (by omega)
  simp [deref, h, this]

theorem deref_congr (fb fb1 : FrameBuffer) (b : Nat) (h : fb1.slots = fb.slots) :
    fb1.deref b = fb.deref b := by
  simp [deref, h]

theorem deref_invalid_good (fb : FrameBuffer) (a : Nat) (ha : ¬ a < fb.slots.length) :
    fb.deref a = Slot.new 0 := by
  have : fb.slots[a]? = none := List.getElem?_eq_none (by omega)
  simp [deref, List.getD_eq_getElem?_getD, this]

/-- A mapped slot is live and not on the free list. -/
theorem mapped_slot (fb : FrameBuffer) (f a : Nat) (h : PoolInv fb)
    (hm : mapFind fb.frameSlotMapping_ f = some a) :
    a < fb.slots.length ∧ a ∉ fb.freeSlots_ ∧ a ∈ fb.frameSlotMapping_.map Prod.snd := by
  have hmem : a ∈ fb.frameSlotMapping_.map Prod.snd :=
    List.mem_map_of_mem Prod.snd (mapFind_mem _ _ _ hm)
  have hnd : (fb.freeSlots_ ++ fb.frameSlotMapping_.map Prod.snd).Nodup :=
    h.1.nodup_iff.mpr (List.nodup_range _)
  refine ⟨?_, ?_, hmem⟩
  · exact List.mem_range.mp (h.1.mem_iff.mp (List.mem_append_right _ hmem))
  · intro hf
    exact List.disjoint_of_nodup_append hnd hf hmem

/-- Two frames are not mapped to the same slot. -/
theorem mapped_injective (fb : FrameBuffer) (f g a : Nat) (h : PoolInv fb)
    (hf : mapFind fb.frameSlotMapping_ f = some a)
    (hg : mapFind fb.frameSlotMapping_ g = some a) : f = g := by
  have hnd : (fb.frameSlotMapping_.map Prod.snd).Nodup :=
    (List.nodup_append.mp (h.1.nodup_iff.mpr (List.nodup_range _))).2.1
  have h1 := mapFind_mem _ _ _ hf
  have h2 := mapFind_mem _ _ _ hg
  have := List.inj_on_of_nodup_map hnd h1 h2 rfl
  exact (Prod.mk.inj this).1

/-- An update of one slot that is not on the free list, by a method that keeps
`Good`, keeps the invariant. -/
theorem inv_local (fb fb1 : FrameBuffer) (a : Nat) (x : Slot) (h : Inv fb)
    (hslots : fb1.slots = fb.slots.set a x) (hfree : fb1.freeSlots_ = fb.freeSlots_)
    (hmap : fb1.frameSlotMapping_ = fb.frameSlotMapping_) (ha : a ∉ fb.freeSlots_)
    (hgood : x.Good) : Inv fb1 := by
  obtain ⟨hp, hf, hg⟩ := h
  refine ⟨poolInv_of_eq fb fb1 hp (by simp [hslots]) hfree hmap, ?_, ?_⟩
  · intro slot hs
    rw [hfree] at hs
    have hne : slot ≠ a := fun h => ha (h ▸ hs)
    rw [deref_set_ne fb fb1 a slot x hslots hne]
    exact hf slot hs
  · intro slot
    by_cases hv : a < fb.slots.length
    · by_cases hne : slot = a
      · rw [hne, deref_set_self fb fb1 a x hslots hv]
        exact hgood
      · rw [deref_set_ne fb fb1 a slot x hslots hne]
        exact hg slot
    · rw [deref_set_invalid fb fb1 a slot x hslots hv]
      exact hg slot

theorem inv_same (fb fb1 : FrameBuffer) (h : Inv fb) (hslots : fb1.slots = fb.slots)
    (hfree : fb1.freeSlots_ = fb.freeSlots_)
    (hmap : fb1.frameSlotMapping_ = fb.frameSlotMapping_) : Inv fb1 := by
  obtain ⟨hp, hf, hg⟩ := h
  refine ⟨poolInv_of_eq fb fb1 hp (by simp [hslots]) hfree hmap, ?_, ?_⟩
  · intro slot hs
    rw [hfree] at hs
    rw [deref_congr fb fb1 slot hslots]
    exact hf slot hs
  · intro slot
    rw [deref_congr fb fb1 slot hslots]
    exact hg slot

theorem inv_bookSlot (fb : FrameBuffer) (f : Nat) (h : Inv fb) : Inv (fb.bookSlot f).1 := by
  cases hm : mapFind fb.frameSlotMapping_ f with
  | some slot => rw [bookSlot_mapped fb f slot hm]; exact h
  | none =>
    rcases List.eq_nil_or_concat fb.freeSlots_ with he | ⟨rest, a, he⟩
    · rw [bookSlot_full fb f hm he]; exact h
    · have he2 : fb.freeSlots_ = rest ++ [a] := by simpa using he
      have hp := poolInv_bookSlot fb f h.1
      rw [bookSlot_new fb f a rest hm he2] at hp ⊢
      obtain ⟨hp0, hf, hg⟩ := h
      have hnd : (rest ++ [a]).Nodup := by
        rw [← he2]
        exact (List.nodup_append.mp (hp0.1.nodup_iff.mpr (List.nodup_range _))).1
      have hslots : (({ fb with freeSlots_ := rest
                                frameSlotMapping_ := mapInsert fb.frameSlotMapping_ f a } :
          FrameBuffer).withSlot a (fun s => s.markNew f)).slots =
          fb.slots.set a ((fb.deref a).markNew f) := rfl
      refine ⟨hp, ?_, ?_⟩
      · intro slot hs
        have hs2 : slot ∈ rest := hs
        have hne : slot ≠ a := by
          intro heq
          rw [heq] at hs2
          exact (List.disjoint_of_nodup_append hnd) hs2 (by simp)
        rw [deref_set_ne fb _ a slot _ hslots hne]
        exact hf slot (by rw [he2]; exact List.mem_append_left _ hs2)
      · intro slot
        by_cases hv : a < fb.slots.length
        · by_cases hne : slot = a
          · rw [hne, deref_set_self fb _ a _ hslots hv]
            exact Slot.good_markNew _ _ (hg a)
          · rw [deref_set_ne fb _ a slot _ hslots hne]
            exact hg slot
        · rw [deref_set_invalid fb _ a slot _ hslots hv]
          exact hg slot

/-- Returning the slot of a mapped frame to the free list keeps the invariant. -/
theorem inv_freeEntry (fb fb1 : FrameBuffer) (key a : Nat) (h : Inv fb)
    (hm : mapFind fb.frameSlotMapping_ key = some a)
    (hl : (fb.deref a).state_ ≠ .StateLocked)
    (hslots : fb1.slots = fb.slots.set a (fb.deref a).markFree)
    (hfree : fb1.freeSlots_ = fb.freeSlots_ ++ [a])
    (hmap : fb1.frameSlotMapping_ = mapErase fb.frameSlotMapping_ key) : Inv fb1 := by
  obtain ⟨hp, hf, hg⟩ := h
  obtain ⟨hv, hnf, _⟩ := mapped_slot fb key a hp hm
  refine ⟨poolInv_freeEntry fb fb1 key a hp hm (by simp [hslots]) hfree hmap, ?_, ?_⟩
  · intro slot hs
    rw [hfree] at hs
    rcases List.mem_append.mp hs with hs | hs
    · have hne : slot ≠ a := fun heq => hnf (heq ▸ hs)
      rw [deref_set_ne fb fb1 a slot _ hslots hne]
      exact hf slot hs
    · have heq : slot = a := by simpa using hs
      rw [heq, deref_set_self fb fb1 a _ hslots hv]
      simp [Slot.markFree, hl]
  · intro slot
    by_cases hne : slot = a
    · rw [hne, deref_set_self fb fb1 a _ hslots hv]
      exact Slot.good_markFree _ (hg a)
    · rw [deref_set_ne fb fb1 a slot _ hslots hne]
      exact hg slot

theorem inv_flushVisit (fb : FrameBuffer) (e : Nat × Nat) (h : Inv fb)
    (he : e ∈ fb.frameSlotMapping_) : Inv (fb.flushVisit e) := by
  by_cases hl : (fb.deref e.2).state_ = .StateLocked
  · rw [flushVisit_locked fb e hl]; exact h
  · rw [flushVisit_unlocked fb e hl]
    exact inv_freeEntry fb _ e.1 e.2 h (mapFind_of_mem _ e h.1.2 he) hl rfl rfl rfl

theorem inv_step (unpackFrame : Nat → List Nat → Option (List Nat)) (fb : FrameBuffer)
    (op : Op) (h : Inv fb) : Inv (fb.step unpackFrame op) := by
  cases op with
  | bookSlot f => exact inv_bookSlot fb f h
  | markSlotAssembling f n sz =>
    simp only [step]
    cases hm : mapFind fb.frameSlotMapping_ f with
    | none => rw [markSlotAssembling_unmapped fb f n sz hm]; exact h
    | some a =>
      rw [markSlotAssembling_mapped fb f a n sz hm]
      exact inv_local fb _ a _ h rfl rfl rfl (mapped_slot fb f a h.1 hm).2.1
        (Slot.good_markAssembling _ _ _ (h.2.2 a))
  | appendSegment f k len data =>
    simp only [step]
    cases hm : mapFind fb.frameSlotMapping_ f with
    | none => rw [appendSegment_unmapped fb f k len data hm]; exact h
    | some a =>
      by_cases hst : (fb.deref a).state_ = .StateAssembling
      · rw [appendSegment_stored fb f a k len data hm hst]
        exact inv_local fb _ a _ h rfl rfl rfl (mapped_slot fb f a h.1 hm).2.1
          (Slot.good_appendSegment _ _ _ _ (h.2.2 a))
      · rw [appendSegment_refused fb f a k len data hm hst]; exact h
  | notifySegmentTimeout f k =>
    simp only [step]
    cases hm : mapFind fb.frameSlotMapping_ f with
    | none => rw [notifySegmentTimeout_unmapped fb f k hm]; exact h
    | some a =>
      rw [notifySegmentTimeout_mapped fb f k a hm]
      exact inv_same fb _ h rfl rfl rfl
  | lockSlot f =>
    simp only [step]
    cases hm : mapFind fb.frameSlotMapping_ f with
    | none => rw [lockSlot_unmapped fb f hm]; exact h
    | some a =>
      rw [lockSlot_mapped fb f a hm]
      exact inv_local fb _ a _ h rfl rfl rfl (mapped_slot fb f a h.1 hm).2.1
        (Slot.good_markLocked _ (h.2.2 a))
  | unlockSlot f =>
    simp only [step]
    cases hm : mapFind fb.frameSlotMapping_ f with
    | none => rw [unlockSlot_unmapped fb f hm]; exact h
    | some a =>
      rw [unlockSlot_mapped fb f a hm]
      exact inv_local fb _ a _ h rfl rfl rfl (mapped_slot fb f a h.1 hm).2.1
        (Slot.good_markUnlocked _ (h.2.2 a))
  | markSlotFree f =>
    simp only [step]
    cases hm : mapFind fb.frameSlotMapping_ f with
    | none => rw [markSlotFree_unmapped fb f hm]; exact h
    | some a =>
      by_cases hl : (fb.deref a).state_ = .StateLocked
      · rw [markSlotFree_locked fb f a hm hl]; exact h
      · rw [markSlotFree_mapped fb f a hm hl]
        exact inv_freeEntry fb _ f a h hm hl rfl rfl rfl
  | getState f => simp only [step, getState_fst]; exact h
  | getEncodedImage f => simp only [step, getEncodedImage_fst]; exact h
  | waitForEvents mask signals =>
    obtain ⟨h1, h2, h3⟩ := waitLoop_pool signals mask { fb with forcedRelease_ := false }
    exact inv_same fb _ h (by simp only [step, waitForEvents]; rw [h1])
      (by simp only [step, waitForEvents]; rw [h2]) (by simp only [step, waitForEvents]; rw [h3])
  | release => exact inv_same fb _ h rfl rfl rfl

theorem inv_run (unpackFrame : Nat → List Nat → Option (List Nat)) (ops : List Op) :
    ∀ fb : FrameBuffer, Inv fb → Inv (fb.run unpackFrame ops) := by
  induction ops with
  | nil => intro fb h; exact h
  | cons op ops ih =>
    intro fb h
    exact ih _ (inv_step unpackFrame fb op h)

theorem inv_init (n s : Nat) : Inv (FrameBuffer.new.init n s).1 := by
  refine ⟨poolInv_init n s, ?_, ?_⟩
  · unfold init
    split_ifs with h0
    · simp [FrameBuffer.new]
    · simp only []
      rw [initLoop_eq]
      intro slot hs
      simp only [FrameBuffer.new, List.nil_append, List.length_nil, List.mem_range'_1,
        Nat.zero_le, true_and, Nat.zero_add] at hs
      simp [deref, FrameBuffer.new, List.getD_eq_getElem?_getD, List.getElem?_replicate, hs,
        Slot.new]
  · unfold init
    split_ifs with h0
    · intro slot
      simp [deref, FrameBuffer.new, Slot.good_new]
    · simp only []
      rw [initLoop_eq]
      intro slot
      simp only [deref, FrameBuffer.new, List.nil_append, List.getD_eq_getElem?_getD,
        List.getElem?_replicate]
      split_ifs <;> exact Slot.good_new _

theorem inv_afterInit (unpackFrame : Nat → List Nat → Option (List Nat)) (n s : Nat)
    (ops : List Op) : Inv (afterInit unpackFrame n s ops) :=
  inv_run unpackFrame ops _ (inv_init n s)

end FrameBuffer

/-! ## One call, seen from the slot of a mapped frame -/

namespace FrameBuffer

theorem mapFind_mapErase_none (m : List (Nat × Nat)) (key f : Nat)
    (h : mapFind m f = none) : mapFind (mapErase m key) f = none := by
  by_cases hk : f = key
  · rw [hk]; exact mapFind_mapErase_self m key
  · rw [mapFind_mapErase_ne m key f hk]; exact h

theorem slotStep_same (f a : Nat) (op : Op) (s : Slot) (evs : List Event)
    (h : ∀ ev ∈ evs, ¬ (ev.frameNo_ = f ∧
      (ev.type_ = .EventTypeReady ∨ ev.type_ = .EventTypeFirstSegment))) :
    SlotStep f a op s s evs :=
  Or.inl ⟨rfl, h⟩

theorem slotStep_none (f a : Nat) (op : Op) (s : Slot) : SlotStep f a op s s [] :=
  Or.inl ⟨rfl, by simp⟩

theorem deref_mk_set_self (fb : FrameBuffer) (bs ss : Nat) (free : List Nat)
    (m : List (Nat × Nat)) (evs : List Event) (fr : Bool) (a : Nat) (x : Slot)
    (h : a < fb.slots.length) :
    (FrameBuffer.mk bs ss (fb.slots.set a x) free m evs fr).deref a = x :=
  deref_set_self fb _ a x rfl h

theorem deref_mk_set_ne (fb : FrameBuffer) (bs ss : Nat) (free : List Nat)
    (m : List (Nat × Nat)) (evs : List Event) (fr : Bool) (a c : Nat) (x : Slot)
    (h : c ≠ a) :
    (FrameBuffer.mk bs ss (fb.slots.set a x) free m evs fr).deref c = fb.deref c :=
  deref_set_ne fb _ a c x rfl h

theorem other_slot (fb : FrameBuffer) (f g a b : Nat) (h : Inv fb)
    (hf : mapFind fb.frameSlotMapping_ f = some a)
    (hg : mapFind fb.frameSlotMapping_ g = some b) (hne : g ≠ f) : a ≠ b := by
  intro heq
  rw [← heq] at hg
  exact hne (mapped_injective fb g f a h.1 hg hf)

/-- The slot-local update made by a method called on the frame `g`, seen from frame `f`. -/
theorem slotStep_update (fb fb1 : FrameBuffer) (f g a b : Nat) (op : Op) (x : Slot)
    (h : Inv fb) (hf : mapFind fb.frameSlotMapping_ f = some a)
    (hg : mapFind fb.frameSlotMapping_ g = some b)
    (hslots : fb1.slots = fb.slots.set b x)
    (hown : g = f → SlotStep f a op (fb.deref a) x [])  :
    SlotStep f a op (fb.deref a) (fb1.deref a) [] := by
  by_cases hgf : g = f
  · have hab : b = a := by
      rw [hgf, hf] at hg
      exact (Option.some.inj hg).symm
    rw [hab] at hslots
    rw [deref_set_self fb fb1 a x hslots (mapped_slot fb f a h.1 hf).1]
    exact hown hgf
  · rw [deref_set_ne fb fb1 b a x hslots (other_slot fb f g a b h hf hg hgf)]
    exact slotStep_none f a op _

theorem step_slot (unpackFrame : Nat → List Nat → Option (List Nat)) (fb : FrameBuffer)
    (op : Op) (f a : Nat) (h : Inv fb) (hm : mapFind fb.frameSlotMapping_ f = some a)
    (hstay : (mapFind (fb.step unpackFrame op).frameSlotMapping_ f).isSome = true) :
    mapFind (fb.step unpackFrame op).frameSlotMapping_ f = some a ∧
    SlotStep f a op (fb.deref a) ((fb.step unpackFrame op).deref a)
      (fb.emitted unpackFrame op) := by
  cases op with
  | bookSlot g =>
    simp only [emitted, step] at hstay ⊢
    cases hg : mapFind fb.frameSlotMapping_ g with
    | some b =>
      rw [bookSlot_mapped fb g b hg]
      exact ⟨hm, by simpa using slotStep_none f a _ _⟩
    | none =>
      rcases List.eq_nil_or_concat fb.freeSlots_ with he | ⟨rest, b, he⟩
      · rw [bookSlot_full fb g hg he]
        exact ⟨hm, by simpa using slotStep_none f a _ _⟩
      · have he2 : fb.freeSlots_ = rest ++ [b] := by simpa using he
        have hfg : f ≠ g := by
          intro heq
          rw [heq, hg] at hm
          simp at hm
        have hab : a ≠ b := by
          intro heq
          apply (mapped_slot fb f a h.1 hm).2.1
          rw [he2, heq]
          simp
        rw [bookSlot_new fb g b rest hg he2]
        refine ⟨?_, ?_⟩
        · simp only [withSlot]
          rw [mapFind_mapInsert_ne _ _ _ _ hfg]
          exact hm
        · have hd : (({ fb with freeSlots_ := rest
                                frameSlotMapping_ := mapInsert fb.frameSlotMapping_ g b } :
              FrameBuffer).withSlot b (fun s => s.markNew g)).deref a = fb.deref a :=
            deref_set_ne fb _ b a _ rfl hab
          rw [hd]
          simpa [withSlot] using slotStep_none f a _ _
  | markSlotAssembling g n sz =>
    simp only [emitted, step] at hstay ⊢
    cases hg : mapFind fb.frameSlotMapping_ g with
    | none =>
      rw [markSlotAssembling_unmapped fb g n sz hg]
      exact ⟨hm, by simpa using slotStep_none f a _ _⟩
    | some b =>
      rw [markSlotAssembling_mapped fb g b n sz hg]
      refine ⟨hm, ?_⟩
      have := slotStep_update fb (fb.withSlot b (fun s => s.markAssembling n sz)) f g a b
        (.markSlotAssembling g n sz) _ h hm hg rfl
        (fun hgf => Or.inr (Or.inl ⟨n, sz, by rw [hgf], by
          have hab : b = a := by
            rw [hgf, hm] at hg
            exact (Option.some.inj hg).symm
          rw [hab], rfl⟩))
      simpa [withSlot] using this
  | appendSegment g k len data =>
    simp only [emitted, step] at hstay ⊢
    cases hg : mapFind fb.frameSlotMapping_ g with
    | none =>
      rw [appendSegment_unmapped fb g k len data hg]
      exact ⟨hm, by simpa using slotStep_none f a _ _⟩
    | some b =>
      by_cases hst : (fb.deref b).state_ = .StateAssembling
      · rw [appendSegment_stored fb g b k len data hg hst]
        refine ⟨hm, ?_⟩
        simp only [List.drop_left]
        by_cases hgf : g = f
        · have hab : b = a := by
            rw [hgf, hm] at hg
            exact (Option.some.inj hg).symm
          subst hgf
          subst hab
          rw [deref_mk_set_self fb _ _ _ _ _ _ b _ (mapped_slot fb g b h.1 hm).1]
          exact Or.inr (Or.inr (Or.inr (Or.inr ⟨k, len, data, rfl, hst, rfl, rfl⟩)))
        · rw [deref_mk_set_ne fb _ _ _ _ _ _ b a _ (other_slot fb f g a b h hm hg hgf)]
          apply slotStep_same
          intro ev hev
          have hfr : ev.frameNo_ = g := by
            split_ifs at hev <;> simp at hev <;> simp [hev]
          intro hc
          exact hgf (hfr.symm.trans hc.1)
      · rw [appendSegment_refused fb g b k len data hg hst]
        exact ⟨hm, by simpa using slotStep_none f a _ _⟩
  | notifySegmentTimeout g k =>
    simp only [emitted, step] at hstay ⊢
    cases hg : mapFind fb.frameSlotMapping_ g with
    | none =>
      rw [notifySegmentTimeout_unmapped fb g k hg]
      exact ⟨hm, by simpa using slotStep_none f a _ _⟩
    | some b =>
      rw [notifySegmentTimeout_mapped fb g k b hg]
      refine ⟨hm, ?_⟩
      simp only [notifyBufferEventOccurred, List.drop_left]
      rw [deref_congr fb _ a rfl]
      apply slotStep_same
      intro ev hev
      simp only [List.mem_singleton] at hev
      simp [hev]
  | lockSlot g =>
    simp only [emitted, step] at hstay ⊢
    cases hg : mapFind fb.frameSlotMapping_ g with
    | none =>
      rw [lockSlot_unmapped fb g hg]
      exact ⟨hm, by simpa using slotStep_none f a _ _⟩
    | some b =>
      rw [lockSlot_mapped fb g b hg]
      refine ⟨hm, ?_⟩
      have := slotStep_update fb (fb.withSlot b Slot.markLocked) f g a b
        (.lockSlot g) _ h hm hg rfl
        (fun hgf => Or.inr (Or.inr (Or.inl ⟨by rw [hgf], by
          have hab : b = a := by
            rw [hgf, hm] at hg
            exact (Option.some.inj hg).symm
          rw [hab], rfl⟩)))
      simpa [withSlot] using this
  | unlockSlot g =>
    simp only [emitted, step] at hstay ⊢
    cases hg : mapFind fb.frameSlotMapping_ g with
    | none =>
      rw [unlockSlot_unmapped fb g hg]
      exact ⟨hm, by simpa using slotStep_none f a _ _⟩
    | some b =>
      rw [unlockSlot_mapped fb g b hg]
      refine ⟨hm, ?_⟩
      have := slotStep_update fb (fb.withSlot b Slot.markUnlocked) f g a b
        (.unlockSlot g) _ h hm hg rfl
        (fun hgf => Or.inr (Or.inr (Or.inr (Or.inl ⟨by rw [hgf], by
          have hab : b = a := by
            rw [hgf, hm] at hg
            exact (Option.some.inj hg).symm
          rw [hab], rfl⟩))))
      simpa [withSlot] using this
  | markSlotFree g =>
    simp only [emitted, step] at hstay ⊢
    cases hg : mapFind fb.frameSlotMapping_ g with
    | none =>
      rw [markSlotFree_unmapped fb g hg]
      exact ⟨hm, by simpa using slotStep_none f a _ _⟩
    | some b =>
      by_cases hl : (fb.deref b).state_ = .StateLocked
      · rw [markSlotFree_locked fb g b hg hl]
        exact ⟨hm, by simpa using slotStep_none f a _ _⟩
      · rw [markSlotFree_mapped fb g b hg hl] at hstay ⊢
        have hgf : g ≠ f := by
          intro heq
          rw [heq] at hstay
          simp [mapFind_mapErase_self] at hstay
        refine ⟨?_, ?_⟩
        · simp only []
          rw [mapFind_mapErase_ne _ _ _ (Ne.symm hgf)]
          exact hm
        · simp only [List.drop_left]
          rw [deref_mk_set_ne fb _ _ _ _ _ _ b a _ (other_slot fb f g a b h hm hg hgf)]
          apply slotStep_same
          intro ev hev
          simp only [List.mem_singleton] at hev
          simp [hev]
  | getState g =>
    simp only [emitted, step, getState_fst]
    exact ⟨hm, by simpa using slotStep_none f a _ _⟩
  | getEncodedImage g =>
    simp only [emitted, step, getEncodedImage_fst]
    exact ⟨hm, by simpa using slotStep_none f a _ _⟩
  | waitForEvents mask signals =>
    obtain ⟨h1, h2, h3⟩ := waitLoop_pool signals mask { fb with forcedRelease_ := false }
    simp only [emitted, step, waitForEvents]
    rw [h3, deref_congr fb _ a h1]
    exact ⟨hm, slotStep_none f a _ _⟩
  | release =>
    simp only [emitted, step, release]
    exact ⟨hm, by simpa [deref] using slotStep_none f a _ (fb.deref a)⟩

end FrameBuffer

/-! ## The queue only grows at its back, except in `waitForEvents` -/

namespace FrameBuffer

/-- What `emitted` gives is what the call appended to the queue. -/
theorem emitted_queue (u : Nat → List Nat → Option (List Nat)) (fb : FrameBuffer) (op : Op)
    (hop : ∀ mask signals, op ≠ .waitForEvents mask signals) :
    (fb.step u op).pendingEvents_ = fb.pendingEvents_ ++ fb.emitted u op := by
  have key : ∀ fb1 : FrameBuffer, (∃ evs, fb1.pendingEvents_ = fb.pendingEvents_ ++ evs) →
      fb1.pendingEvents_ =
        fb.pendingEvents_ ++ fb1.pendingEvents_.drop fb.pendingEvents_.length := by
    rintro fb1 ⟨evs, h⟩
    rw [h]
    simp
  cases op with
  | waitForEvents mask signals => exact absurd rfl (hop mask signals)
  | bookSlot g =>
    apply key
    simp only [step]
    cases hg : mapFind fb.frameSlotMapping_ g with
    | some b => rw [bookSlot_mapped fb g b hg]; exact ⟨[], by simp⟩
    | none =>
      rcases List.eq_nil_or_concat fb.freeSlots_ with he | ⟨rest, b, he⟩
      · rw [bookSlot_full fb g hg he]; exact ⟨[], by simp⟩
      · rw [bookSlot_new fb g b rest hg (by simpa using he)]
        exact ⟨[], by simp [withSlot]⟩
  | markSlotAssembling g n sz =>
    apply key
    simp only [step]
    cases hg : mapFind fb.frameSlotMapping_ g with
    | none => rw [markSlotAssembling_unmapped fb g n sz hg]; exact ⟨[], by simp⟩
    | some b => rw [markSlotAssembling_mapped fb g b n sz hg]; exact ⟨[], by simp [withSlot]⟩
  | appendSegment g k len data =>
    apply key
    simp only [step]
    cases hg : mapFind fb.frameSlotMapping_ g with
    | none => rw [appendSegment_unmapped fb g k len data hg]; exact ⟨[], by simp⟩
    | some b =>
      by_cases hst : (fb.deref b).state_ = .StateAssembling
      · rw [appendSegment_stored fb g b k len data hg hst]; exact ⟨_, rfl⟩
      · rw [appendSegment_refused fb g b k len data hg hst]; exact ⟨[], by simp⟩
  | notifySegmentTimeout g k =>
    apply key
    simp only [step]
    cases hg : mapFind fb.frameSlotMapping_ g with
    | none => rw [notifySegmentTimeout_unmapped fb g k hg]; exact ⟨[], by simp⟩
    | some b => rw [notifySegmentTimeout_mapped fb g k b hg]; exact ⟨_, rfl⟩
  | lockSlot g =>
    apply key
    simp only [step]
    cases hg : mapFind fb.frameSlotMapping_ g with
    | none => rw [lockSlot_unmapped fb g hg]; exact ⟨[], by simp⟩
    | some b => rw [lockSlot_mapped fb g b hg]; exact ⟨[], by simp [withSlot]⟩
  | unlockSlot g =>
    apply key
    simp only [step]
    cases hg : mapFind fb.frameSlotMapping_ g with
    | none => rw [unlockSlot_unmapped fb g hg]; exact ⟨[], by simp⟩
    | some b => rw [unlockSlot_mapped fb g b hg]; exact ⟨[], by simp [withSlot]⟩
  | markSlotFree g =>
    apply key
    simp only [step]
    cases hg : mapFind fb.frameSlotMapping_ g with
    | none => rw [markSlotFree_unmapped fb g hg]; exact ⟨[], by simp⟩
    | some b =>
      by_cases hl : (fb.deref b).state_ = .StateLocked
      · rw [markSlotFree_locked fb g b hg hl]; exact ⟨[], by simp⟩
      · rw [markSlotFree_mapped fb g b hg hl]; exact ⟨_, rfl⟩
  | getState g => apply key; simp only [step, getState_fst]; exact ⟨[], by simp⟩
  | getEncodedImage g => apply key; simp only [step, getEncodedImage_fst]; exact ⟨[], by simp⟩
  | release => exact key _ ⟨[], by simp [step, release]⟩

end FrameBuffer

/-! ## Ready and FirstSegment events along a sequence of calls -/

theorem filter_isOf_irrelevant (f : Nat) (t : EventType) (evs : List Event)
    (ht : t = .EventTypeReady ∨ t = .EventTypeFirstSegment)
    (h : ∀ ev ∈ evs, ¬ (ev.frameNo_ = f ∧
      (ev.type_ = .EventTypeReady ∨ ev.type_ = .EventTypeFirstSegment))) :
    evs.filter (Event.isOf t f) = [] := by
  rw [List.filter_eq_nil_iff]
  intro ev hev hc
  simp only [Event.isOf, decide_eq_true_eq] at hc
  apply h ev hev
  refine ⟨hc.2, ?_⟩
  rw [hc.1]
  exact ht

theorem filter_ready_appendEvents (s : Slot) (f k a : Nat) :
    ((appendEvents s f k a).filter (Event.isOf .EventTypeReady f)).length =
      if s.storedSegments_ + 1 = s.segmentsNum_ then 1 else 0 := by
  unfold appendEvents
  split_ifs <;> simp [Event.isOf]

theorem filter_first_appendEvents (s : Slot) (f k a : Nat) :
    ((appendEvents s f k a).filter (Event.isOf .EventTypeFirstSegment f)).length =
      if s.storedSegments_ + 1 ≠ s.segmentsNum_ ∧ s.storedSegments_ = 0 then 1 else 0 := by
  unfold appendEvents
  by_cases h1 : s.storedSegments_ + 1 = s.segmentsNum_
  · simp [h1, Event.isOf]
  · by_cases h2 : s.storedSegments_ + 1 = 1
    · have h3 : s.storedSegments_ = 0 := by omega
      rw [if_neg h1, if_pos h2, if_pos ⟨h1, h3⟩]
      simp [Event.isOf]
    · have h3 : ¬ s.storedSegments_ = 0 := by omega
      rw [if_neg h1, if_neg h2, if_neg (fun h => h3 h.2)]
      simp

/-- One call, for the Ready events of a frame whose slot is New, Assembling or
Ready, locked or not. -/
theorem ready_step (f a : Nat) (op : Op) (s s1 : Slot) (evs : List Event)
    (h : SlotStep f a op s s1 evs)
    (hL : s.effState = .StateNew ∨ s.effState = .StateAssembling ∨
      s.effState = .StateReady) :
    (s1.effState = .StateNew ∨ s1.effState = .StateAssembling ∨
      s1.effState = .StateReady) ∧
    (evs.filter (Event.isOf .EventTypeReady f)).length =
      (if s.state_ = .StateAssembling ∧ s1.state_ = .StateReady then 1 else 0) ∧
    (s.effState = .StateReady → s1.effState = .StateReady) := by
  rcases h with ⟨h1, h2⟩ | ⟨n, sz, _, h1, h2⟩ | ⟨_, h1, h2⟩ | ⟨_, h1, h2⟩ |
    ⟨k, len, data, _, hst, h1, h2⟩
  · subst h1
    rw [filter_isOf_irrelevant f _ evs (Or.inl rfl) h2]
    refine ⟨hL, ?_, fun h => h⟩
    by_cases hs : s1.state_ = .StateAssembling <;> simp [hs]
  · subst h1 h2
    obtain ⟨dl, st, sst, ssz, stored, num, asz, fn, dat⟩ := s
    cases st <;> cases sst <;> simp_all [Slot.markAssembling, Slot.effState]
  · subst h1 h2
    obtain ⟨dl, st, sst, ssz, stored, num, asz, fn, dat⟩ := s
    cases st <;> cases sst <;> simp_all [Slot.markLocked, Slot.effState]
  · subst h1 h2
    obtain ⟨dl, st, sst, ssz, stored, num, asz, fn, dat⟩ := s
    cases st <;> cases sst <;> simp_all [Slot.markUnlocked, Slot.effState]
  · subst h1 h2
    rw [filter_ready_appendEvents, Slot.appendSegment_assembling s k len data hst]
    by_cases hc : s.storedSegments_ + 1 = s.segmentsNum_
    · simp [hc, hst, Slot.effState]
    · simp [hc, hst, Slot.effState]

/-- One call, for the FirstSegment events of a frame whose slot is Assembling or
Ready, locked or not, and expects at least two segments. -/
theorem first_step (f a : Nat) (op : Op) (s s1 : Slot) (evs : List Event)
    (h : SlotStep f a op s s1 evs)
    (hK : s.effState = .StateAssembling ∨ s.effState = .StateReady)
    (hseg : 2 ≤ s.segmentsNum_) :
    (s1.effState = .StateAssembling ∨ s1.effState = .StateReady) ∧
    s1.segmentsNum_ = s.segmentsNum_ ∧
    s.storedSegments_ ≤ s1.storedSegments_ ∧
    (evs.filter (Event.isOf .EventTypeFirstSegment f)).length +
      (if 1 ≤ s.storedSegments_ then 1 else 0) =
      (if 1 ≤ s1.storedSegments_ then 1 else 0) ∧
    ((evs.filter (Event.isOf .EventTypeFirstSegment f)).length ≠ 0 →
      (∃ k len data, op = .appendSegment f k len data) ∧ s1.storedSegments_ = 1) := by
  rcases h with ⟨h1, h2⟩ | ⟨n, sz, _, h1, h2⟩ | ⟨_, h1, h2⟩ | ⟨_, h1, h2⟩ |
    ⟨k, len, data, hop, hst, h1, h2⟩
  · subst h1
    rw [filter_isOf_irrelevant f _ evs (Or.inr rfl) h2]
    simp [hK]
  · subst h1 h2
    obtain ⟨dl, st, sst, ssz, stored, num, asz, fn, dat⟩ := s
    cases st <;> cases sst <;> simp_all [Slot.markAssembling, Slot.effState]
  · subst h1 h2
    obtain ⟨dl, st, sst, ssz, stored, num, asz, fn, dat⟩ := s
    cases st <;> cases sst <;> simp_all [Slot.markLocked, Slot.effState]
  · subst h1 h2
    obtain ⟨dl, st, sst, ssz, stored, num, asz, fn, dat⟩ := s
    cases st <;> cases sst <;> simp_all [Slot.markUnlocked, Slot.effState]
  · subst h1 h2
    rw [filter_first_appendEvents, Slot.appendSegment_assembling s k len data hst]
    refine ⟨?_, rfl, by simp, ?_, ?_⟩
    · by_cases hc : s.storedSegments_ + 1 = s.segmentsNum_ <;> simp [hc, Slot.effState]
    · simp only []
      split_ifs <;> omega
    · intro hne
      refine ⟨⟨k, len, data, hop⟩, ?_⟩
      by_cases h0 : s.storedSegments_ = 0
      · simp [h0]
      · simp [h0] at hne

namespace FrameBuffer

theorem run_append (u : Nat → List Nat → Option (List Nat)) (fb : FrameBuffer)
    (xs ys : List Op) : fb.run u (xs ++ ys) = (fb.run u xs).run u ys := by
  simp [run, List.foldl_append]

theorem run_cons (u : Nat → List Nat → Option (List Nat)) (fb : FrameBuffer)
    (op : Op) (ops : List Op) : fb.run u (op :: ops) = (fb.step u op).run u ops := rfl

theorem runEmitted_append (u : Nat → List Nat → Option (List Nat)) (xs ys : List Op) :
    ∀ fb : FrameBuffer,
      fb.runEmitted u (xs ++ ys) = fb.runEmitted u xs ++ (fb.run u xs).runEmitted u ys := by
  induction xs with
  | nil => intro fb; rfl
  | cons x xs ih =>
    intro fb
    show fb.emitted u x ++ (fb.step u x).runEmitted u (xs ++ ys) = _
    rw [ih]
    simp [runEmitted, run_cons]

theorem staysMapped_append (u : Nat → List Nat → Option (List Nat)) (f : Nat)
    (xs ys : List Op) : ∀ fb : FrameBuffer, fb.staysMapped u f (xs ++ ys) = true →
      fb.staysMapped u f xs = true ∧ (fb.run u xs).staysMapped u f ys = true := by
  induction xs with
  | nil => intro fb h; exact ⟨rfl, h⟩
  | cons x xs ih =>
    intro fb h
    simp only [List.cons_append, staysMapped, Bool.and_eq_true] at h ⊢
    obtain ⟨h1, h2⟩ := ih _ h.2
    exact ⟨⟨h.1, h1⟩, h2⟩

theorem getState_mapped (fb : FrameBuffer) (f a : Nat)
    (h : mapFind fb.frameSlotMapping_ f = some a) :
    (fb.getState f).2 = (fb.deref a).state_ := by
  simp [getState, getFrameSlot_some fb f a h, Slot.getState]

theorem getState_unmapped (fb : FrameBuffer) (f : Nat)
    (h : mapFind fb.frameSlotMapping_ f = none) : (fb.getState f).2 = .StateFree := by
  simp [getState, getFrameSlot_none fb f h]

theorem slotOf_mapped (fb : FrameBuffer) (f a : Nat)
    (h : mapFind fb.frameSlotMapping_ f = some a) : fb.slotOf f = fb.deref a := by
  simp [slotOf, h]

/-- The slot handed out by a `bookSlot` that returns New is New and holds no segment. -/
theorem bookSlot_new_slot (fb fb1 : FrameBuffer) (f : Nat) (h : Inv fb)
    (hbook : fb.bookSlot f = (fb1, .CallResultNew)) :
    ∃ a, mapFind fb1.frameSlotMapping_ f = some a ∧ (fb1.deref a).state_ = .StateNew ∧
      (fb1.deref a).storedSegments_ = 0 := by
  cases hm : mapFind fb.frameSlotMapping_ f with
  | some b =>
    rw [bookSlot_mapped _ f b hm] at hbook
    simp at hbook
  | none =>
    rcases List.eq_nil_or_concat fb.freeSlots_ with he | ⟨rest, b, he⟩
    · rw [bookSlot_full _ f hm he] at hbook
      simp at hbook
    · have he2 : fb.freeSlots_ = rest ++ [b] := by simpa using he
      have hmem : b ∈ fb.freeSlots_ := by rw [he2]; simp
      have hv : b < fb.slots.length :=
        List.mem_range.mp (h.1.1.mem_iff.mp (List.mem_append_left _ hmem))
      have hfree : (fb.deref b).state_ = .StateFree := h.2.1 b hmem
      rw [bookSlot_new fb f b rest hm he2] at hbook
      have hfb1 := (Prod.mk.inj hbook).1
      have hd : fb1.deref b = (fb.deref b).markNew f := by
        rw [← hfb1]
        exact deref_set_self fb _ b _ rfl hv
      refine ⟨b, ?_, ?_, ?_⟩
      · rw [← hfb1]
        simp [withSlot, mapFind_mapInsert_self]
      · rw [hd]
        simp [Slot.markNew, hfree]
      · rw [hd]
        simp [Slot.markNew, hfree]

/-- Along calls that keep `f` mapped, once its slot is Assembling with at least two
segments expected: the invariant, the slot of `f`, and the count of
FirstSegment events, which is one or zero as a segment has been stored or not. -/
theorem first_run (u : Nat → List Nat → Option (List Nat)) (f a : Nat) (ops : List Op) :
    ∀ fb : FrameBuffer, Inv fb → mapFind fb.frameSlotMapping_ f = some a →
    fb.staysMapped u f ops = true →
    ((fb.deref a).effState = .StateAssembling ∨ (fb.deref a).effState = .StateReady) →
    2 ≤ (fb.deref a).segmentsNum_ →
    Inv (fb.run u ops) ∧ mapFind (fb.run u ops).frameSlotMapping_ f = some a ∧
    (((fb.run u ops).deref a).effState = .StateAssembling ∨
      ((fb.run u ops).deref a).effState = .StateReady) ∧
    ((fb.run u ops).deref a).segmentsNum_ = (fb.deref a).segmentsNum_ ∧
    (fb.deref a).storedSegments_ ≤ ((fb.run u ops).deref a).storedSegments_ ∧
    ((fb.runEmitted u ops).filter (Event.isOf .EventTypeFirstSegment f)).length +
      (if 1 ≤ (fb.deref a).storedSegments_ then 1 else 0) =
      (if 1 ≤ ((fb.run u ops).deref a).storedSegments_ then 1 else 0) := by
  induction ops with
  | nil =>
    intro fb h hm _ hK _
    exact ⟨h, hm, hK, rfl, le_refl _, by simp [runEmitted, run]⟩
  | cons op ops ih =>
    intro fb h hm hstay hK hseg
    simp only [staysMapped, Bool.and_eq_true] at hstay
    obtain ⟨hm1, hstep⟩ := step_slot u fb op f a h hm hstay.1
    obtain ⟨hK1, hnum, hle, hcount, _⟩ := first_step f a op _ _ _ hstep hK hseg
    obtain ⟨r1, r2, r3, r4, r5, r6⟩ :=
      ih (fb.step u op) (inv_step u fb op h) hm1 hstay.2 hK1 (by rw [hnum]; exact hseg)
    refine ⟨r1, r2, r3, r4.trans hnum, le_trans hle r5, ?_⟩
    simp only [runEmitted, run_cons, List.filter_append, List.length_append] at r6 ⊢
    omega

/-- C9 as stated fails for a frame of one segment: frame 42 is booked, marked
assembling with `segments_num = 1`, receives its segment (the append returns
CallResultAssembling and brings `storedSegments_` to 1) and is freed; the
calls queue a Ready and a FreeSlot event and no FirstSegment event. -/
theorem firstSegment_single_segment_counterexample :
    ((afterInit (fun _ _ => none) 1 16 []).bookSlot 42).2 = .CallResultNew ∧
    ((afterInit (fun _ _ => none) 1 16
      [.bookSlot 42, .markSlotAssembling 42 1 10]).getState 42).2 = .StateAssembling ∧
    ((afterInit (fun _ _ => none) 1 16
      [.bookSlot 42, .markSlotAssembling 42 1 10]).appendSegment 42 0 5 [1, 2, 3, 4, 5]).2
      = .CallResultAssembling ∧
    ((afterInit (fun _ _ => none) 1 16
      [.bookSlot 42, .markSlotAssembling 42 1 10,
       .appendSegment 42 0 5 [1, 2, 3, 4, 5]]).slotOf 42).storedSegments_ = 1 ∧
    (afterInit (fun _ _ => none) 1 16
      [.bookSlot 42, .markSlotAssembling 42 1 10]).runEmitted (fun _ _ => none)
      [.appendSegment 42 0 5 [1, 2, 3, 4, 5], .markSlotFree 42] =
      [{ type_ := .EventTypeReady, segmentNo_ := 0, frameNo_ := 42, slot_ := some 0 },
       { type_ := .EventTypeFreeSlot, segmentNo_ := 0, frameNo_ := 42, slot_ := some 0 }] ∧
    (((afterInit (fun _ _ => none) 1 16
      [.bookSlot 42, .markSlotAssembling 42 1 10]).runEmitted (fun _ _ => none)
      [.appendSegment 42 0 5 [1, 2, 3, 4, 5], .markSlotFree 42]).filter
        (Event.isOf .EventTypeFirstSegment 42)).length ≠ 1 := by
  decide

/-- FirstSegment events along calls other than `flush`: for a frame `f` whose slot is
New and which is marked assembling with `segments_num >= 2`, and as long as
`f` stays mapped, at most one FirstSegment event about `f` is queued, exactly
one as soon as one `appendSegment` for `f` has returned CallResultAssembling,
and the call that queues it is an `appendSegment` for `f` after which
`storedSegments_` is 1. -/
theorem firstSegment_once_ops (u : Nat → List Nat → Option (List Nat)) (n s : Nat)
    (pre : List Op) (f nseg sz : Nat) (fb1 : FrameBuffer) (ops : List Op)
    (hnew : ((afterInit u n s pre).getState f).2 = .StateNew)
    (hseg : 2 ≤ nseg)
    (hfb1 : fb1 = (afterInit u n s pre).markSlotAssembling f nseg sz)
    (hstay : fb1.staysMapped u f ops = true) :
    ((fb1.runEmitted u ops).filter (Event.isOf .EventTypeFirstSegment f)).length ≤ 1 ∧
    ((∃ before k len data after, ops = before ++ .appendSegment f k len data :: after ∧
        ((fb1.run u before).appendSegment f k len data).2 = .CallResultAssembling) →
      ((fb1.runEmitted u ops).filter (Event.isOf .EventTypeFirstSegment f)).length = 1) ∧
    (∀ before op after, ops = before ++ op :: after →
      ((fb1.run u before).emitted u op).filter (Event.isOf .EventTypeFirstSegment f) ≠ [] →
      (∃ k len data, op = .appendSegment f k len data) ∧
        ((fb1.run u (before ++ [op])).slotOf f).storedSegments_ = 1) := by
  have hinv0 := inv_afterInit u n s pre
  -- the slot of `f` before and after `markSlotAssembling`
  obtain ⟨a, hm0⟩ : ∃ a, mapFind (afterInit u n s pre).frameSlotMapping_ f = some a := by
    cases hm : mapFind (afterInit u n s pre).frameSlotMapping_ f with
    | none =>
      rw [getState_unmapped _ f hm] at hnew
      exact absurd hnew (by decide)
    | some a => exact ⟨a, rfl⟩
  rw [getState_mapped _ f a hm0] at hnew
  have hv := (mapped_slot _ f a hinv0.1 hm0).1
  have hstored0 : ((afterInit u n s pre).deref a).storedSegments_ = 0 :=
    hinv0.2.2 a (by simp [Slot.effState, hnew])
  have hinv1 : Inv fb1 := by
    rw [hfb1]
    exact inv_step u _ (.markSlotAssembling f nseg sz) hinv0
  rw [markSlotAssembling_mapped _ f a nseg sz hm0] at hfb1
  have hm1 : mapFind fb1.frameSlotMapping_ f = some a := by
    rw [hfb1]
    exact hm0
  have hd1 : fb1.deref a = ((afterInit u n s pre).deref a).markAssembling nseg sz := by
    rw [hfb1]
    exact deref_set_self _ _ a _ rfl hv
  have hK1 : (fb1.deref a).effState = .StateAssembling ∨
      (fb1.deref a).effState = .StateReady := by
    left
    rw [hd1]
    simp [Slot.markAssembling, Slot.effState, hnew]
  have hnum1 : (fb1.deref a).segmentsNum_ = nseg := by
    rw [hd1]
    simp [Slot.markAssembling, hnew]
  have hst1 : (fb1.deref a).storedSegments_ = 0 := by
    rw [hd1]
    simp [Slot.markAssembling, hnew, hstored0]
  have hseg1 : 2 ≤ (fb1.deref a).segmentsNum_ := by rw [hnum1]; exact hseg
  obtain ⟨_, _, _, _, _, htotal⟩ := first_run u f a ops fb1 hinv1 hm1 hstay hK1 hseg1
  rw [hst1] at htotal
  refine ⟨?_, ?_, ?_⟩
  · split_ifs at htotal <;> omega
  · rintro ⟨before, k, len, data, after, hops, hacc⟩
    rw [hops] at hstay
    obtain ⟨hs1, hs2⟩ := staysMapped_append u f before _ fb1 hstay
    obtain ⟨r1, r2, r3, r4, _, _⟩ := first_run u f a before fb1 hinv1 hm1 hs1 hK1 hseg1
    simp only [staysMapped, Bool.and_eq_true] at hs2
    have hst : ((fb1.run u before).deref a).state_ = .StateAssembling := by
      by_contra hne
      rw [appendSegment_refused _ f a k len data r2 hne] at hacc
      simp at hacc
    obtain ⟨hm2, hstep⟩ := step_slot u (fb1.run u before) (.appendSegment f k len data)
      f a r1 r2 hs2.1
    obtain ⟨hK2, hnum2, _, _, _⟩ := first_step f a _ _ _ _ hstep r3 (by rw [r4]; exact hseg1)
    have hstored2 : 1 ≤ (((fb1.run u before).step u (.appendSegment f k len data)).deref
        a).storedSegments_ := by
      have hv2 := (mapped_slot _ f a r1.1 r2).1
      have : ((fb1.run u before).step u (.appendSegment f k len data)).deref a =
          (((fb1.run u before).deref a).appendSegment k len data).1 := by
        simp only [step]
        rw [appendSegment_stored _ f a k len data r2 hst]
        exact deref_set_self _ _ a _ rfl hv2
      rw [this, Slot.appendSegment_assembling _ k len data hst]
      simp
    obtain ⟨_, _, _, _, q5, _⟩ := first_run u f a after _
      (inv_step u _ (.appendSegment f k len data) r1) hm2 hs2.2 hK2
      (by rw [hnum2, r4]; exact hseg1)
    have hfinal : 1 ≤ ((fb1.run u ops).deref a).storedSegments_ := by
      rw [hops, run_append, run_cons]
      exact le_trans hstored2 q5
    rw [if_pos hfinal] at htotal
    simpa using htotal
  · intro before op after hops hne
    rw [hops] at hstay
    obtain ⟨hs1, hs2⟩ := staysMapped_append u f before _ fb1 hstay
    obtain ⟨r1, r2, r3, r4, _, _⟩ := first_run u f a before fb1 hinv1 hm1 hs1 hK1 hseg1
    simp only [staysMapped, Bool.and_eq_true] at hs2
    obtain ⟨hm2, hstep⟩ := step_slot u (fb1.run u before) op f a r1 r2 hs2.1
    obtain ⟨_, _, _, _, hwho⟩ := first_step f a _ _ _ _ hstep r3 (by rw [r4]; exact hseg1)
    have hlen : ((((fb1.run u before).emitted u op).filter
        (Event.isOf .EventTypeFirstSegment f)).length ≠ 0) := by
      intro h0
      exact hne (List.eq_nil_of_length_eq_zero h0)
    obtain ⟨w1, w2⟩ := hwho hlen
    refine ⟨w1, ?_⟩
    rw [run_append, run_cons]
    have : ((fb1.run u before).step u op).run u [] = (fb1.run u before).step u op := rfl
    rw [this, slotOf_mapped _ f a hm2]
    exact w2

theorem opsOf_append (xs ys : List Call) : opsOf (xs ++ ys) = opsOf xs ++ opsOf ys := by
  induction xs with
  | nil => rfl
  | cons c cs ih => cases c <;> simp [opsOf, ih]

theorem callsStayMapped_cons (u : Nat → List Nat → Option (List Nat)) (f : Nat)
    (fb : FrameBuffer) (c : Call) (cs : List Call)
    (h : fb.callsStayMapped u f (c :: cs) = true) :
    ∃ r, fb.stepCall u c = some r ∧ (mapFind r.1.frameSlotMapping_ f).isSome = true ∧
      r.1.callsStayMapped u f cs = true := by
  simp only [callsStayMapped] at h
  cases hs : fb.stepCall u c with
  | none => rw [hs] at h; simp at h
  | some r =>
    rw [hs] at h
    simp only [Bool.and_eq_true] at h
    exact ⟨r, rfl, h.1, h.2⟩

/-- Calls that are defined and keep `f` mapped have a result, and their calls other
than `flush` keep `f` mapped. -/
theorem callsStayMapped_ops (u : Nat → List Nat → Option (List Nat)) (f : Nat)
    (calls : List Call) : ∀ fb : FrameBuffer, fb.callsStayMapped u f calls = true →
      (∃ r, fb.runCalls u calls = some r) ∧ fb.staysMapped u f (opsOf calls) = true := by
  induction calls with
  | nil => intro fb _; exact ⟨⟨_, rfl⟩, rfl⟩
  | cons c cs ih =>
    intro fb h
    obtain ⟨r, hs, hm, hrest⟩ := callsStayMapped_cons u f fb c cs h
    cases c with
    | flush =>
      have hr := stepCall_flush u fb r hs
      subst hr
      obtain ⟨⟨r2, h2⟩, h3⟩ := ih fb hrest
      refine ⟨⟨r2, ?_⟩, h3⟩
      simp only [runCalls, hs, h2, List.nil_append]
    | op o =>
      rw [stepCall_op] at hs
      rw [← Option.some.inj hs] at hm hrest
      obtain ⟨⟨r2, h2⟩, h3⟩ := ih _ hrest
      refine ⟨⟨(r2.1, fb.emitted u o ++ r2.2), by rw [runCalls_op, h2]⟩, ?_⟩
      simp only [opsOf, staysMapped, Bool.and_eq_true]
      exact ⟨hm, h3⟩

theorem callsStayMapped_append (u : Nat → List Nat → Option (List Nat)) (f : Nat)
    (xs ys : List Call) : ∀ fb : FrameBuffer, fb.callsStayMapped u f (xs ++ ys) = true →
      fb.callsStayMapped u f xs = true ∧
      ∀ r, fb.runCalls u xs = some r → r.1.callsStayMapped u f ys = true := by
  induction xs with
  | nil =>
    intro fb h
    refine ⟨rfl, ?_⟩
    intro r hr
    rw [runCalls_nil] at hr
    rw [← Option.some.inj hr]
    exact h
  | cons c cs ih =>
    intro fb h
    obtain ⟨r, hs, hm, hrest⟩ := callsStayMapped_cons u f fb c (cs ++ ys) h
    obtain ⟨h1, h2⟩ := ih r.1 hrest
    refine ⟨?_, ?_⟩
    · simp only [callsStayMapped, hs, hm, h1, Bool.and_self]
    · intro r3 hr3
      simp only [runCalls, hs] at hr3
      cases hr : r.1.runCalls u cs with
      | none => rw [hr] at hr3; simp at hr3
      | some r2 =>
        rw [hr] at hr3
        have h4 := h2 r2 hr
        simp only [Option.some.injEq] at hr3
        rw [← hr3]
        exact h4

theorem run_single (u : Nat → List Nat → Option (List Nat)) (fb : FrameBuffer) (o : Op) :
    fb.run u [o] = fb.step u o := rfl

/-- C9, amended: on a buffer reached by `init` and any calls, `flush` included, for a
frame `f` whose slot is New and which is marked assembling with
`segments_num >= 2`, and along calls that are defined and keep `f` mapped (up
to its next successful `markSlotFree`, or to a `flush` that erases an entry):
the calls have a result, at most one FirstSegment event about `f` is queued,
exactly one as soon as one `appendSegment` for `f` has returned
CallResultAssembling, and the call that queues it is an `appendSegment` for `f`
after which `storedSegments_` is 1. -/
theorem firstSegment_exactly_once (u : Nat → List Nat → Option (List Nat)) (n s : Nat)
    (pre : List Call) (f nseg sz : Nat) (r0 : FrameBuffer × List Event) (fb1 : FrameBuffer)
    (calls : List Call)
    (hpre : (FrameBuffer.new.init n s).1.runCalls u pre = some r0)
    (hnew : (r0.1.getState f).2 = .StateNew)
    (hseg : 2 ≤ nseg)
    (hfb1 : fb1 = r0.1.markSlotAssembling f nseg sz)
    (hstay : fb1.callsStayMapped u f calls = true) :
    ∃ r, fb1.runCalls u calls = some r ∧
      (r.2.filter (Event.isOf .EventTypeFirstSegment f)).length ≤ 1 ∧
      ((∃ before k len data after rB,
          calls = before ++ Call.op (.appendSegment f k len data) :: after ∧
          fb1.runCalls u before = some rB ∧
          (rB.1.appendSegment f k len data).2 = .CallResultAssembling) →
        (r.2.filter (Event.isOf .EventTypeFirstSegment f)).length = 1) ∧
      (∀ before c after rB, calls = before ++ c :: after →
        fb1.runCalls u before = some rB →
        ∃ rA, rB.1.stepCall u c = some rA ∧
          (rA.2.filter (Event.isOf .EventTypeFirstSegment f) ≠ [] →
            (∃ k len data, c = .op (.appendSegment f k len data)) ∧
              (rA.1.slotOf f).storedSegments_ = 1)) := by
  have hfb0 : r0.1 = afterInit u n s (opsOf pre) := (runCalls_ops u pre _ r0 hpre).1
  rw [hfb0] at hnew hfb1
  obtain ⟨⟨r, hr⟩, hstayOps⟩ := callsStayMapped_ops u f calls fb1 hstay
  obtain ⟨h1, h2, h3⟩ := firstSegment_once_ops u n s (opsOf pre) f nseg sz fb1 (opsOf calls)
    hnew hseg hfb1 hstayOps
  have hev := (runCalls_ops u calls fb1 r hr).2
  refine ⟨r, hr, ?_, ?_, ?_⟩
  · rw [hev]
    exact h1
  · rintro ⟨before, k, len, data, after, rB, hcalls, hB, hacc⟩
    rw [hev]
    apply h2
    refine ⟨opsOf before, k, len, data, opsOf after, by rw [hcalls, opsOf_append]; rfl, ?_⟩
    rw [← (runCalls_ops u before fb1 rB hB).1]
    exact hacc
  · intro before c after rB hcalls hB
    have hsplit := callsStayMapped_append u f before (c :: after) fb1
      (by rw [← hcalls]; exact hstay)
    obtain ⟨rA, hs, _, _⟩ := callsStayMapped_cons u f rB.1 c after (hsplit.2 rB hB)
    refine ⟨rA, hs, ?_⟩
    have hBeq := (runCalls_ops u before fb1 rB hB).1
    cases c with
    | flush =>
      have hA := stepCall_flush u rB.1 rA hs
      rw [hA]
      intro hne
      exact absurd rfl hne
    | op o =>
      rw [stepCall_op] at hs
      rw [← Option.some.inj hs]
      intro hne
      have h4 := h3 (opsOf before) o (opsOf after) (by rw [hcalls, opsOf_append]; rfl)
        (by rw [← hBeq]; exact hne)
      rw [run_append, run_single, ← hBeq] at h4
      obtain ⟨⟨k, len, data, ho⟩, hst⟩ := h4
      exact ⟨⟨k, len, data, by rw [ho]⟩, hst⟩

/-- C9 amended, on scenario 1 of the spec with a `flush` made while frame 42, the only
mapped frame, is Locked: frame 42 with three segments gets exactly one
FirstSegment event. -/
theorem firstSegment_exactly_once_witness :
    ((((FrameBuffer.new.init 2 12).1.bookSlot 42).1.getState 42).2 = .StateNew) ∧
    ∃ r, (((FrameBuffer.new.init 2 12).1.bookSlot 42).1.markSlotAssembling 42 3 4).runCalls
      (fun _ _ => none)
      [.op (.appendSegment 42 0 4 [1, 2, 3, 4]), .op (.appendSegment 42 0 4 [1, 2, 3, 4]),
       .op (.lockSlot 42), .flush, .op (.unlockSlot 42),
       .op (.appendSegment 42 2 3 [9, 9, 9])] = some r ∧
      (r.2.filter (Event.isOf .EventTypeFirstSegment 42)).length = 1 :=
  ⟨by decide,
   match firstSegment_exactly_once (fun _ _ => none) 2 12 [.op (.bookSlot 42)] 42 3 4
    (((FrameBuffer.new.init 2 12).1.bookSlot 42).1,
      (FrameBuffer.new.init 2 12).1.emitted (fun _ _ => none) (.bookSlot 42))
    (((FrameBuffer.new.init 2 12).1.bookSlot 42).1.markSlotAssembling 42 3 4)
    [.op (.appendSegment 42 0 4 [1, 2, 3, 4]), .op (.appendSegment 42 0 4 [1, 2, 3, 4]),
     .op (.lockSlot 42), .flush, .op (.unlockSlot 42),
     .op (.appendSegment 42 2 3 [9, 9, 9])]
    (by decide) (by decide) (by decide) rfl (by decide) with
   | ⟨r, hr, _, h2, _⟩ =>
     ⟨r, hr, h2 ⟨[], 0, 4, [1, 2, 3, 4],
       [.op (.appendSegment 42 0 4 [1, 2, 3, 4]), .op (.lockSlot 42), .flush,
        .op (.unlockSlot 42), .op (.appendSegment 42 2 3 [9, 9, 9])],
       ((((FrameBuffer.new.init 2 12).1.bookSlot 42).1.markSlotAssembling 42 3 4), []),
       rfl, rfl, by decide⟩⟩⟩

end FrameBuffer

/-! ## Calls on an unknown frame, freeing, locking -/

namespace FrameBuffer

/-- C19: for a frame `f` that is not mapped, `markSlotAssembling`, `appendSegment`,
`notifySegmentTimeout`, `lockSlot`, `unlockSlot` and `markSlotFree` return the
buffer as it was (free list, map, every slot, event queue); `appendSegment`
returns CallResultNotFound, `getState` returns Free and `getEncodedImage`
returns the null pointer. -/
theorem unknown_frame_absorbed (u : Nat → List Nat → Option (List Nat)) (fb : FrameBuffer)
    (f : Nat) (h : mapFind fb.frameSlotMapping_ f = none) :
    (∀ n sz, fb.markSlotAssembling f n sz = fb) ∧
    (∀ k len data, fb.appendSegment f k len data = (fb, .CallResultNotFound)) ∧
    (∀ k, fb.notifySegmentTimeout f k = fb) ∧
    fb.lockSlot f = fb ∧ fb.unlockSlot f = fb ∧ fb.markSlotFree f = fb ∧
    fb.getState f = (fb, .StateFree) ∧ fb.getEncodedImage u f = (fb, none) := by
  refine ⟨fun n sz => markSlotAssembling_unmapped fb f n sz h,
    fun k len data => appendSegment_unmapped fb f k len data h,
    fun k => notifySegmentTimeout_unmapped fb f k h,
    lockSlot_unmapped fb f h, unlockSlot_unmapped fb f h, markSlotFree_unmapped fb f h, ?_, ?_⟩
  · simp [getState, getFrameSlot_none fb f h]
  · simp [getEncodedImage, getFrameSlot_none fb f h]

/-- C19, at a buffer of two slots with frame 7 booked and frame 9 unknown. -/
theorem unknown_frame_absorbed_witness :
    mapFind (afterInit (fun _ _ => none) 2 4 [.bookSlot 7]).frameSlotMapping_ 9 = none ∧
    (afterInit (fun _ _ => none) 2 4 [.bookSlot 7]).appendSegment 9 0 2 [1, 2] =
      (afterInit (fun _ _ => none) 2 4 [.bookSlot 7], .CallResultNotFound) ∧
    (afterInit (fun _ _ => none) 2 4 [.bookSlot 7]).markSlotFree 9 =
      afterInit (fun _ _ => none) 2 4 [.bookSlot 7] :=
  have h := unknown_frame_absorbed (fun _ _ => none)
    (afterInit (fun _ _ => none) 2 4 [.bookSlot 7]) 9 (by decide)
  ⟨by decide, h.2.1 0 2 [1, 2], h.2.2.2.2.2.1⟩

end FrameBuffer

namespace FrameBuffer

/-- C18: for a mapped frame `f` whose slot is New, Assembling or Ready,
`markSlotFree f` unmaps `f`, leaves the slot Free, pushes it at the back (the
top) of `freeSlots_` and queues exactly one FreeSlot event with `frameNo_ = f`;
afterwards `getState f` is Free, and the next `bookSlot g` of an unmapped `g`
returns New and hands out that very slot, in state New. -/
theorem markSlotFree_then_book (fb : FrameBuffer) (f a : Nat)
    (hm : mapFind fb.frameSlotMapping_ f = some a)
    (hst : (fb.deref a).state_ = .StateNew ∨ (fb.deref a).state_ = .StateAssembling ∨
      (fb.deref a).state_ = .StateReady) :
    mapFind (fb.markSlotFree f).frameSlotMapping_ f = none ∧
    (fb.markSlotFree f).frameSlotMapping_ = mapErase fb.frameSlotMapping_ f ∧
    ((fb.markSlotFree f).deref a).state_ = .StateFree ∧
    (fb.markSlotFree f).freeSlots_ = fb.freeSlots_ ++ [a] ∧
    (fb.markSlotFree f).pendingEvents_ = fb.pendingEvents_ ++
      [{ type_ := .EventTypeFreeSlot, segmentNo_ := 0, frameNo_ := f, slot_ := some a }] ∧
    ((fb.markSlotFree f).getState f).2 = .StateFree ∧
    ∀ g, mapFind (fb.markSlotFree f).frameSlotMapping_ g = none →
      ((fb.markSlotFree f).bookSlot g).2 = .CallResultNew ∧
      mapFind ((fb.markSlotFree f).bookSlot g).1.frameSlotMapping_ g = some a ∧
      (((fb.markSlotFree f).bookSlot g).1.deref a).state_ = .StateNew ∧
      ((fb.markSlotFree f).bookSlot g).1.freeSlots_ = fb.freeSlots_ := by
  have hl : (fb.deref a).state_ ≠ .StateLocked := by
    rcases hst with h | h | h <;> rw [h] <;> decide
  have hv : a < fb.slots.length := deref_state_valid fb a (by
    rcases hst with h | h | h <;> rw [h] <;> decide)
  have hfree : ((fb.markSlotFree f).deref a).state_ = .StateFree := by
    rw [markSlotFree_mapped fb f a hm hl, deref_mk_set_self fb _ _ _ _ _ _ a _ hv]
    simp [Slot.markFree, hl]
  have hvalid : a < (fb.markSlotFree f).slots.length := by
    rw [markSlotFree_mapped fb f a hm hl]
    simpa using hv
  have hunm : mapFind (fb.markSlotFree f).frameSlotMapping_ f = none := by
    rw [markSlotFree_mapped fb f a hm hl]
    exact mapFind_mapErase_self _ _
  refine ⟨hunm, ?_, hfree, ?_, ?_, getState_unmapped _ f hunm, ?_⟩
  · rw [markSlotFree_mapped fb f a hm hl]
  · rw [markSlotFree_mapped fb f a hm hl]
  · rw [markSlotFree_mapped fb f a hm hl]
  · intro g hg
    have hfl : (fb.markSlotFree f).freeSlots_ = fb.freeSlots_ ++ [a] := by
      rw [markSlotFree_mapped fb f a hm hl]
    rw [bookSlot_new (fb.markSlotFree f) g a fb.freeSlots_ hg hfl]
    refine ⟨rfl, ?_, ?_, rfl⟩
    · simp [withSlot, mapFind_mapInsert_self]
    · have hd : (({ (fb.markSlotFree f) with
            freeSlots_ := fb.freeSlots_
            frameSlotMapping_ := mapInsert (fb.markSlotFree f).frameSlotMapping_ g a } :
          FrameBuffer).withSlot a (fun s => s.markNew g)).deref a =
          ((fb.markSlotFree f).deref a).markNew g :=
        deref_set_self (fb.markSlotFree f) _ a _ rfl hvalid
      rw [hd]
      simp [Slot.markNew, hfree]

/-- C18, on scenario 2 of the spec: one slot, frame 1 booked and freed, then frame 2 is
booked New into the same slot 0. -/
theorem markSlotFree_then_book_witness :
    ((afterInit (fun _ _ => none) 1 4 [.bookSlot 1]).bookSlot 2).2 = .CallResultFull ∧
    ((afterInit (fun _ _ => none) 1 4 [.bookSlot 1]).markSlotFree 1).pendingEvents_ =
      [{ type_ := .EventTypeFreeSlot, segmentNo_ := 0, frameNo_ := 0, slot_ := some 0 },
       { type_ := .EventTypeFreeSlot, segmentNo_ := 0, frameNo_ := 1, slot_ := some 0 }] ∧
    (((afterInit (fun _ _ => none) 1 4 [.bookSlot 1]).markSlotFree 1).bookSlot 2).2 =
      .CallResultNew ∧
    mapFind (((afterInit (fun _ _ => none) 1 4 [.bookSlot 1]).markSlotFree 1).bookSlot
      2).1.frameSlotMapping_ 2 = some 0 :=
  have h := markSlotFree_then_book (afterInit (fun _ _ => none) 1 4 [.bookSlot 1]) 1 0
    (by decide) (by decide)
  ⟨by decide, h.2.2.2.2.1.trans (by decide), (h.2.2.2.2.2.2 2 (by decide)).1,
   (h.2.2.2.2.2.2 2 (by decide)).2.1⟩

end FrameBuffer

namespace FrameBuffer

theorem Slot_markUnlocked_markLocked (s : Slot)
    (hst : s.state_ = .StateNew ∨ s.state_ = .StateAssembling ∨ s.state_ = .StateReady) :
    s.markLocked.state_ = .StateLocked ∧
    s.markLocked.markUnlocked = { s with stashedState_ := s.state_ } := by
  obtain ⟨dl, st, sst, ssz, stored, num, asz, fn, dat⟩ := s
  rcases hst with h | h | h <;> simp only at h <;> subst h <;>
    simp [Slot.markLocked, Slot.markUnlocked]

/-- C13: for a mapped frame `f` whose slot is in state `q`, one of New, Assembling
and Ready, `getState f` is Locked after `lockSlot f` and `q` again after the
following `unlockSlot f`; the buffer after the round trip is the buffer before
the lock, up to `stashedState_` of that slot, which now holds `q`: counters,
bytes, pool and event queue are the same. -/
theorem lock_unlock_roundtrip (fb : FrameBuffer) (f a : Nat)
    (hm : mapFind fb.frameSlotMapping_ f = some a)
    (hst : (fb.deref a).state_ = .StateNew ∨ (fb.deref a).state_ = .StateAssembling ∨
      (fb.deref a).state_ = .StateReady) :
    ((fb.lockSlot f).getState f).2 = .StateLocked ∧
    (((fb.lockSlot f).unlockSlot f).getState f).2 = (fb.deref a).state_ ∧
    (fb.lockSlot f).unlockSlot f =
      fb.withSlot a (fun s => { s with stashedState_ := s.state_ }) := by
  have hv : a < fb.slots.length := deref_state_valid fb a (by
    rcases hst with h | h | h <;> rw [h] <;> decide)
  obtain ⟨h1, h2⟩ := Slot_markUnlocked_markLocked (fb.deref a) hst
  have hlock : fb.lockSlot f = fb.withSlot a Slot.markLocked := lockSlot_mapped fb f a hm
  have hm1 : mapFind (fb.lockSlot f).frameSlotMapping_ f = some a := by
    rw [hlock]; exact hm
  have hd1 : (fb.lockSlot f).deref a = (fb.deref a).markLocked := by
    rw [hlock]; exact deref_withSlot_self fb a _ hv
  have hround : (fb.lockSlot f).unlockSlot f =
      fb.withSlot a (fun s => { s with stashedState_ := s.state_ }) := by
    rw [unlockSlot_mapped _ f a hm1]
    unfold withSlot
    rw [hd1, h2, hlock]
    simp [withSlot]
  refine ⟨?_, ?_, hround⟩
  · rw [getState_mapped _ f a hm1, hd1]
    exact h1
  · have hm2 : mapFind (fb.withSlot a
        (fun s => { s with stashedState_ := s.state_ })).frameSlotMapping_ f = some a := hm
    rw [hround, getState_mapped _ f a hm2, deref_withSlot_self fb a _ hv]

/-- C13, at a frame that is Assembling with one segment stored. -/
theorem lock_unlock_roundtrip_witness :
    ((afterInit (fun _ _ => none) 1 8 [.bookSlot 5, .markSlotAssembling 5 2 4,
      .appendSegment 5 0 4 [1, 2, 3, 4]]).getState 5).2 = .StateAssembling ∧
    ((afterInit (fun _ _ => none) 1 8 [.bookSlot 5, .markSlotAssembling 5 2 4,
      .appendSegment 5 0 4 [1, 2, 3, 4], .lockSlot 5]).getState 5).2 = .StateLocked ∧
    ((afterInit (fun _ _ => none) 1 8 [.bookSlot 5, .markSlotAssembling 5 2 4,
      .appendSegment 5 0 4 [1, 2, 3, 4], .lockSlot 5, .unlockSlot 5]).getState 5).2
      = .StateAssembling :=
  have h := lock_unlock_roundtrip (afterInit (fun _ _ => none) 1 8
    [.bookSlot 5, .markSlotAssembling 5 2 4, .appendSegment 5 0 4 [1, 2, 3, 4]]) 5 0
    (by decide) (by decide)
  ⟨by decide, h.1, h.2.1.trans (by decide)⟩

end FrameBuffer

/-! ## The event queue -/

theorem eraseIdx_append_cons {α : Type} (pre : List α) (x : α) (post : List α) :
    (pre ++ x :: post).eraseIdx pre.length = pre ++ post := by
  induction pre with
  | nil => rfl
  | cons y pre ih => simp [List.eraseIdx, ih]

theorem getD_append_cons {α : Type} (pre : List α) (x d : α) (post : List α) :
    (pre ++ x :: post).getD pre.length d = x := by
  induction pre with
  | nil => rfl
  | cons y pre ih => simpa using ih

namespace FrameBuffer

theorem scanEvents_none (mask : Nat) (evs : List Event) :
    scanEvents mask evs = none ↔ ∀ ev ∈ evs, ev.type_.bits &&& mask = 0 := by
  induction evs with
  | nil => simp [scanEvents]
  | cons e evs ih =>
    unfold scanEvents
    by_cases h : e.type_.bits &&& mask = 0
    · simp [h, ih]
    · simp [h]

theorem scanEvents_some (mask : Nat) (evs : List Event) : ∀ i, scanEvents mask evs = some i →
    ∃ pre ev post, evs = pre ++ ev :: post ∧ pre.length = i ∧
      (∀ e ∈ pre, e.type_.bits &&& mask = 0) ∧ ev.type_.bits &&& mask ≠ 0 := by
  induction evs with
  | nil => intro i h; simp [scanEvents] at h
  | cons e evs ih =>
    intro i h
    unfold scanEvents at h
    by_cases hc : e.type_.bits &&& mask = 0
    · simp only [hc, ne_eq, not_true_eq_false, if_false, Option.map_eq_some'] at h
      obtain ⟨j, hj, hij⟩ := h
      obtain ⟨pre, ev, post, h1, h2, h3, h4⟩ := ih j hj
      refine ⟨e :: pre, ev, post, by rw [h1]; rfl, by simp [h2, ← hij], ?_, h4⟩
      intro x hx
      rcases List.mem_cons.mp hx with hx | hx
      · rw [hx]; exact hc
      · exact h3 x hx
    · simp only [ne_eq, hc, not_false_eq_true, if_true, Option.some.injEq] at h
      exact ⟨[], e, evs, rfl, h, by simp, hc⟩

theorem waitLoop_found (mask : Nat) (fb : FrameBuffer) (signals i : Nat)
    (h : scanEvents mask fb.pendingEvents_ = some i) :
    waitLoop mask fb signals =
      ({ fb with pendingEvents_ := fb.pendingEvents_.eraseIdx i },
        fb.pendingEvents_.getD i errorEvent) := by
  cases signals <;> simp [waitLoop, h]

theorem waitLoop_none (mask : Nat) (fb : FrameBuffer) (signals : Nat)
    (h : scanEvents mask fb.pendingEvents_ = none) :
    waitLoop mask fb signals = (fb, errorEvent) := by
  induction signals with
  | zero => simp [waitLoop, h]
  | succ k ih => simp [waitLoop, h, ih]

/-- C15: when some pending event meets the mask, `waitForEvents` returns the first
such event of the queue whatever the semaphore does, and the queue it leaves
is the old one without that single event: the events before it and after it
stay, in their order. -/
theorem waitForEvents_pops_first (fb : FrameBuffer) (mask signals : Nat)
    (h : ∃ ev ∈ fb.pendingEvents_, ev.type_.bits &&& mask ≠ 0) :
    ∃ pre ev post, fb.pendingEvents_ = pre ++ ev :: post ∧
      (∀ e ∈ pre, e.type_.bits &&& mask = 0) ∧ ev.type_.bits &&& mask ≠ 0 ∧
      fb.waitForEvents mask signals =
        ({ fb with pendingEvents_ := pre ++ post, forcedRelease_ := false }, ev) := by
  cases hs : scanEvents mask fb.pendingEvents_ with
  | none =>
    obtain ⟨ev, hev, hne⟩ := h
    exact absurd ((scanEvents_none mask _).mp hs ev hev) hne
  | some i =>
    obtain ⟨pre, ev, post, h1, h2, h3, h4⟩ := scanEvents_some mask _ i hs
    refine ⟨pre, ev, post, h1, h3, h4, ?_⟩
    unfold waitForEvents
    rw [waitLoop_found mask { fb with forcedRelease_ := false } signals i hs]
    simp only [h1, ← h2, eraseIdx_append_cons, getD_append_cons]

/-- C15, at a queue of three events and the mask of Ready: the Ready event in the
middle is returned and removed, the FreeSlot and Timeout events stay. -/
theorem waitForEvents_pops_first_witness :
    ((afterInit (fun _ _ => none) 1 4 [.bookSlot 3, .markSlotAssembling 3 1 4,
      .appendSegment 3 0 4 [1, 2, 3, 4], .notifySegmentTimeout 3 1]).waitForEvents 1 0).2 =
      { type_ := .EventTypeReady, segmentNo_ := 0, frameNo_ := 3, slot_ := some 0 } ∧
    ((afterInit (fun _ _ => none) 1 4 [.bookSlot 3, .markSlotAssembling 3 1 4,
      .appendSegment 3 0 4 [1, 2, 3, 4],
      .notifySegmentTimeout 3 1]).waitForEvents 1 0).1.pendingEvents_ =
      [{ type_ := .EventTypeFreeSlot, segmentNo_ := 0, frameNo_ := 0, slot_ := some 0 },
       { type_ := .EventTypeTimeout, segmentNo_ := 1, frameNo_ := 3, slot_ := some 0 }] :=
  have h := waitForEvents_pops_first (afterInit (fun _ _ => none) 1 4
    [.bookSlot 3, .markSlotAssembling 3 1 4, .appendSegment 3 0 4 [1, 2, 3, 4],
     .notifySegmentTimeout 3 1]) 1 0
    ⟨{ type_ := .EventTypeReady, segmentNo_ := 0, frameNo_ := 3, slot_ := some 0 },
      by decide, by decide⟩
  h.elim fun _ _ => ⟨by decide, by decide⟩

/-- C16: when no pending event meets the mask, `waitForEvents` returns, once the
wait on the semaphore times out, the Error event with frame and segment
number 0 and a null slot, and the queue is as it was; with the mask 0 this is
so for every queue. -/
theorem waitForEvents_timeout (fb : FrameBuffer) (mask signals : Nat)
    (h : ∀ ev ∈ fb.pendingEvents_, ev.type_.bits &&& mask = 0) :
    fb.waitForEvents mask signals = ({ fb with forcedRelease_ := false }, errorEvent) ∧
    errorEvent = { type_ := .EventTypeError, segmentNo_ := 0, frameNo_ := 0, slot_ := none } ∧
    (fb.waitForEvents mask signals).1.pendingEvents_ = fb.pendingEvents_ ∧
    ∀ (fb1 : FrameBuffer) (signals1 : Nat),
      fb1.waitForEvents 0 signals1 = ({ fb1 with forcedRelease_ := false }, errorEvent) := by
  have key : ∀ (fb1 : FrameBuffer) (m s1 : Nat),
      (∀ ev ∈ fb1.pendingEvents_, ev.type_.bits &&& m = 0) →
      fb1.waitForEvents m s1 = ({ fb1 with forcedRelease_ := false }, errorEvent) := by
    intro fb1 m s1 h1
    unfold waitForEvents
    exact waitLoop_none m _ s1 ((scanEvents_none m _).mpr h1)
  refine ⟨key fb mask signals h, rfl, ?_, ?_⟩
  · rw [key fb mask signals h]
  · intro fb1 s1
    exact key fb1 0 s1 (fun ev _ => Nat.and_zero _)

/-- C16, on scenario 6 of the spec (empty queue, mask of Ready) and at a queue holding a
FreeSlot event only. -/
theorem waitForEvents_timeout_witness :
    (FrameBuffer.new.waitForEvents 1 0).2 = errorEvent ∧
    ((afterInit (fun _ _ => none) 1 4 []).waitForEvents 1 3).2 = errorEvent ∧
    ((afterInit (fun _ _ => none) 1 4 []).waitForEvents 1 3).1.pendingEvents_ =
      (afterInit (fun _ _ => none) 1 4 []).pendingEvents_ :=
  have h0 := waitForEvents_timeout FrameBuffer.new 1 0 (by decide)
  have h1 := waitForEvents_timeout (afterInit (fun _ _ => none) 1 4 []) 1 3 (by decide)
  ⟨by rw [h0.1], by rw [h1.1], h1.2.2.1⟩

end FrameBuffer

/-! ## Reading a frame -/

namespace FrameBuffer

theorem getEncodedImage_mapped (u : Nat → List Nat → Option (List Nat)) (fb : FrameBuffer)
    (f a : Nat) (h : mapFind fb.frameSlotMapping_ f = some a) :
    (fb.getEncodedImage u f).2 =
      if (fb.deref a).state_ = .StateReady then (fb.deref a).getFrame u else none := by
  simp only [getEncodedImage, getFrameSlot_some fb f a h, Slot.getState]
  split_ifs <;> rfl

/-- C14 as stated fails: frame 1 reaches Ready and `getEncodedImage` returns its four
bytes (the codec here hands back the assembled bytes); after `lockSlot` and
an ignored `markSlotFree`, `getEncodedImage` returns the null pointer. -/
theorem getEncodedImage_locked_counterexample :
    ((afterInit (fun n d => some (d.take n)) 1 4 [.bookSlot 1, .markSlotAssembling 1 1 4,
      .appendSegment 1 0 4 [1, 2, 3, 4]]).getState 1).2 = .StateReady ∧
    ((afterInit (fun n d => some (d.take n)) 1 4 [.bookSlot 1, .markSlotAssembling 1 1 4,
      .appendSegment 1 0 4 [1, 2, 3, 4]]).getEncodedImage (fun n d => some (d.take n)) 1).2
      = some [1, 2, 3, 4] ∧
    afterInit (fun n d => some (d.take n)) 1 4 [.bookSlot 1, .markSlotAssembling 1 1 4,
      .appendSegment 1 0 4 [1, 2, 3, 4], .lockSlot 1, .markSlotFree 1] =
      afterInit (fun n d => some (d.take n)) 1 4 [.bookSlot 1, .markSlotAssembling 1 1 4,
      .appendSegment 1 0 4 [1, 2, 3, 4], .lockSlot 1] ∧
    ((afterInit (fun n d => some (d.take n)) 1 4 [.bookSlot 1, .markSlotAssembling 1 1 4,
      .appendSegment 1 0 4 [1, 2, 3, 4], .lockSlot 1, .markSlotFree 1]).getEncodedImage
        (fun n d => some (d.take n)) 1).2 = none := by
  decide

/-- C14, amended: for a mapped frame `f` whose slot is Ready, after `lockSlot f` the
call `markSlotFree f` is ignored and `getEncodedImage f` returns the null
pointer, since it serves slots in state Ready only; the frame is still held:
`getFrame` on the locked slot gives what `getEncodedImage f` gave before the
lock, and so does `getEncodedImage f` after `unlockSlot f`. -/
theorem getEncodedImage_across_lock (u : Nat → List Nat → Option (List Nat))
    (fb : FrameBuffer) (f a : Nat) (hm : mapFind fb.frameSlotMapping_ f = some a)
    (hst : (fb.deref a).state_ = .StateReady) :
    (fb.getEncodedImage u f).2 = u (fb.deref a).assembledDataSize_ (fb.deref a).data_ ∧
    (fb.lockSlot f).markSlotFree f = fb.lockSlot f ∧
    (((fb.lockSlot f).markSlotFree f).getEncodedImage u f).2 = none ∧
    (((fb.lockSlot f).markSlotFree f).deref a).getFrame u = (fb.getEncodedImage u f).2 ∧
    ((((fb.lockSlot f).markSlotFree f).unlockSlot f).getEncodedImage u f).2 =
      (fb.getEncodedImage u f).2 := by
  have hv : a < fb.slots.length := deref_state_valid fb a (by rw [hst]; decide)
  have hlock : fb.lockSlot f = fb.withSlot a Slot.markLocked := lockSlot_mapped fb f a hm
  have hm1 : mapFind (fb.lockSlot f).frameSlotMapping_ f = some a := by
    rw [hlock]; exact hm
  have hd1 : (fb.lockSlot f).deref a = (fb.deref a).markLocked := by
    rw [hlock]; exact deref_withSlot_self fb a _ hv
  have hl : ((fb.lockSlot f).deref a).state_ = .StateLocked := by
    rw [hd1]; simp [Slot.markLocked, hst]
  have hfree : (fb.lockSlot f).markSlotFree f = fb.lockSlot f :=
    markSlotFree_locked _ f a hm1 hl
  have h0 : (fb.getEncodedImage u f).2 =
      u (fb.deref a).assembledDataSize_ (fb.deref a).data_ := by
    rw [getEncodedImage_mapped u fb f a hm]
    simp [hst, Slot.getFrame]
  have hd2 : ((fb.lockSlot f).unlockSlot f).deref a =
      (fb.deref a).markLocked.markUnlocked := by
    rw [unlockSlot_mapped _ f a hm1, ← hd1]
    exact deref_withSlot_self _ a _ (by rw [hlock]; simpa [withSlot] using hv)
  have hm2 : mapFind ((fb.lockSlot f).unlockSlot f).frameSlotMapping_ f = some a := by
    rw [unlockSlot_mapped _ f a hm1]; exact hm1
  refine ⟨h0, hfree, ?_, ?_, ?_⟩
  · rw [hfree, getEncodedImage_mapped u _ f a hm1, hl]
    simp
  · rw [hfree, hd1, h0]
    simp [Slot.getFrame, Slot.markLocked, hst]
  · rw [hfree, getEncodedImage_mapped u _ f a hm2, hd2, h0]
    simp [Slot.getFrame, Slot.markLocked, Slot.markUnlocked, hst]

/-- C14 amended, on the frame of the counterexample: null while Locked, the four bytes
again after `unlockSlot`. -/
theorem getEncodedImage_across_lock_witness :
    ((afterInit (fun n d => some (d.take n)) 1 4 [.bookSlot 1, .markSlotAssembling 1 1 4,
      .appendSegment 1 0 4 [1, 2, 3, 4], .lockSlot 1, .markSlotFree 1,
      .unlockSlot 1]).getEncodedImage (fun n d => some (d.take n)) 1).2 = some [1, 2, 3, 4] :=
  ((getEncodedImage_across_lock (fun n d => some (d.take n))
    (afterInit (fun n d => some (d.take n)) 1 4 [.bookSlot 1, .markSlotAssembling 1 1 4,
      .appendSegment 1 0 4 [1, 2, 3, 4]]) 1 0 (by decide) (by decide)).2.2.2.2).trans
    (by decide)

end FrameBuffer

/-! ## A second `init` -/

namespace FrameBuffer

/-- A second `init` after calls other than `flush`: it returns 0 and records
`bufferSize_ = n2` and `slotSize_ = s2`, and the pool it leaves holds the slots
of both calls of `init`. -/
theorem reinit_ops (u : Nat → List Nat → Option (List Nat)) (n1 s1 n2 s2 : Nat)
    (hn1 : 0 < n1) (hs1 : 0 < s1) (hn2 : 0 < n2) (hs2 : 0 < s2) (ops : List Op) :
    ((afterInit u n1 s1 ops).init n2 s2).2 = 0 ∧
    ((afterInit u n1 s1 ops).init n2 s2).1.bufferSize_ = n2 ∧
    ((afterInit u n1 s1 ops).init n2 s2).1.slotSize_ = s2 ∧
    PoolInv ((afterInit u n1 s1 ops).init n2 s2).1 ∧
    ((afterInit u n1 s1 ops).init n2 s2).1.slots.length = n1 + n2 ∧
    ((afterInit u n1 s1 ops).init n2 s2).1.freeSlots_.length +
      ((afterInit u n1 s1 ops).init n2 s2).1.frameSlotMapping_.length = n1 + n2 ∧
    ((afterInit u n1 s1 ops).frameSlotMapping_ = [] →
      ∀ (fs : List Nat) (g : Nat), fs.Nodup → fs.length = n1 + n2 → g ∉ fs →
        (((afterInit u n1 s1 ops).init n2 s2).1.bookAll fs).2 =
          List.replicate (n1 + n2) .CallResultNew ∧
        ((((afterInit u n1 s1 ops).init n2 s2).1.bookAll fs).1.bookSlot g).2 =
          .CallResultFull) := by
  have hinv : PoolInv (afterInit u n1 s1 ops) :=
    poolInv_run u ops _ (poolInv_init n1 s1)
  have hlen : (afterInit u n1 s1 ops).slots.length = n1 :=
    (run_length u ops _).trans (init_length n1 s1 hn1 hs1)
  have hinit : (afterInit u n1 s1 ops).init n2 s2 =
      (initLoop n2 { (afterInit u n1 s1 ops) with bufferSize_ := n2, slotSize_ := s2 }, 0) := by
    unfold init
    rw [if_neg (by omega)]
  have hinv2 : PoolInv ((afterInit u n1 s1 ops).init n2 s2).1 := by
    rw [hinit]
    exact poolInv_initLoop n2 _ (poolInv_of_eq _ _ hinv rfl rfl rfl)
  have hslots : ((afterInit u n1 s1 ops).init n2 s2).1.slots.length = n1 + n2 := by
    rw [hinit]
    simp only []
    rw [initLoop_eq]
    simp [hlen]
  have hsum : ((afterInit u n1 s1 ops).init n2 s2).1.freeSlots_.length +
      ((afterInit u n1 s1 ops).init n2 s2).1.frameSlotMapping_.length = n1 + n2 := by
    have := hinv2.1.length_eq
    rw [hslots] at this
    simpa using this
  have hmap : ((afterInit u n1 s1 ops).init n2 s2).1.frameSlotMapping_ =
      (afterInit u n1 s1 ops).frameSlotMapping_ := by
    rw [hinit]
    simp only []
    rw [initLoop_eq]
  refine ⟨by rw [hinit], ?_, ?_, hinv2, hslots, hsum, ?_⟩
  · rw [hinit]
    simp only []
    rw [initLoop_eq]
  · rw [hinit]
    simp only []
    rw [initLoop_eq]
  · intro hempty fs g hnd hfs hg
    rw [hempty] at hmap
    have hfree : ((afterInit u n1 s1 ops).init n2 s2).1.freeSlots_.length = n1 + n2 := by
      rw [hmap] at hsum
      simpa using hsum
    obtain ⟨r1, r2, r3⟩ := bookAll_fresh fs ((afterInit u n1 s1 ops).init n2 s2).1 hnd
      (by intro f _; rw [hmap]; rfl) (by rw [hfree, hfs])
    refine ⟨by rw [r1, hfs], ?_⟩
    apply congrArg Prod.snd (bookSlot_full _ g ?_ ?_)
    · rw [r3 g hg, hmap]
      rfl
    · apply List.eq_nil_of_length_eq_zero
      rw [r2, hfree, hfs]
      simp

/-- C20: a second `init` adds its slots to the pool it finds instead of replacing it.
After `init n1 s1` on a fresh buffer, any calls with a result (`flush`
included) and a second `init n2 s2` (all four arguments positive), the second
`init` returns 0 and records `bufferSize_ = n2` and `slotSize_ = s2`, but the
pool partition holds over `n1 + n2` slots: the free list and the map together
have `n1 + n2` entries, which is not `bufferSize_`, and when no frame was
mapped at the second `init`, booking any `n1 + n2` pairwise distinct frames
returns New each time and only one more distinct frame finds the buffer
Full. -/
theorem reinit_adds_slots (u : Nat → List Nat → Option (List Nat)) (n1 s1 n2 s2 : Nat)
    (hn1 : 0 < n1) (hs1 : 0 < s1) (hn2 : 0 < n2) (hs2 : 0 < s2) (calls : List Call)
    (r : FrameBuffer × List Event)
    (hrun : (FrameBuffer.new.init n1 s1).1.runCalls u calls = some r) :
    (r.1.init n2 s2).2 = 0 ∧
    (r.1.init n2 s2).1.bufferSize_ = n2 ∧
    (r.1.init n2 s2).1.slotSize_ = s2 ∧
    PoolInv (r.1.init n2 s2).1 ∧
    (r.1.init n2 s2).1.slots.length = n1 + n2 ∧
    (r.1.init n2 s2).1.freeSlots_.length + (r.1.init n2 s2).1.frameSlotMapping_.length =
      n1 + n2 ∧
    (r.1.init n2 s2).1.freeSlots_.length + (r.1.init n2 s2).1.frameSlotMapping_.length ≠
      (r.1.init n2 s2).1.bufferSize_ ∧
    (r.1.frameSlotMapping_ = [] →
      ∀ (fs : List Nat) (g : Nat), fs.Nodup → fs.length = n1 + n2 → g ∉ fs →
        ((r.1.init n2 s2).1.bookAll fs).2 = List.replicate (n1 + n2) .CallResultNew ∧
        (((r.1.init n2 s2).1.bookAll fs).1.bookSlot g).2 = .CallResultFull) := by
  have hr1 : r.1 = afterInit u n1 s1 (opsOf calls) := (runCalls_ops u calls _ r hrun).1
  rw [hr1]
  obtain ⟨h1, h2, h3, h4, h5, h6, h7⟩ := reinit_ops u n1 s1 n2 s2 hn1 hs1 hn2 hs2 (opsOf calls)
  refine ⟨h1, h2, h3, h4, h5, h6, ?_, h7⟩
  rw [h6, h2]
  omega

/-- C20, at `init(2, 4)` followed at once by `init(1, 8)`: the buffer records
`bufferSize_ = 1` and `slotSize_ = 8` and holds three free slots, of 4, 4 and
8 bytes; three distinct frames are booked New before a fourth finds the
buffer Full. -/
theorem reinit_adds_slots_witness :
    ((FrameBuffer.new.init 2 4).1.init 1 8).1.bufferSize_ = 1 ∧
    ((FrameBuffer.new.init 2 4).1.init 1 8).1.slotSize_ = 8 ∧
    ((FrameBuffer.new.init 2 4).1.init 1 8).1.slots.map Slot.dataLength_ = [4, 4, 8] ∧
    ((FrameBuffer.new.init 2 4).1.init 1 8).1.freeSlots_.length +
      ((FrameBuffer.new.init 2 4).1.init 1 8).1.frameSlotMapping_.length = 2 + 1 ∧
    (((FrameBuffer.new.init 2 4).1.init 1 8).1.bookAll [5, 6, 7]).2 =
      List.replicate (2 + 1) .CallResultNew ∧
    ((((FrameBuffer.new.init 2 4).1.init 1 8).1.bookAll [5, 6, 7]).1.bookSlot 8).2 =
      .CallResultFull :=
  have h := reinit_adds_slots (fun _ _ => none) 2 4 1 8 (by decide) (by decide) (by decide)
    (by decide) [] ((FrameBuffer.new.init 2 4).1, []) rfl
  ⟨h.2.1, h.2.2.1, by decide, h.2.2.2.2.2.1,
    (h.2.2.2.2.2.2.2 (by decide) [5, 6, 7] 8 (by decide) rfl (by decide)).1,
    (h.2.2.2.2.2.2.2 (by decide) [5, 6, 7] 8 (by decide) rfl (by decide)).2⟩

end FrameBuffer

/-! ## `flush` and the iterator it erases -/

namespace FrameBuffer

/-- C17, at the scenario of the claim (frames 1, 2, 3 mapped, frame 2 Locked): the loop
of `flush` frees frame 1, queues one FreeSlot event, and has then erased the
entry under its iterator; frame 3 is still mapped, its slot still New, when
the iterator is invalid. -/
theorem flush_erases_under_iterator :
    ((afterInit (fun _ _ => none) 3 4
      [.bookSlot 1, .bookSlot 2, .bookSlot 3, .lockSlot 2]).getState 2).2 = .StateLocked ∧
    ((afterInit (fun _ _ => none) 3 4
        [.bookSlot 1, .bookSlot 2, .bookSlot 3, .lockSlot 2]).flushUntilErase
      (afterInit (fun _ _ => none) 3 4
        [.bookSlot 1, .bookSlot 2, .bookSlot 3, .lockSlot 2]).frameSlotMapping_).2 = false ∧
    ((afterInit (fun _ _ => none) 3 4
        [.bookSlot 1, .bookSlot 2, .bookSlot 3, .lockSlot 2]).flushUntilErase
      (afterInit (fun _ _ => none) 3 4
        [.bookSlot 1, .bookSlot 2, .bookSlot 3,
         .lockSlot 2]).frameSlotMapping_).1.frameSlotMapping_ = [(2, 1), (3, 0)] ∧
    (((afterInit (fun _ _ => none) 3 4
        [.bookSlot 1, .bookSlot 2, .bookSlot 3, .lockSlot 2]).flushUntilErase
      (afterInit (fun _ _ => none) 3 4
        [.bookSlot 1, .bookSlot 2, .bookSlot 3,
         .lockSlot 2]).frameSlotMapping_).1.getState 3).2 = .StateNew ∧
    ((afterInit (fun _ _ => none) 3 4
        [.bookSlot 1, .bookSlot 2, .bookSlot 3, .lockSlot 2]).flushUntilErase
      (afterInit (fun _ _ => none) 3 4
        [.bookSlot 1, .bookSlot 2, .bookSlot 3,
         .lockSlot 2]).frameSlotMapping_).1.pendingEvents_.length =
      (afterInit (fun _ _ => none) 3 4
        [.bookSlot 1, .bookSlot 2, .bookSlot 3, .lockSlot 2]).pendingEvents_.length + 1 := by
  decide

end FrameBuffer

/-! ## Mapped slots are in use -/

namespace FrameBuffer

/-- Only a `bookSlot f` that returns New maps a frame `f` that was not mapped. -/
theorem unmapped_step (u : Nat → List Nat → Option (List Nat)) (fb : FrameBuffer) (op : Op)
    (f : Nat) (h : mapFind fb.frameSlotMapping_ f = none)
    (hafter : mapFind (fb.step u op).frameSlotMapping_ f ≠ none) :
    op = .bookSlot f ∧ (fb.bookSlot f).2 = .CallResultNew := by
  cases op with
  | bookSlot g =>
    simp only [step] at hafter
    cases hg : mapFind fb.frameSlotMapping_ g with
    | some b =>
      rw [bookSlot_mapped fb g b hg] at hafter
      exact absurd h hafter
    | none =>
      rcases List.eq_nil_or_concat fb.freeSlots_ with he | ⟨rest, b, he⟩
      · rw [bookSlot_full fb g hg he] at hafter
        exact absurd h hafter
      · have he2 : fb.freeSlots_ = rest ++ [b] := by simpa using he
        by_cases hgf : f = g
        · subst hgf
          exact ⟨rfl, by rw [bookSlot_new fb f b rest hg he2]⟩
        · rw [bookSlot_new fb g b rest hg he2] at hafter
          simp only [withSlot] at hafter
          rw [mapFind_mapInsert_ne _ _ _ _ hgf] at hafter
          exact absurd h hafter
  | markSlotAssembling g n sz =>
    exfalso
    apply hafter
    simp only [step]
    cases hg : mapFind fb.frameSlotMapping_ g with
    | none => rw [markSlotAssembling_unmapped fb g n sz hg]; exact h
    | some b => rw [markSlotAssembling_mapped fb g b n sz hg]; exact h
  | appendSegment g k len data =>
    exfalso
    apply hafter
    simp only [step]
    cases hg : mapFind fb.frameSlotMapping_ g with
    | none => rw [appendSegment_unmapped fb g k len data hg]; exact h
    | some b =>
      by_cases hst : (fb.deref b).state_ = .StateAssembling
      · rw [appendSegment_stored fb g b k len data hg hst]; exact h
      · rw [appendSegment_refused fb g b k len data hg hst]; exact h
  | notifySegmentTimeout g k =>
    exfalso
    apply hafter
    simp only [step]
    cases hg : mapFind fb.frameSlotMapping_ g with
    | none => rw [notifySegmentTimeout_unmapped fb g k hg]; exact h
    | some b => rw [notifySegmentTimeout_mapped fb g k b hg]; exact h
  | lockSlot g =>
    exfalso
    apply hafter
    simp only [step]
    cases hg : mapFind fb.frameSlotMapping_ g with
    | none => rw [lockSlot_unmapped fb g hg]; exact h
    | some b => rw [lockSlot_mapped fb g b hg]; exact h
  | unlockSlot g =>
    exfalso
    apply hafter
    simp only [step]
    cases hg : mapFind fb.frameSlotMapping_ g with
    | none => rw [unlockSlot_unmapped fb g hg]; exact h
    | some b => rw [unlockSlot_mapped fb g b hg]; exact h
  | markSlotFree g =>
    exfalso
    apply hafter
    simp only [step]
    cases hg : mapFind fb.frameSlotMapping_ g with
    | none => rw [markSlotFree_unmapped fb g hg]; exact h
    | some b =>
      by_cases hl : (fb.deref b).state_ = .StateLocked
      · rw [markSlotFree_locked fb g b hg hl]; exact h
      · rw [markSlotFree_mapped fb g b hg hl]
        exact mapFind_mapErase_none _ _ _ h
  | getState g =>
    exfalso
    apply hafter
    simp only [step, getState_fst]
    exact h
  | getEncodedImage g =>
    exfalso
    apply hafter
    simp only [step, getEncodedImage_fst]
    exact h
  | waitForEvents mask signals =>
    exfalso
    apply hafter
    simp only [step, waitForEvents]
    rw [(waitLoop_pool signals mask { fb with forcedRelease_ := false }).2.2]
    exact h
  | release => exact absurd h hafter

theorem mappedLive_step (u : Nat → List Nat → Option (List Nat)) (fb : FrameBuffer) (op : Op)
    (h : Inv fb) (hlive : MappedLive fb) : MappedLive (fb.step u op) := by
  intro f a hma
  cases hmb : mapFind fb.frameSlotMapping_ f with
  | none =>
    obtain ⟨hop, hnew⟩ := unmapped_step u fb op f hmb (by rw [hma]; simp)
    subst hop
    obtain ⟨a1, h1, h2, _⟩ := bookSlot_new_slot fb (fb.bookSlot f).1 f h
      (Prod.ext rfl hnew)
    simp only [step] at hma ⊢
    rw [h1] at hma
    rw [← Option.some.inj hma]
    left
    simp [Slot.effState, h2]
  | some b =>
    obtain ⟨hm1, hstep⟩ := step_slot u fb op f b h hmb (by rw [hma]; rfl)
    rw [hm1] at hma
    rw [← Option.some.inj hma]
    exact (ready_step f b op _ _ _ hstep (hlive f b hmb)).1

theorem mappedLive_run (u : Nat → List Nat → Option (List Nat)) (ops : List Op) :
    ∀ fb : FrameBuffer, Inv fb → MappedLive fb → MappedLive (fb.run u ops) := by
  induction ops with
  | nil => intro fb _ h; exact h
  | cons op ops ih =>
    intro fb h hl
    exact ih _ (inv_step u fb op h) (mappedLive_step u fb op h hl)

theorem init_map (n s : Nat) : (FrameBuffer.new.init n s).1.frameSlotMapping_ = [] := by
  unfold init
  split_ifs
  · rfl
  · simp only []
    rw [initLoop_eq]
    rfl

theorem mappedLive_afterInit (u : Nat → List Nat → Option (List Nat)) (n s : Nat)
    (ops : List Op) : MappedLive (afterInit u n s ops) := by
  apply mappedLive_run u ops _ (inv_init n s)
  intro f a hm
  rw [init_map] at hm
  simp [mapFind] at hm

/-- A live slot is not Free. -/
theorem Slot.Live.not_free (s : Slot) (h : s.Live) : s.state_ ≠ .StateFree := by
  intro hf
  rcases h with h | h | h <;> simp [Slot.effState, hf] at h

/-- C12: on a buffer reached by `init` and any calls, for a mapped frame `f`:
after `lockSlot f` the state of its slot is Locked, and `markSlotFree f` then
returns the buffer as it is, so the slot stays Locked with its stashed state
and counters, `f` stays mapped to the same slot, `freeSlots_` is the same and
no event is queued.  (A `flush` that is defined leaves the buffer as it is,
`runCalls_ops`, so the buffers reached by the calls of `Op` are all the
buffers a sequence of calls can reach.) -/
theorem lockSlot_then_markSlotFree (u : Nat → List Nat → Option (List Nat)) (n s : Nat)
    (ops : List Op) (f a : Nat)
    (hm : mapFind (afterInit u n s ops).frameSlotMapping_ f = some a) :
    (((afterInit u n s ops).lockSlot f).getState f).2 = .StateLocked ∧
    mapFind ((afterInit u n s ops).lockSlot f).frameSlotMapping_ f = some a ∧
    ((afterInit u n s ops).lockSlot f).markSlotFree f = (afterInit u n s ops).lockSlot f := by
  have hlive := mappedLive_afterInit u n s ops f a hm
  have hnf := Slot.Live.not_free _ hlive
  have hv : a < (afterInit u n s ops).slots.length := deref_state_valid _ a hnf
  have hlock := lockSlot_mapped (afterInit u n s ops) f a hm
  have hm1 : mapFind ((afterInit u n s ops).lockSlot f).frameSlotMapping_ f = some a := by
    rw [hlock]; exact hm
  have hl : (((afterInit u n s ops).lockSlot f).deref a).state_ = .StateLocked := by
    rw [hlock, deref_withSlot_self _ a _ hv]
    generalize (afterInit u n s ops).deref a = sl at hnf
    obtain ⟨dl, st, sst, ssz, stored, num, asz, fn, dat⟩ := sl
    cases st <;> simp_all [Slot.markLocked]
  exact ⟨by rw [getState_mapped _ f a hm1]; exact hl, hm1, markSlotFree_locked _ f a hm1 hl⟩

/-- C12, at a Ready frame: locked, then `markSlotFree` changes nothing. -/
theorem lockSlot_then_markSlotFree_witness :
    mapFind (afterInit (fun _ _ => none) 1 4 [.bookSlot 1, .markSlotAssembling 1 1 4,
      .appendSegment 1 0 4 [1, 2, 3, 4]]).frameSlotMapping_ 1 = some 0 ∧
    ((afterInit (fun _ _ => none) 1 4 [.bookSlot 1, .markSlotAssembling 1 1 4,
      .appendSegment 1 0 4 [1, 2, 3, 4]]).lockSlot 1).markSlotFree 1 =
    (afterInit (fun _ _ => none) 1 4 [.bookSlot 1, .markSlotAssembling 1 1 4,
      .appendSegment 1 0 4 [1, 2, 3, 4]]).lockSlot 1 :=
  ⟨by decide, (lockSlot_then_markSlotFree (fun _ _ => none) 1 4 [.bookSlot 1,
    .markSlotAssembling 1 1 4, .appendSegment 1 0 4 [1, 2, 3, 4]] 1 0 (by decide)).2.2⟩

end FrameBuffer

/-! ## A property of every slot, along the calls -/

namespace FrameBuffer

/-- A property of the slots, which may depend on the place of the slot in the buffer,
that every slot method keeps (for the arguments of the call, and for an
accepted `appendSegment` on the slot it is made on) holds of every slot after
the call. -/
theorem slots_step (Q : Nat → Slot → Prop) (u : Nat → List Nat → Option (List Nat))
    (fb : FrameBuffer) (op : Op)
    (hnew : ∀ i s g, Q i s → Q i (s.markNew g)) (hfree : ∀ i s, Q i s → Q i s.markFree)
    (hlock : ∀ i s, Q i s → Q i s.markLocked) (hunlock : ∀ i s, Q i s → Q i s.markUnlocked)
    (hasm : ∀ f n sz, op = .markSlotAssembling f n sz →
      ∀ i s, Q i s → Q i (s.markAssembling n sz))
    (happ : ∀ f k len data b, op = .appendSegment f k len data →
      mapFind fb.frameSlotMapping_ f = some b → (fb.deref b).state_ = .StateAssembling →
      Q b (fb.deref b) → Q b ((fb.deref b).appendSegment k len data).1)
    (h : ∀ slot, Q slot (fb.deref slot)) : ∀ slot, Q slot ((fb.step u op).deref slot) := by
  intro slot
  have upd : ∀ (fb1 : FrameBuffer) (a : Nat) (x : Slot), fb1.slots = fb.slots.set a x →
      Q a x → Q slot (fb1.deref slot) := by
    intro fb1 a x hs hx
    by_cases hv : a < fb.slots.length
    · by_cases hne : slot = a
      · rw [hne, deref_set_self fb fb1 a x hs hv]
        exact hx
      · rw [deref_set_ne fb fb1 a slot x hs hne]
        exact h slot
    · rw [deref_set_invalid fb fb1 a slot x hs hv]
      exact h slot
  cases op with
  | bookSlot g =>
    simp only [step]
    cases hg : mapFind fb.frameSlotMapping_ g with
    | some b => rw [bookSlot_mapped fb g b hg]; exact h slot
    | none =>
      rcases List.eq_nil_or_concat fb.freeSlots_ with he | ⟨rest, b, he⟩
      · rw [bookSlot_full fb g hg he]; exact h slot
      · rw [bookSlot_new fb g b rest hg (by simpa using he)]
        exact upd _ b _ rfl (hnew b _ g (h b))
  | markSlotAssembling g n sz =>
    simp only [step]
    cases hg : mapFind fb.frameSlotMapping_ g with
    | none => rw [markSlotAssembling_unmapped fb g n sz hg]; exact h slot
    | some b =>
      rw [markSlotAssembling_mapped fb g b n sz hg]
      exact upd _ b _ rfl (hasm g n sz rfl b _ (h b))
  | appendSegment g k len data =>
    simp only [step]
    cases hg : mapFind fb.frameSlotMapping_ g with
    | none => rw [appendSegment_unmapped fb g k len data hg]; exact h slot
    | some b =>
      by_cases hst : (fb.deref b).state_ = .StateAssembling
      · rw [appendSegment_stored fb g b k len data hg hst]
        exact upd _ b _ rfl (happ g k len data b rfl hg hst (h b))
      · rw [appendSegment_refused fb g b k len data hg hst]; exact h slot
  | notifySegmentTimeout g k =>
    simp only [step]
    cases hg : mapFind fb.frameSlotMapping_ g with
    | none => rw [notifySegmentTimeout_unmapped fb g k hg]; exact h slot
    | some b =>
      rw [notifySegmentTimeout_mapped fb g k b hg]
      exact h slot
  | lockSlot g =>
    simp only [step]
    cases hg : mapFind fb.frameSlotMapping_ g with
    | none => rw [lockSlot_unmapped fb g hg]; exact h slot
    | some b =>
      rw [lockSlot_mapped fb g b hg]
      exact upd _ b _ rfl (hlock b _ (h b))
  | unlockSlot g =>
    simp only [step]
    cases hg : mapFind fb.frameSlotMapping_ g with
    | none => rw [unlockSlot_unmapped fb g hg]; exact h slot
    | some b =>
      rw [unlockSlot_mapped fb g b hg]
      exact upd _ b _ rfl (hunlock b _ (h b))
  | markSlotFree g =>
    simp only [step]
    cases hg : mapFind fb.frameSlotMapping_ g with
    | none => rw [markSlotFree_unmapped fb g hg]; exact h slot
    | some b =>
      by_cases hl : (fb.deref b).state_ = .StateLocked
      · rw [markSlotFree_locked fb g b hg hl]; exact h slot
      · rw [markSlotFree_mapped fb g b hg hl]
        exact upd _ b _ rfl (hfree b _ (h b))
  | getState g => simp only [step, getState_fst]; exact h slot
  | getEncodedImage g => simp only [step, getEncodedImage_fst]; exact h slot
  | waitForEvents mask signals =>
    simp only [step, waitForEvents]
    rw [deref_congr fb _ slot
      (waitLoop_pool signals mask { fb with forcedRelease_ := false }).1]
    exact h slot
  | release => exact h slot

end FrameBuffer

/-! ## The counters of a slot -/

theorem Slot.counted_new (S k : Nat) : (Slot.new k).Counted S := by
  simp [Slot.Counted, Slot.new, Slot.effState]

theorem Slot.counted_markNew (S : Nat) (s : Slot) (g : Nat) (h : s.Counted S) :
    (s.markNew g).Counted S := by
  unfold Slot.markNew
  split_ifs
  · simp [Slot.Counted, Slot.effState]
  · exact h

theorem Slot.counted_markFree (S : Nat) (s : Slot) (h : s.Counted S) :
    s.markFree.Counted S := by
  unfold Slot.markFree
  split_ifs
  · exact h
  · simp [Slot.Counted, Slot.effState]

theorem Slot.counted_markLocked (S : Nat) (s : Slot) (h : s.Counted S) :
    s.markLocked.Counted S := by
  have he := Slot.effState_markLocked s
  have hf : s.markLocked.storedSegments_ = s.storedSegments_ ∧
      s.markLocked.segmentsNum_ = s.segmentsNum_ ∧
      s.markLocked.assembledDataSize_ = s.assembledDataSize_ ∧
      s.markLocked.segmentSize_ = s.segmentSize_ := by
    unfold Slot.markLocked
    split_ifs <;> exact ⟨rfl, rfl, rfl, rfl⟩
  unfold Slot.Counted
  rw [he, hf.1, hf.2.1, hf.2.2.1, hf.2.2.2]
  exact h

theorem Slot.counted_markUnlocked (S : Nat) (s : Slot) (h : s.Counted S) :
    s.markUnlocked.Counted S := by
  have he := Slot.effState_markUnlocked s
  have hf : s.markUnlocked.storedSegments_ = s.storedSegments_ ∧
      s.markUnlocked.segmentsNum_ = s.segmentsNum_ ∧
      s.markUnlocked.assembledDataSize_ = s.assembledDataSize_ ∧
      s.markUnlocked.segmentSize_ = s.segmentSize_ := by
    unfold Slot.markUnlocked
    split_ifs <;> exact ⟨rfl, rfl, rfl, rfl⟩
  unfold Slot.Counted
  rw [he, hf.1, hf.2.1, hf.2.2.1, hf.2.2.2]
  exact h

theorem Slot.counted_markAssembling (S : Nat) (s : Slot) (n sz : Nat) (hn : 1 ≤ n)
    (hfit : n * sz ≤ S) (h : s.Counted S) : (s.markAssembling n sz).Counted S := by
  unfold Slot.markAssembling
  split_ifs with hst
  · obtain ⟨_, _, h3, h4, _⟩ := h
    have h0 : s.storedSegments_ = 0 := h3 (by simp [Slot.effState, hst])
    rw [h0, Nat.zero_mul] at h4
    refine ⟨?_, ?_, ?_, ?_, ?_⟩
    · show s.storedSegments_ ≤ n
      omega
    · intro _
      show s.storedSegments_ < n
      omega
    · intro _
      exact h0
    · show s.assembledDataSize_ ≤ s.storedSegments_ * sz
      rw [h0, Nat.zero_mul]
      exact h4
    · intro _
      exact hfit
  · exact h

theorem Slot.counted_appendSegment (S : Nat) (s : Slot) (k len : Nat) (data : List Nat)
    (hst : s.state_ = .StateAssembling) (hlen : len ≤ s.segmentSize_) (h : s.Counted S) :
    (s.appendSegment k len data).1.Counted S := by
  rw [Slot.appendSegment_assembling s k len data hst]
  obtain ⟨_, h2, _, h4, h5⟩ := h
  have heff : s.effState = .StateAssembling := by simp [Slot.effState, hst]
  have hlt : s.storedSegments_ < s.segmentsNum_ := h2 heff
  have hmul : (s.storedSegments_ + 1) * s.segmentSize_ =
      s.storedSegments_ * s.segmentSize_ + s.segmentSize_ := Nat.succ_mul _ _
  refine ⟨?_, ?_, ?_, ?_, ?_⟩
  · show s.storedSegments_ + 1 ≤ s.segmentsNum_
    omega
  · intro heff1
    show s.storedSegments_ + 1 < s.segmentsNum_
    by_cases hc : s.storedSegments_ + 1 = s.segmentsNum_
    · simp [Slot.effState, hc] at heff1
    · omega
  · intro hno
    exfalso
    apply hno
    by_cases hc : s.storedSegments_ + 1 = s.segmentsNum_
    · right
      simp [Slot.effState, hc]
    · left
      simp [Slot.effState, hc]
  · show s.assembledDataSize_ + len ≤ (s.storedSegments_ + 1) * s.segmentSize_
    omega
  · intro _
    exact h5 (Or.inl heff)

/-- What the counters of a slot say once the invariant holds: no more segments stored
than expected, and no more bytes counted than the slot has. -/
theorem Slot.Counted.bounds (S : Nat) (s : Slot) (h : s.Counted S) :
    s.storedSegments_ ≤ s.segmentsNum_ ∧ s.assembledDataSize_ ≤ S := by
  obtain ⟨h1, _, h3, h4, h5⟩ := h
  refine ⟨h1, ?_⟩
  by_cases hst : s.effState = .StateAssembling ∨ s.effState = .StateReady
  · exact le_trans h4 (le_trans (Nat.mul_le_mul_right _ h1) (h5 hst))
  · rw [h3 hst, Nat.zero_mul] at h4
    omega

theorem Slot.dataLength_appendSegment (s : Slot) (k len : Nat) (data : List Nat) :
    (s.appendSegment k len data).1.dataLength_ = s.dataLength_ := by
  by_cases hst : s.state_ = .StateAssembling
  · rw [Slot.appendSegment_assembling s k len data hst]
  · unfold Slot.appendSegment
    simp only [hst, not_false_eq_true, if_true]

namespace FrameBuffer

/-- The size of a slot is fixed when the slot is created: no call changes
`dataLength_`. -/
theorem dataLength_step (u : Nat → List Nat → Option (List Nat)) (S n : Nat)
    (fb : FrameBuffer) (op : Op) (h : ∀ slot, slot < n → (fb.deref slot).dataLength_ = S) :
    ∀ slot, slot < n → ((fb.step u op).deref slot).dataLength_ = S := by
  apply slots_step (fun i s => i < n → s.dataLength_ = S) u fb op ?_ ?_ ?_ ?_ ?_ ?_ h
  · intro i s g hq hi
    rw [← hq hi]
    unfold Slot.markNew
    split_ifs <;> rfl
  · intro i s hq hi
    rw [← hq hi]
    unfold Slot.markFree
    split_ifs <;> rfl
  · intro i s hq hi
    rw [← hq hi]
    unfold Slot.markLocked
    split_ifs <;> rfl
  · intro i s hq hi
    rw [← hq hi]
    unfold Slot.markUnlocked
    split_ifs <;> rfl
  · intro f k sz _ i s hq hi
    rw [← hq hi]
    unfold Slot.markAssembling
    split_ifs <;> rfl
  · intro f k len data b _ _ _ hq hi
    rw [Slot.dataLength_appendSegment]
    exact hq hi

theorem dataLength_runCalls (u : Nat → List Nat → Option (List Nat)) (S n : Nat)
    (calls : List Call) : ∀ (fb : FrameBuffer) (r : FrameBuffer × List Event),
    (∀ slot, slot < n → (fb.deref slot).dataLength_ = S) →
    fb.runCalls u calls = some r → ∀ slot, slot < n → (r.1.deref slot).dataLength_ = S := by
  induction calls with
  | nil =>
    intro fb r h hr
    rw [runCalls_nil] at hr
    rw [← Option.some.inj hr]
    exact h
  | cons c cs ih =>
    intro fb r h hr
    cases c with
    | flush => exact ih fb r h (runCalls_flush u fb cs r hr).2
    | op o =>
      rw [runCalls_op] at hr
      cases hr2 : (fb.step u o).runCalls u cs with
      | none => rw [hr2] at hr; simp at hr
      | some r2 =>
        rw [hr2] at hr
        rw [← Option.some.inj hr]
        exact ih _ r2 (dataLength_step u S n fb o h) hr2

theorem dataLength_init (n s : Nat) (hn : 0 < n) (hs : 0 < s) (slot : Nat) (h : slot < n) :
    ((FrameBuffer.new.init n s).1.deref slot).dataLength_ = s := by
  unfold init
  rw [if_neg (by omega)]
  simp only []
  rw [initLoop_eq]
  simp [deref, FrameBuffer.new, List.getElem?_replicate, h, Slot.new]

theorem counted_step (u : Nat → List Nat → Option (List Nat)) (S : Nat) (fb : FrameBuffer)
    (op : Op) (hv : fb.validArgs S op = true) (h : ∀ slot, (fb.deref slot).Counted S) :
    ∀ slot, ((fb.step u op).deref slot).Counted S := by
  apply slots_step (fun _ => Slot.Counted S) u fb op
    (fun _ s g => Slot.counted_markNew S s g) (fun _ => Slot.counted_markFree S)
    (fun _ => Slot.counted_markLocked S) (fun _ => Slot.counted_markUnlocked S) ?_ ?_ h
  · intro f n sz heq _ s hs
    rw [heq] at hv
    simp only [validArgs, decide_eq_true_eq] at hv
    exact Slot.counted_markAssembling S s n sz hv.1 hv.2 hs
  · intro f k len data b heq hm hst hs
    rw [heq] at hv
    simp only [validArgs, decide_eq_true_eq, slotOf_mapped fb f b hm] at hv
    exact Slot.counted_appendSegment S (fb.deref b) k len data hst (hv hst) hs

theorem counted_runCalls (u : Nat → List Nat → Option (List Nat)) (S : Nat)
    (calls : List Call) : ∀ (fb : FrameBuffer) (r : FrameBuffer × List Event),
    fb.validCalls u S calls = true → (∀ slot, (fb.deref slot).Counted S) →
    fb.runCalls u calls = some r → ∀ slot, (r.1.deref slot).Counted S := by
  induction calls with
  | nil =>
    intro fb r _ h hr
    rw [runCalls_nil] at hr
    rw [← Option.some.inj hr]
    exact h
  | cons c cs ih =>
    intro fb r hv h hr
    cases c with
    | flush =>
      obtain ⟨hs, hr2⟩ := runCalls_flush u fb cs r hr
      simp only [validCalls, hs, Bool.true_and] at hv
      exact ih fb r hv h hr2
    | op o =>
      simp only [validCalls, stepCall_op, Bool.and_eq_true] at hv
      rw [runCalls_op] at hr
      cases hr2 : (fb.step u o).runCalls u cs with
      | none => rw [hr2] at hr; simp at hr
      | some r2 =>
        rw [hr2] at hr
        rw [← Option.some.inj hr]
        exact ih _ r2 hv.2 (counted_step u S fb o hv.1 h) hr2

theorem counted_init (S n s : Nat) (slot : Nat) :
    ((FrameBuffer.new.init n s).1.deref slot).Counted S := by
  unfold init
  split_ifs with h0
  · simp only [deref, FrameBuffer.new, List.getD_eq_getElem?_getD, List.getElem?_nil,
      Option.getD_none]
    exact Slot.counted_new S 0
  · simp only []
    rw [initLoop_eq]
    simp only [deref, FrameBuffer.new, List.nil_append, List.getD_eq_getElem?_getD,
      List.getElem?_replicate]
    split_ifs <;> exact Slot.counted_new S _

/-- C11 as stated fails.  With three segments of two bytes announced for a slot of four
bytes, the same in-range segment appended three times leaves
`assembledDataSize_ = 6` in a slot of size 4; after `markSlotAssembling` with
`totalSegments = 0` one append leaves `storedSegments_ = 1` with
`segmentsNum_ = 0`; and with two segments of two bytes announced, a segment of
four bytes at offset 0, appended twice, leaves `assembledDataSize_ = 8`. -/
theorem counters_counterexample :
    ((afterInit (fun _ _ => none) 1 4 [.bookSlot 1, .markSlotAssembling 1 3 2,
      .appendSegment 1 0 2 [7, 7], .appendSegment 1 0 2 [7, 7],
      .appendSegment 1 0 2 [7, 7]]).slotOf 1).assembledDataSize_ = 6 ∧
    ((afterInit (fun _ _ => none) 1 4 [.bookSlot 1, .markSlotAssembling 1 3 2,
      .appendSegment 1 0 2 [7, 7], .appendSegment 1 0 2 [7, 7],
      .appendSegment 1 0 2 [7, 7]]).slotOf 1).dataLength_ = 4 ∧
    ¬ ((afterInit (fun _ _ => none) 1 4 [.bookSlot 1, .markSlotAssembling 1 3 2,
      .appendSegment 1 0 2 [7, 7], .appendSegment 1 0 2 [7, 7],
      .appendSegment 1 0 2 [7, 7]]).slotOf 1).assembledDataSize_ ≤
      ((afterInit (fun _ _ => none) 1 4 [.bookSlot 1, .markSlotAssembling 1 3 2,
      .appendSegment 1 0 2 [7, 7], .appendSegment 1 0 2 [7, 7],
      .appendSegment 1 0 2 [7, 7]]).slotOf 1).dataLength_ ∧
    ((afterInit (fun _ _ => none) 1 4 [.bookSlot 1, .markSlotAssembling 1 0 2,
      .appendSegment 1 0 2 [7, 7]]).slotOf 1).storedSegments_ = 1 ∧
    ((afterInit (fun _ _ => none) 1 4 [.bookSlot 1, .markSlotAssembling 1 0 2,
      .appendSegment 1 0 2 [7, 7]]).slotOf 1).segmentsNum_ = 0 ∧
    ((afterInit (fun _ _ => none) 1 4 [.bookSlot 1, .markSlotAssembling 1 2 2,
      .appendSegment 1 0 4 [7, 7, 7, 7],
      .appendSegment 1 0 4 [7, 7, 7, 7]]).slotOf 1).assembledDataSize_ = 8 := by
  decide

/-- C11, amended: after a successful `init n s` and any calls, `flush` included, that
have a result and are given arguments that fit the slots (every
`markSlotAssembling` announces at least one segment and
`totalSegments * segmentSize ≤ s`, every `appendSegment` on an Assembling slot
is given at most the `segmentSize_` recorded for that slot), every slot has
`storedSegments_ ≤ segmentsNum_` and `assembledDataSize_ ≤ s`, repeated
segments included, where `s` is the `dataLength_` of each of the `n` slots;
the bytes counted are at most `segmentSize_` per stored segment. -/
theorem counters_bounded (u : Nat → List Nat → Option (List Nat)) (n s : Nat)
    (hn : 0 < n) (hs : 0 < s) (calls : List Call) (r : FrameBuffer × List Event)
    (hrun : (FrameBuffer.new.init n s).1.runCalls u calls = some r)
    (hv : (FrameBuffer.new.init n s).1.validCalls u s calls = true) (slot : Nat) :
    (FrameBuffer.new.init n s).2 = 0 ∧
    (r.1.deref slot).storedSegments_ ≤ (r.1.deref slot).segmentsNum_ ∧
    (r.1.deref slot).assembledDataSize_ ≤ s ∧
    (slot < n → (r.1.deref slot).dataLength_ = s) ∧
    (r.1.deref slot).assembledDataSize_ ≤
      (r.1.deref slot).storedSegments_ * (r.1.deref slot).segmentSize_ := by
  have h := counted_runCalls u s calls _ r hv (counted_init s n s) hrun slot
  obtain ⟨h1, h2⟩ := Slot.Counted.bounds s _ h
  refine ⟨?_, h1, h2, ?_, h.2.2.2.1⟩
  · unfold init
    rw [if_neg (by omega)]
  · exact dataLength_runCalls u s n calls _ r (dataLength_init n s hn hs) hrun slot

/-- C11 amended, at `init(1, 4)` with two segments of two bytes announced (4 ≤ 4) and
segment 0 appended twice, then a `flush` made while the frame is Locked: two
segments stored of two expected and four bytes counted in a slot of four. -/
theorem counters_bounded_witness :
    (FrameBuffer.new.init 1 4).1.runCalls (fun _ _ => none)
      [.op (.bookSlot 1), .op (.markSlotAssembling 1 2 2),
       .op (.appendSegment 1 0 2 [7, 7]), .op (.appendSegment 1 0 2 [7, 7]),
       .op (.lockSlot 1), .flush, .op (.unlockSlot 1)] =
      some ((afterInit (fun _ _ => none) 1 4 [.bookSlot 1, .markSlotAssembling 1 2 2,
        .appendSegment 1 0 2 [7, 7], .appendSegment 1 0 2 [7, 7], .lockSlot 1,
        .unlockSlot 1]),
        (FrameBuffer.new.init 1 4).1.runEmitted (fun _ _ => none)
          [.bookSlot 1, .markSlotAssembling 1 2 2, .appendSegment 1 0 2 [7, 7],
           .appendSegment 1 0 2 [7, 7], .lockSlot 1, .unlockSlot 1]) ∧
    ((afterInit (fun _ _ => none) 1 4 [.bookSlot 1, .markSlotAssembling 1 2 2,
      .appendSegment 1 0 2 [7, 7], .appendSegment 1 0 2 [7, 7], .lockSlot 1,
      .unlockSlot 1]).deref 0).storedSegments_ = 2 ∧
    ((afterInit (fun _ _ => none) 1 4 [.bookSlot 1, .markSlotAssembling 1 2 2,
      .appendSegment 1 0 2 [7, 7], .appendSegment 1 0 2 [7, 7], .lockSlot 1,
      .unlockSlot 1]).deref 0).assembledDataSize_ ≤ 4 :=
  ⟨by decide, by decide,
   (counters_bounded (fun _ _ => none) 1 4 (by decide) (by decide)
    [.op (.bookSlot 1), .op (.markSlotAssembling 1 2 2),
     .op (.appendSegment 1 0 2 [7, 7]), .op (.appendSegment 1 0 2 [7, 7]),
     .op (.lockSlot 1), .flush, .op (.unlockSlot 1)]
    ((afterInit (fun _ _ => none) 1 4 [.bookSlot 1, .markSlotAssembling 1 2 2,
      .appendSegment 1 0 2 [7, 7], .appendSegment 1 0 2 [7, 7], .lockSlot 1,
      .unlockSlot 1]),
      (FrameBuffer.new.init 1 4).1.runEmitted (fun _ _ => none)
        [.bookSlot 1, .markSlotAssembling 1 2 2, .appendSegment 1 0 2 [7, 7],
         .appendSegment 1 0 2 [7, 7], .lockSlot 1, .unlockSlot 1])
    (by decide) (by decide) 0).2.2.1⟩

end FrameBuffer

end ndnrtc
